import Mathlib

/-!
AGE / GQE engine core: a shallow embedding.

The development follows the C++ sources of the engine:

* `include/GQE/Core/classes/PropertyManager.hpp`, `include/AGE/Core/interfaces/TProperty.hpp`
  (the per-entity property bag),
* `include/AGE/Core/interfaces/TAsset.hpp` (the RAII asset handle),
* `src/GQE/Entity/interfaces/ISystem.cpp`, `src/GQE/Entity/interfaces/IEntity.cpp`
  (the entity / system registries) and the concrete systems under
  `src/GQE/Entity/systems/`.

Conventions.  A `std::map<K,V>` is an association list kept in key order, a
`std::deque<T>` is a list, a pointer is a natural number (an address), the
unsigned machine integers are naturals.  Objects live in heaps that are total
functions from addresses to records.  Undefined behaviour of the C++ code and
an exhausted recursion budget are explicit faults.
-/

/-! ## std::map -/

/-- Lexicographic comparison of two code-unit sequences, as `std::string::operator<`. -/
def lexLess : List Nat → List Nat → Bool
  | [], [] => false
  | [], _ :: _ => true
  | _ :: _, [] => false
  | a :: as, b :: bs => if a < b then true else if b < a then false else lexLess as bs

/-- The comparison `std::less<Key>` a `std::map` orders its keys with. -/
class StdLess (κ : Type) where
  /-- The strict order on keys. -/
  less : κ → κ → Bool

instance instStdLessNat : StdLess Nat := ⟨fun a b => decide (a < b)⟩

instance instStdLessString : StdLess String :=
  ⟨fun a b => lexLess (a.data.map Char.toNat) (b.data.map Char.toNat)⟩

/-- A `std::map<κ, β>`: its (key, value) pairs in iteration order. -/
abbrev StdMap (κ β : Type) := List (κ × β)

namespace StdMap

variable {κ β : Type} [DecidableEq κ]

/-- The value `std::map::find` reaches, `none` for `end()`. -/
def find : StdMap κ β → κ → Option β
  | [], _ => none
  | (k', v) :: m, k => if k' = k then some v else find m k

/-- The assignment `m[k] = v`: overwrites the mapping of `k`, or creates it at
its place in key order. -/
def assign [StdLess κ] : StdMap κ β → κ → β → StdMap κ β
  | [], k, v => [(k, v)]
  | (k', v') :: m, k, v =>
    if k' = k then (k', v) :: m
    else if StdLess.less k k' then (k, v) :: (k', v') :: m
    else (k', v') :: assign m k v

/-- The call `m.insert(std::pair(k, v))`: keeps an existing mapping of `k`. -/
def insert [StdLess κ] : StdMap κ β → κ → β → StdMap κ β
  | [], k, v => [(k, v)]
  | (k', v') :: m, k, v =>
    if k' = k then (k', v') :: m
    else if StdLess.less k k' then (k, v) :: (k', v') :: m
    else (k', v') :: insert m k v

/-- The call `m.erase(it)` for the iterator `find` returned for `k`. -/
def erase (m : StdMap κ β) (k : κ) : StdMap κ β :=
  m.filter (fun p => decide (p.1 ≠ k))

end StdMap

/-! ## PropertyManager -/

/-- Property identifiers are strings (`"vVelocity"`, `"bVisible"`, ...). -/
abbrev typePropertyID := String

/-- An `IProperty` together with the `TProperty<TYPE>` payload it really is:
`mType` stands for `typeid(TYPE).name()` recorded by the `TProperty` constructor,
`mValue` is the value of that type. -/
structure IProperty (Tag : Type) (Val : Tag → Type) where
  /-- The recorded type name. -/
  mType : Tag
  /-- The property ID given to the constructor. -/
  mID : typePropertyID
  /-- The stored value, `TProperty<TYPE>::mValue`. -/
  mValue : Val mType

/-- The `PropertyManager`: `mList` maps property IDs to the properties. -/
structure PropertyManager (Tag : Type) (Val : Tag → Type) where
  /-- The map of all properties. -/
  mList : StdMap typePropertyID (IProperty Tag Val)

namespace PropertyManager

variable {Tag : Type} [DecidableEq Tag] {Val : Tag → Type} [∀ t, Inhabited (Val t)]

/-- A manager without properties. -/
def empty : PropertyManager Tag Val := ⟨[]⟩

/-- The template `get<TYPE>`: the stored value when the ID is found and the
recorded type name is that of `TYPE`, the default-constructed `TYPE()` otherwise. -/
def get (pm : PropertyManager Tag Val) (T : Tag) (thePropertyID : typePropertyID) : Val T :=
  match StdMap.find pm.mList thePropertyID with
  | some p => if h : p.mType = T then h ▸ p.mValue else default
  | none => default

/-- The template `set<TYPE>`: `setValue(theValue)` on the found property when its
recorded type name is that of `TYPE`; nothing otherwise. -/
def set (pm : PropertyManager Tag Val) (T : Tag) (thePropertyID : typePropertyID)
    (theValue : Val T) : PropertyManager Tag Val :=
  match StdMap.find pm.mList thePropertyID with
  | some p =>
    if p.mType = T then
      ⟨StdMap.assign pm.mList thePropertyID ⟨T, p.mID, theValue⟩⟩
    else pm
  | none => pm

/-- The template `add<TYPE>`: only when the ID is not found, a new
`TProperty<TYPE>(thePropertyID)` with value `theValue` is stored under its ID. -/
def add (pm : PropertyManager Tag Val) (T : Tag) (thePropertyID : typePropertyID)
    (theValue : Val T) : PropertyManager Tag Val :=
  match StdMap.find pm.mList thePropertyID with
  | none => ⟨StdMap.assign pm.mList thePropertyID ⟨T, thePropertyID, theValue⟩⟩
  | some _ => pm

end PropertyManager

/-- Two C++ value types, used to instantiate the templates at concrete inputs. -/
inductive CppType where
  | bool
  | uint32
deriving DecidableEq

/-- The values of a `CppType`. -/
def CppType.Val : CppType → Type
  | .bool => Bool
  | .uint32 => Nat

instance instInhabitedCppVal : ∀ t, Inhabited (CppType.Val t)
  | .bool => ⟨false⟩
  | .uint32 => ⟨(0 : Nat)⟩

instance instDecEqCppVal : ∀ t, DecidableEq (CppType.Val t)
  | .bool => inferInstanceAs (DecidableEq Bool)
  | .uint32 => inferInstanceAs (DecidableEq Nat)

/-! ## TAssetHandler and TAsset -/

/-- Asset identifiers are strings, typically file names. -/
abbrev assetID := String

/-- When an asset is loaded. -/
inductive AssetLoadTime where
  | AssetLoadNow
  | AssetLoadLater
deriving DecidableEq

/-- How an asset is loaded. -/
inductive AssetLoadStyle where
  | AssetLoadFromUnknown
  | AssetLoadFromFile
  | AssetLoadFromMemory
  | AssetLoadFromNetwork
deriving DecidableEq

/-- When an asset is unloaded. -/
inductive AssetDropTime where
  | AssetDropUnspecified
  | AssetDropAtZero
  | AssetDropAtExit
deriving DecidableEq

open AssetLoadTime AssetLoadStyle AssetDropTime

/-- Modelled from the spec: the AssetRecord a handler keeps per asset ID (the
class `TAssetHandler` is not among the sources).  The owned resource itself is
left out; `filename` starts as the asset ID. -/
structure AssetRecord where
  /-- The number of references handed out and not yet dropped. -/
  referenceCount : Nat
  /-- The load-time policy. -/
  loadTime : AssetLoadTime
  /-- The load-style policy. -/
  loadStyle : AssetLoadStyle
  /-- The drop-time policy. -/
  dropTime : AssetDropTime
  /-- The file name used by a load from file. -/
  filename : String
  /-- Whether the load routine has run successfully. -/
  loaded : Bool
deriving DecidableEq

/-- A reference-counting request a handler received. -/
inductive HandlerCall where
  | getReference (theAssetID : assetID)
  | dropReference (theAssetID : assetID)
deriving DecidableEq

/-- Modelled from the spec: the state of a `TAssetHandler<TYPE>`, whose class is
not among the sources.  `mAssets` is the keyed pool of records, `loadOk` is the
outcome of the concrete handler's load strategy (`loadFromFile`, `loadFromMemory`,
`loadFromNetwork`) for an ID, and `mCalls` is a ghost record of the
`getReference` / `dropReference` requests received so far, oldest first. -/
structure TAssetHandler where
  /-- The records by asset ID. -/
  mAssets : StdMap assetID AssetRecord
  /-- Whether the load strategy of the given style succeeds for the ID. -/
  loadOk : assetID → AssetLoadStyle → Bool
  /-- The reference-counting requests received, oldest first. -/
  mCalls : List HandlerCall

/-- The value of a `TYPE*` a handler hands out: the resource of a record, or
(`none`) the handler's dummy asset. -/
abbrev AssetPtr := Option assetID

namespace TAssetHandler

/-- A handler without records whose load strategy always gives `ok`. -/
def fresh (ok : Bool) : TAssetHandler := ⟨[], fun _ _ => ok, []⟩

/-- The reference count of the record of `theAssetID`, 0 when there is no record. -/
def refCount (h : TAssetHandler) (theAssetID : assetID) : Nat :=
  match StdMap.find h.mAssets theAssetID with
  | some r => r.referenceCount
  | none => 0

/-- Whether a record of `theAssetID` exists. -/
def hasRecord (h : TAssetHandler) (theAssetID : assetID) : Bool :=
  (StdMap.find h.mAssets theAssetID).isSome

/-- Modelled from the spec: `isLoaded(id)`; a missing ID is not loaded. -/
def isLoaded (h : TAssetHandler) (theAssetID : assetID) : Bool :=
  match StdMap.find h.mAssets theAssetID with
  | some r => r.loaded
  | none => false

/-- Modelled from the spec: `getReference(id, loadTime, loadStyle, dropTime)`.
An unseen ID gets a record with reference count 0 which is then incremented to 1;
a seen ID has its count incremented; with `loadTime == Now` and the record not yet
loaded the load strategy runs and its outcome becomes `loaded`.  The pointer
returned is the record's resource once loaded and the dummy asset before. -/
def getReference (h : TAssetHandler) (theAssetID : assetID) (theLoadTime : AssetLoadTime)
    (theLoadStyle : AssetLoadStyle) (theDropTime : AssetDropTime) :
    AssetPtr × TAssetHandler :=
  let r0 : AssetRecord :=
    match StdMap.find h.mAssets theAssetID with
    | some r => r
    | none => ⟨0, theLoadTime, theLoadStyle, theDropTime, theAssetID, false⟩
  let r1 : AssetRecord := { r0 with referenceCount := r0.referenceCount + 1 }
  let r2 : AssetRecord :=
    if theLoadTime = AssetLoadNow ∧ r1.loaded = false then
      { r1 with loaded := h.loadOk theAssetID r1.loadStyle }
    else r1
  (if r2.loaded then some theAssetID else none,
   { h with mAssets := StdMap.assign h.mAssets theAssetID r2,
            mCalls := h.mCalls ++ [HandlerCall.getReference theAssetID] })

/-- Modelled from the spec: `dropReference(id)` decrements the count; when it
reaches 0 and the drop time is AtZero the record is erased.  An unknown ID is a
lookup failure, which changes nothing. -/
def dropReference (h : TAssetHandler) (theAssetID : assetID) : TAssetHandler :=
  let h1 : TAssetHandler :=
    { h with mCalls := h.mCalls ++ [HandlerCall.dropReference theAssetID] }
  match StdMap.find h.mAssets theAssetID with
  | none => h1
  | some r =>
    let r1 : AssetRecord := { r with referenceCount := r.referenceCount - 1 }
    if r1.referenceCount = 0 ∧ r1.dropTime = AssetDropAtZero then
      { h1 with mAssets := StdMap.erase h.mAssets theAssetID }
    else
      { h1 with mAssets := StdMap.assign h.mAssets theAssetID r1 }

/-- Modelled from the spec: `loadAsset(id)` forces a load attempt for an existing
record, and is a no-op returning true when the record is already loaded; a
missing ID gives false. -/
def loadAsset (h : TAssetHandler) (theAssetID : assetID) : Bool × TAssetHandler :=
  match StdMap.find h.mAssets theAssetID with
  | none => (false, h)
  | some r =>
    if r.loaded then (true, h)
    else
      let ok := h.loadOk theAssetID r.loadStyle
      (ok, { h with mAssets := StdMap.assign h.mAssets theAssetID { r with loaded := ok } })

/-- The number of `getReference` requests received for `theAssetID`. -/
def getReferenceCalls (h : TAssetHandler) (theAssetID : assetID) : Nat :=
  h.mCalls.count (HandlerCall.getReference theAssetID)

/-- The number of `dropReference` requests received for `theAssetID`. -/
def dropReferenceCalls (h : TAssetHandler) (theAssetID : assetID) : Nat :=
  h.mCalls.count (HandlerCall.dropReference theAssetID)

end TAssetHandler

/-- A `TAsset<TYPE>` handle: the asset pointer and the asset ID.  The handler
reference `mAssetHandler` is the one handler of `TYPE`, passed to every method. -/
structure TAsset where
  /-- Pointer to the loaded asset, or to the dummy asset. -/
  mAsset : AssetPtr
  /-- Asset ID specified for this asset. -/
  mAssetID : assetID
deriving DecidableEq

namespace TAsset

/-- The constructor `TAsset(theAssetID, theLoadTime, theLoadStyle, theDropTime)`. -/
def ctor (h : TAssetHandler) (theAssetID : assetID) (theLoadTime : AssetLoadTime)
    (theLoadStyle : AssetLoadStyle) (theDropTime : AssetDropTime) : TAssetHandler × TAsset :=
  let r := h.getReference theAssetID theLoadTime theLoadStyle theDropTime
  (r.2, ⟨r.1, theAssetID⟩)

/-- The copy constructor `TAsset(const TAsset& theCopy)`: `getReference(mAssetID)`
with the default load time, load style and drop time. -/
def copyCtor (h : TAssetHandler) (theCopy : TAsset) : TAssetHandler × TAsset :=
  let r := h.getReference theCopy.mAssetID AssetLoadLater AssetLoadFromFile AssetDropAtZero
  (r.2, ⟨r.1, theCopy.mAssetID⟩)

/-- The destructor `~TAsset`. -/
def dtor (h : TAssetHandler) (t : TAsset) : TAssetHandler :=
  h.dropReference t.mAssetID

/-- The method `setID`: notes the new asset ID, then obtains a reference to it. -/
def setID (h : TAssetHandler) (_t : TAsset) (theAssetID : assetID)
    (theLoadTime : AssetLoadTime) (theLoadStyle : AssetLoadStyle)
    (theDropTime : AssetDropTime) : TAssetHandler × TAsset :=
  let r := h.getReference theAssetID theLoadTime theLoadStyle theDropTime
  (r.2, ⟨r.1, theAssetID⟩)

/-- The method `getAsset`: when the asset is not loaded it is loaded at once, and
after a successful load a reference is obtained again.  Returns the handler, the
handle and the pointer that is dereferenced. -/
def getAsset (h : TAssetHandler) (t : TAsset) : TAssetHandler × TAsset × AssetPtr :=
  if h.isLoaded t.mAssetID = false then
    let l := h.loadAsset t.mAssetID
    if l.1 then
      let r := l.2.getReference t.mAssetID AssetLoadLater AssetLoadFromFile AssetDropAtZero
      (r.2, ⟨r.1, t.mAssetID⟩, r.1)
    else (l.2, t, t.mAsset)
  else (h, t, t.mAsset)

/-- The friend function `swap`: swaps the asset pointers and the IDs. -/
def swap (first second : TAsset) : TAsset × TAsset :=
  (⟨second.mAsset, second.mAssetID⟩, ⟨first.mAsset, first.mAssetID⟩)

/-- The assignment `x = y`, `operator=(TAsset theRight)`: the by-value parameter
is copy-constructed from `y`, swapped with `*this`, a reference to the new
`mAssetID` is obtained, and the parameter is destroyed on return. -/
def assign (h : TAssetHandler) (x y : TAsset) : TAssetHandler × TAsset :=
  let c := copyCtor h y
  let s := swap x c.2
  let r := c.1.getReference s.1.mAssetID AssetLoadLater AssetLoadFromFile AssetDropAtZero
  (dtor r.2 s.2, s.1)

end TAsset

/-- The whole life of one handle: constructed on `theAssetID` with load time Later
and drop time AtZero, asked once for its asset with `getAsset`, then destroyed.
The result is the handler afterwards. -/
def TAsset.lifeWithGetAsset (h : TAssetHandler) (theAssetID : assetID) : TAssetHandler :=
  let c := TAsset.ctor h theAssetID AssetLoadLater AssetLoadFromFile AssetDropAtZero
  let g := TAsset.getAsset c.1 c.2
  TAsset.dtor g.1 g.2.1

/-- A handle constructed on `theAssetID` with the default arguments. -/
def TAsset.boundTo (h : TAssetHandler) (theAssetID : assetID) : TAssetHandler × TAsset :=
  TAsset.ctor h theAssetID AssetLoadLater AssetLoadFromFile AssetDropAtZero

/-- Two handles on a fresh handler, `x` on asset ID `a` and `y` on `b`, both with
drop time AtExit. -/
def TAsset.twoHandles (a b : assetID) : TAssetHandler × TAsset × TAsset :=
  let cx := TAsset.ctor (TAssetHandler.fresh true) a AssetLoadLater AssetLoadFromFile
    AssetDropAtExit
  let cy := TAsset.ctor cx.1 b AssetLoadLater AssetLoadFromFile AssetDropAtExit
  (cy.1, cx.2, cy.2)

/-- One step of a life of handles on one asset ID. -/
inductive HandleOp where
  /-- `TAsset(theAssetID, theLoadTime, theLoadStyle, theDropTime)`: a new handle. -/
  | construct (theLoadTime : AssetLoadTime) (theLoadStyle : AssetLoadStyle)
      (theDropTime : AssetDropTime)
  /-- Copy construction from the live handle at position `i`. -/
  | copy (i : Nat)
  /-- Destruction of the live handle at position `i`. -/
  | destroy (i : Nat)

/-- A handler and the handles that are alive. -/
structure HandleState where
  /-- The handler of the asset type. -/
  handler : TAssetHandler
  /-- The live handles. -/
  live : List TAsset

/-- Whether the step constructs a handle. -/
def HandleOp.isConstruction : HandleOp → Bool
  | .construct _ _ _ => true
  | .copy _ => true
  | .destroy _ => false

/-- Whether the step destroys a handle. -/
def HandleOp.isDestruction : HandleOp → Bool
  | .destroy _ => true
  | _ => false

/-- Runs one step against asset ID `a`; `none` when the step names a handle
that is not alive. -/
def HandleOp.step (a : assetID) (st : HandleState) : HandleOp → Option HandleState
  | .construct lt ls dt =>
    let r := TAsset.ctor st.handler a lt ls dt
    some ⟨r.1, st.live ++ [r.2]⟩
  | .copy i =>
    match st.live[i]? with
    | some t =>
      let r := TAsset.copyCtor st.handler t
      some ⟨r.1, st.live ++ [r.2]⟩
    | none => none
  | .destroy i =>
    match st.live[i]? with
    | some t => some ⟨TAsset.dtor st.handler t, st.live.eraseIdx i⟩
    | none => none

/-- Runs a sequence of steps against asset ID `a`. -/
def runHandleOps (a : assetID) : HandleState → List HandleOp → Option HandleState
  | st, [] => some st
  | st, op :: ops =>
    match op.step a st with
    | some st' => runHandleOps a st' ops
    | none => none

/-! ## IEntity and ISystem -/

/-- Entity IDs are unsigned integers handed out by a process-wide counter. -/
abbrev typeEntityID := Nat

/-- System IDs are strings (`"ActionSystem"`, `"RenderSystem"`, ...). -/
abbrev typeSystemID := String

/-- The address of an `IEntity`. -/
abbrev EntityPtr := Nat

/-- The address of an `ISystem`. -/
abbrev SystemPtr := Nat

/-- The members of an `IEntity` the registration protocol works on (the property
bag `mProperties` is the `PropertyManager` above). -/
structure IEntity where
  /-- The ID for this entity. -/
  mEntityID : typeEntityID
  /-- The z-order of this entity. -/
  mOrder : Nat
  /-- The father, null for a root. -/
  mFather : Option EntityPtr
  /-- The children by name. -/
  mChildren : StdMap String EntityPtr
  /-- The systems this entity is registered with, by system ID. -/
  mSystems : StdMap typeSystemID SystemPtr

/-- The members of an `ISystem`: its ID and the registry, a map from z-order to
the deque of the entities of that z-order. -/
structure ISystem where
  /-- The ID for this system. -/
  mSystemID : typeSystemID
  /-- The entities of this system, by z-order. -/
  mEntities : StdMap Nat (List EntityPtr)

/-- A call of one of the virtual hooks of a system for an entity.  For the four
concrete systems `addProperties` only adds properties to the entity's property
bag and `handleInit`, `handleCleanup` do nothing; the registry is not touched. -/
inductive HookCall where
  | addProperties (theSystem : SystemPtr) (theEntity : EntityPtr)
  | handleInit (theSystem : SystemPtr) (theEntity : EntityPtr)
  | handleCleanup (theSystem : SystemPtr) (theEntity : EntityPtr)
deriving DecidableEq

/-- The objects of a running program: the entities and the systems by address,
and a ghost record of the hook calls made so far, oldest first. -/
structure World where
  /-- The entity at each address. -/
  entities : EntityPtr → IEntity
  /-- The system at each address. -/
  systems : SystemPtr → ISystem
  /-- The hook calls made so far. -/
  mHooks : List HookCall

/-- What ends a call without a result. -/
inductive Fault where
  /-- The C++ code has undefined behaviour (an iterator of another container). -/
  | undefinedBehaviour
  /-- The recursion budget of the model is used up. -/
  | outOfFuel
deriving DecidableEq

namespace World

/-- Stores the entity record `r` at address `e`. -/
def setEntity (w : World) (e : EntityPtr) (r : IEntity) : World :=
  { w with entities := Function.update w.entities e r }

/-- Stores the system record `r` at address `s`. -/
def setSystem (w : World) (s : SystemPtr) (r : ISystem) : World :=
  { w with systems := Function.update w.systems s r }

/-- Records a hook call. -/
def hook (w : World) (c : HookCall) : World :=
  { w with mHooks := w.mHooks ++ [c] }

end World

namespace IEntity

/-- The method `getID`. -/
def getID (w : World) (e : EntityPtr) : typeEntityID := (w.entities e).mEntityID

/-- The method `getOrder`. -/
def getOrder (w : World) (e : EntityPtr) : Nat := (w.entities e).mOrder

/-- The method `setOrder`. -/
def setOrder (w : World) (e : EntityPtr) (theOrder : Nat) : World :=
  w.setEntity e { w.entities e with mOrder := theOrder }

/-- The method `addSystem`: records the system under its ID unless the ID is
already a key of `mSystems`. -/
def addSystem (w : World) (e : EntityPtr) (theSystem : SystemPtr) : World :=
  match StdMap.find (w.entities e).mSystems (w.systems theSystem).mSystemID with
  | none =>
    w.setEntity e { w.entities e with
      mSystems := StdMap.assign (w.entities e).mSystems (w.systems theSystem).mSystemID theSystem }
  | some _ => w

/-- The method `hasSystem`. -/
def hasSystem (w : World) (e : EntityPtr) (theSystemID : typeSystemID) : Bool :=
  (StdMap.find (w.entities e).mSystems theSystemID).isSome

end IEntity

namespace ISystem

/-- The method `getID`. -/
def getID (w : World) (s : SystemPtr) : typeSystemID := (w.systems s).mSystemID

/-- The inner loop of `hasEntity` and `dropEntity`: the position in a deque of
the first entity whose ID is `theEntityID`. -/
def findInDeque (w : World) (theEntityID : typeEntityID) : List EntityPtr → Option Nat
  | [] => none
  | e :: q =>
    if theEntityID = (w.entities e).mEntityID then some 0
    else (findInDeque w theEntityID q).map (· + 1)

/-- The outer loop of `hasEntity` and `dropEntity`: the z-order of the first
bucket holding an entity whose ID is `theEntityID`, and its position there. -/
def findEntity (w : World) (theEntityID : typeEntityID) :
    StdMap Nat (List EntityPtr) → Option (Nat × Nat)
  | [] => none
  | (k, q) :: m =>
    match findInDeque w theEntityID q with
    | some i => some (k, i)
    | none => findEntity w theEntityID m

/-- The method `hasEntity`. -/
def hasEntity (w : World) (s : SystemPtr) (theEntityID : typeEntityID) : Bool :=
  (findEntity w theEntityID (w.systems s).mEntities).isSome

/-- The method `addEntity`; the argument is `none` for a null pointer.  Returns
the ID of the entity, or 0 when nothing was added. -/
def addEntity (w : World) (s : SystemPtr) : Option EntityPtr → typeEntityID × World
  | none => (0, w)
  | some theEntity =>
    let anOrder := (w.entities theEntity).mOrder
    let anDeque := (StdMap.find (w.systems s).mEntities anOrder).getD []
    if theEntity ∈ anDeque then (0, w)
    else
      let w1 := w.setSystem s { w.systems s with
        mEntities := StdMap.assign (w.systems s).mEntities anOrder (anDeque ++ [theEntity]) }
      let w2 := w1.hook (.addProperties s theEntity)
      let w3 := IEntity.addSystem w2 theEntity s
      let w4 := w3.hook (.handleInit s theEntity)
      ((w4.entities theEntity).mEntityID, w4)

end ISystem

mutual

/-- The method `ISystem::dropEntity`: erases the first entity found with the ID. -/
def ISystem.dropEntity : Nat → World → SystemPtr → typeEntityID → Except Fault World
  | 0, _, _, _ => .error .outOfFuel
  | fuel + 1, w, s, theEntityID =>
    match ISystem.findEntity w theEntityID (w.systems s).mEntities with
    | some (k, i) => ISystem.eraseEntity fuel w s k i
    | none => .ok w
termination_by structural fuel => fuel

/-- The method `ISystem::eraseEntity` for the iterator at position `i` of the
deque of z-order `k`.  The erase is made on the deque of the entity's current
order: with an iterator of another deque that is undefined behaviour. -/
def ISystem.eraseEntity : Nat → World → SystemPtr → Nat → Nat → Except Fault World
  | 0, _, _, _, _ => .error .outOfFuel
  | fuel + 1, w, s, k, i =>
    match StdMap.find (w.systems s).mEntities k with
    | none => .error .undefinedBehaviour
    | some q =>
      match q[i]? with
      | none => .error .undefinedBehaviour
      | some anEntity =>
        if (w.entities anEntity).mOrder ≠ k then .error .undefinedBehaviour
        else
          let w1 := w.setSystem s { w.systems s with
            mEntities := StdMap.assign (w.systems s).mEntities k (q.eraseIdx i) }
          let w2 := w1.hook (.handleCleanup s anEntity)
          if IEntity.hasSystem w2 anEntity (w2.systems s).mSystemID then
            IEntity.dropSystem fuel w2 anEntity (w2.systems s).mSystemID
          else .ok w2
termination_by structural fuel => fuel

/-- The method `IEntity::dropSystem`. -/
def IEntity.dropSystem : Nat → World → EntityPtr → typeSystemID → Except Fault World
  | 0, _, _, _ => .error .outOfFuel
  | fuel + 1, w, e, theSystemID =>
    match StdMap.find (w.entities e).mSystems theSystemID with
    | some _ => IEntity.eraseSystem fuel w e theSystemID
    | none => .ok w
termination_by structural fuel => fuel

/-- The method `IEntity::eraseSystem` for the iterator at key `theSystemID`. -/
def IEntity.eraseSystem : Nat → World → EntityPtr → typeSystemID → Except Fault World
  | 0, _, _, _ => .error .outOfFuel
  | fuel + 1, w, e, theSystemID =>
    match StdMap.find (w.entities e).mSystems theSystemID with
    | none => .error .undefinedBehaviour
    | some anSystem =>
      let w1 := w.setEntity e { w.entities e with
        mSystems := StdMap.erase (w.entities e).mSystems theSystemID }
      if ISystem.hasEntity w1 anSystem (w1.entities e).mEntityID then
        ISystem.dropEntity fuel w1 anSystem (w1.entities e).mEntityID
      else .ok w1
termination_by structural fuel => fuel

end

namespace ISystem

/-- The loop shared by `ActionSystem::updateFixed`, `MovementSystem::updateFixed`
and `RenderSystem::draw`: the buckets of `mEntities` in map order, the deque of
each bucket front to back, the per-entity work `body` on each entity.  The work
of these passes reads and writes properties only, never a registry. -/
def forEachEntity {σ : Type} (sys : ISystem) (body : σ → EntityPtr → σ) (init : σ) : σ :=
  sys.mEntities.foldl (fun acc kq => kq.2.foldl body acc) init

/-- The entities one pass visits, in the order of the visits. -/
def visited (sys : ISystem) : List EntityPtr :=
  sys.forEachEntity (fun acc e => acc ++ [e]) []

/-- Adds the entities of a list one after the other with `addEntity`. -/
def addEntities (w : World) (s : SystemPtr) : List EntityPtr → World
  | [] => w
  | e :: es => addEntities (addEntity w s (some e)).2 s es

end ISystem

/-- The pass `ActionSystem::updateFixed`, `doActions` being the work per entity. -/
def ActionSystem.updateFixed {σ : Type} (w : World) (s : SystemPtr)
    (doActions : σ → EntityPtr → σ) (init : σ) : σ :=
  (w.systems s).forEachEntity doActions init

/-- The pass `MovementSystem::updateFixed`, `move` being the work per entity. -/
def MovementSystem.updateFixed {σ : Type} (w : World) (s : SystemPtr)
    (move : σ → EntityPtr → σ) (init : σ) : σ :=
  (w.systems s).forEachEntity move init

/-- The pass `RenderSystem::draw`, `drawSprite` being the work per entity. -/
def RenderSystem.draw {σ : Type} (w : World) (s : SystemPtr)
    (drawSprite : σ → EntityPtr → σ) (init : σ) : σ :=
  (w.systems s).forEachEntity drawSprite init

/-- A world with nothing registered: entity `p` has ID `p + 1` and the order
`orderOf p`, system `p` has the ID made of `p + 1` letters `S`. -/
def World.fresh (orderOf : EntityPtr → Nat) : World :=
  { entities := fun p => ⟨p + 1, orderOf p, none, [], []⟩
    systems := fun p => ⟨String.mk (List.replicate (p + 1) 'S'), []⟩
    mHooks := [] }

/-- The keys of a map with natural-number keys are strictly ascending, as the
iteration order of a `std::map` is. -/
def StdMap.Sorted {β : Type} (m : StdMap Nat β) : Prop :=
  (m.map Prod.fst).Pairwise (· < ·)

/-- The entities of a registry in iteration order: bucket after bucket. -/
def ISystem.entitiesOf : StdMap Nat (List EntityPtr) → List EntityPtr
  | [] => []
  | (_, q) :: m => q ++ entitiesOf m

/-- The well-formedness of a world the registration protocol keeps: IDs name
one object each, every registry is a map with ascending keys whose deques hold
an entity at most once and in the bucket of its current order, and the
membership sets of the entities mirror the registries. -/
structure World.Consistent (w : World) : Prop where
  /-- Different systems have different IDs. -/
  systemIDs : ∀ s s', (w.systems s).mSystemID = (w.systems s').mSystemID → s = s'
  /-- Different entities have different IDs. -/
  entityIDs : ∀ e e', (w.entities e).mEntityID = (w.entities e').mEntityID → e = e'
  /-- The keys of a registry ascend. -/
  sorted : ∀ s, StdMap.Sorted (w.systems s).mEntities
  /-- A registered entity sits in the bucket of its current order. -/
  ownBucket : ∀ s k q e, StdMap.find (w.systems s).mEntities k = some q → e ∈ q →
    (w.entities e).mOrder = k
  /-- A deque holds an entity at most once. -/
  nodup : ∀ s k q, StdMap.find (w.systems s).mEntities k = some q → q.Nodup
  /-- A registered entity has the system in its membership set. -/
  systemOf : ∀ s k q e, StdMap.find (w.systems s).mEntities k = some q → e ∈ q →
    StdMap.find (w.entities e).mSystems (w.systems s).mSystemID = some s
  /-- A system in the membership set of an entity holds the entity. -/
  entityOf : ∀ e sid s, StdMap.find (w.entities e).mSystems sid = some s →
    (w.systems s).mSystemID = sid ∧
    ∃ q, StdMap.find (w.systems s).mEntities (w.entities e).mOrder = some q ∧ e ∈ q

/-- The state `unregister w s e q i` is `w` after the entity `e`, found at
position `i` of its deque `q` in system `s`, left the registry of `s` and `s`
left the membership set of `e` (with the call of `handleCleanup` recorded). -/
def World.unregister (w : World) (s : SystemPtr) (e : EntityPtr) (q : List EntityPtr)
    (i : Nat) : World :=
  { entities := Function.update w.entities e { w.entities e with
      mSystems := StdMap.erase (w.entities e).mSystems (w.systems s).mSystemID }
    systems := Function.update w.systems s { w.systems s with
      mEntities := StdMap.assign (w.systems s).mEntities (w.entities e).mOrder (q.eraseIdx i) }
    mHooks := w.mHooks ++ [HookCall.handleCleanup s e] }

/-- The states reached from `w0` by calls of `ISystem::addEntity`,
`ISystem::dropEntity`, `IEntity::dropSystem`, and of `IEntity::setOrder` on
entities that no system holds. -/
inductive World.Reachable (w0 : World) : World → Prop where
  | start : World.Reachable w0 w0
  | addEntity {w : World} (s : SystemPtr) (theEntity : Option EntityPtr) :
      World.Reachable w0 w → World.Reachable w0 (ISystem.addEntity w s theEntity).2
  | dropEntity {w w' : World} (fuel : Nat) (s : SystemPtr) (theEntityID : typeEntityID) :
      World.Reachable w0 w → ISystem.dropEntity fuel w s theEntityID = .ok w' →
      World.Reachable w0 w'
  | dropSystem {w w' : World} (fuel : Nat) (e : EntityPtr) (theSystemID : typeSystemID) :
      World.Reachable w0 w → IEntity.dropSystem fuel w e theSystemID = .ok w' →
      World.Reachable w0 w'
  | setOrder {w : World} (e : EntityPtr) (theOrder : Nat) :
      World.Reachable w0 w →
      (∀ s, ISystem.hasEntity w s (w.entities e).mEntityID = false) →
      World.Reachable w0 (IEntity.setOrder w e theOrder)

/-- The state `register w s e` is `w` after `e` joined the deque of its order in
the registry of `s` and `s` joined the membership set of `e` (with the calls of
`addProperties` and `handleInit` recorded). -/
def World.register (w : World) (s : SystemPtr) (e : EntityPtr) : World :=
  { entities := Function.update w.entities e { w.entities e with
      mSystems := StdMap.assign (w.entities e).mSystems (w.systems s).mSystemID s }
    systems := Function.update w.systems s { w.systems s with
      mEntities := StdMap.assign (w.systems s).mEntities (w.entities e).mOrder
        ((StdMap.find (w.systems s).mEntities (w.entities e).mOrder).getD [] ++ [e]) }
    mHooks := w.mHooks ++ [HookCall.addProperties s e, HookCall.handleInit s e] }

/-- The registry `m` files the entities of the list `added` by order: its keys
ascend and the deque of order `k` holds the entities of `added` of order `k`, in
the sequence of `added`. -/
def ISystem.Filed (ord : EntityPtr → Nat) (m : StdMap Nat (List EntityPtr))
    (added : List EntityPtr) : Prop :=
  StdMap.Sorted m ∧ ∀ k, (StdMap.find m k).getD [] = added.filter (fun a => decide (ord a = k))

/-- The invariant of a life of handles on asset ID `a`: every live handle is bound
to `a`, and the reference count of `a` is the number of live handles. -/
def HandleState.Balanced (a : assetID) (st : HandleState) : Prop :=
  (∀ t ∈ st.live, t.mAssetID = a) ∧ st.handler.refCount a = st.live.length

/-! ## PropertyManager: the calls with their effects -/

/-- A C++ exception that leaves a call. -/
inductive CppException where
  /-- The exception `std::out_of_range`, thrown by `std::map::at` for a missing key. -/
  | out_of_range
deriving DecidableEq

/-- The value of a `TYPE*` into a property bag: null (`none`), or the address of
the `mValue` of the property stored under an ID. -/
abbrev PropertyPtr := Option typePropertyID

namespace PropertyManager

variable {Tag : Type} [DecidableEq Tag] {Val : Tag → Type} [∀ t, Inhabited (Val t)]

/-- The call `get<TYPE>` with the manager it leaves behind.  The method is not
`const`, but `find` and `at` do not change `mList`, and `mList[thePropertyID]` is
evaluated only for an ID that was found, where it changes nothing either. -/
def getCall (pm : PropertyManager Tag Val) (T : Tag) (thePropertyID : typePropertyID) :
    Val T × PropertyManager Tag Val :=
  match StdMap.find pm.mList thePropertyID with
  | some p => if h : p.mType = T then (h ▸ p.mValue, pm) else (default, pm)
  | none => (default, pm)

/-- The template `getPointer<TYPE>`: `mList.at(thePropertyID)` throws
`std::out_of_range` for an ID that is not in the map; for an ID that is, the
result is the pointer to the value when the recorded type name is that of `TYPE`
and null otherwise. -/
def getPointer (pm : PropertyManager Tag Val) (T : Tag) (thePropertyID : typePropertyID) :
    Except CppException PropertyPtr :=
  match StdMap.find pm.mList thePropertyID with
  | none => .error .out_of_range
  | some p => if p.mType = T then .ok (some thePropertyID) else .ok none

/-- The type recorded for an ID, `none` when the ID is not in the manager. -/
def typeOf (pm : PropertyManager Tag Val) (thePropertyID : typePropertyID) : Option Tag :=
  (StdMap.find pm.mList thePropertyID).map (fun p => p.mType)

end PropertyManager

/-- A call of `add<TYPE>` or `set<TYPE>` with its arguments. -/
inductive PropertyCall (Tag : Type) (Val : Tag → Type) where
  | add (T : Tag) (thePropertyID : typePropertyID) (theValue : Val T)
  | set (T : Tag) (thePropertyID : typePropertyID) (theValue : Val T)

namespace PropertyCall

variable {Tag : Type} [DecidableEq Tag] {Val : Tag → Type} [∀ t, Inhabited (Val t)]

/-- Makes the call on a manager. -/
def run (pm : PropertyManager Tag Val) : PropertyCall Tag Val → PropertyManager Tag Val
  | .add T k v => pm.add T k v
  | .set T k v => pm.set T k v

/-- Makes the calls of a list, first to last. -/
def runAll (pm : PropertyManager Tag Val) : List (PropertyCall Tag Val) → PropertyManager Tag Val
  | [] => pm
  | c :: cs => runAll (c.run pm) cs

/-- The type of the first `add` on the ID `k` in a list of calls. -/
def firstAdd (k : typePropertyID) : List (PropertyCall Tag Val) → Option Tag
  | [] => none
  | .add T k' _ :: cs => if k' = k then some T else firstAdd k cs
  | .set _ _ _ :: cs => firstAdd k cs

end PropertyCall

/-! ## ActionSystem catalog and ActionGroup -/

/-- Action IDs are strings. -/
abbrev typeActionID := String

/-- The address of an `IAction`. -/
abbrev ActionPtr := Nat

/-- The address of an `ActionSystem`. -/
abbrev ActionSystemPtr := Nat

/-- The catalog of an `ActionSystem`: the available actions by action ID. -/
structure ActionSystem where
  /-- The actions registered with `addAction`. -/
  mActions : StdMap typeActionID ActionPtr
deriving DecidableEq

/-- The method `ActionSystem::getAction`: the action found, `none` for null. -/
def ActionSystem.getAction (sys : ActionSystem) (theActionID : typeActionID) :
    Option ActionPtr :=
  StdMap.find sys.mActions theActionID

/-- The method `ActionSystem::addAction`; `getID` reads the ID of an action, the
argument is `none` for a null pointer. -/
def ActionSystem.addAction (getID : ActionPtr → typeActionID) (sys : ActionSystem) :
    Option ActionPtr → ActionSystem
  | none => sys
  | some theAction =>
    match StdMap.find sys.mActions (getID theAction) with
    | none => ⟨StdMap.insert sys.mActions (getID theAction) theAction⟩
    | some _ => sys

/-- An `ActionGroup`: the action system it takes actions from (null for the
default constructor) and its active and disabled actions by action ID. -/
structure ActionGroup where
  /-- The address of the `ActionSystem`, `none` for null. -/
  mActionSystem : Option ActionSystemPtr
  /-- The active actions. -/
  mActive : StdMap typeActionID ActionPtr
  /-- The disabled actions. -/
  mDisabled : StdMap typeActionID ActionPtr
deriving DecidableEq

namespace StdMap

variable {κ β : Type} [DecidableEq κ]

/-- The key under the iterator `m.begin()`, `none` for `m.end()`. -/
def begin (m : StdMap κ β) : Option κ :=
  m.head?.map Prod.fst

/-- The key under the iterator that follows the one at key `k`, `none` for `m.end()`. -/
def next : StdMap κ β → κ → Option κ
  | [], _ => none
  | (k', _) :: m, k => if k' = k then begin m else next m k

end StdMap

namespace ActionGroup

/-- The constructors `ActionGroup()` and `ActionGroup(theActionSystem)`. -/
def ctor (theActionSystem : Option ActionSystemPtr) : ActionGroup :=
  ⟨theActionSystem, [], []⟩

/-- The method `isAvailable`. -/
def isAvailable (g : ActionGroup) (theActionID : typeActionID) : Bool :=
  (StdMap.find g.mActive theActionID).isSome || (StdMap.find g.mDisabled theActionID).isSome

/-- The method `isActive`. -/
def isActive (g : ActionGroup) (theActionID : typeActionID) : Bool :=
  (StdMap.find g.mActive theActionID).isSome

/-- The method `activate`. -/
def activate (g : ActionGroup) (theActionID : typeActionID) : ActionGroup :=
  match StdMap.find g.mDisabled theActionID with
  | some anAction =>
    let g1 := { g with mDisabled := StdMap.erase g.mDisabled theActionID }
    match StdMap.find g1.mActive theActionID with
    | none => { g1 with mActive := StdMap.insert g1.mActive theActionID anAction }
    | some _ => g1
  | none => g

/-- The method `disable`. -/
def disable (g : ActionGroup) (theActionID : typeActionID) : ActionGroup :=
  match StdMap.find g.mActive theActionID with
  | some anAction =>
    let g1 := { g with mActive := StdMap.erase g.mActive theActionID }
    match StdMap.find g1.mDisabled theActionID with
    | none => { g1 with mDisabled := StdMap.insert g1.mDisabled theActionID anAction }
    | some _ => g1
  | none => g

/-- The method `add`; `actionSystems` is the memory the `mActionSystem` pointer
points into. -/
def add (actionSystems : ActionSystemPtr → ActionSystem) (g : ActionGroup)
    (theActionID : typeActionID) : ActionGroup :=
  if g.isAvailable theActionID = false then
    match g.mActionSystem with
    | some p =>
      match (actionSystems p).getAction theActionID with
      | some anAction =>
        { g with mDisabled := StdMap.insert g.mDisabled theActionID anAction }
      | none => g
    | none => g
  else g

/-- The method `drop`. -/
def drop (g : ActionGroup) (theActionID : typeActionID) : ActionGroup :=
  if g.isAvailable theActionID then
    let g1 :=
      match StdMap.find g.mActive theActionID with
      | some _ => { g with mActive := StdMap.erase g.mActive theActionID }
      | none => g
    match StdMap.find g1.mDisabled theActionID with
    | some _ => { g1 with mDisabled := StdMap.erase g1.mDisabled theActionID }
    | none => g1
  else g

/-- The method `setActionSystem`; a null argument changes nothing. -/
def setActionSystem (g : ActionGroup) : Option ActionSystemPtr → ActionGroup
  | some theActionSystem => { g with mActionSystem := some theActionSystem }
  | none => g

/-- The loop of `doActions` from the iterator at key `it` on (`none` is
`mActive.end()`).  Each round reads the action under the iterator, moves the
iterator on, and only then calls `doAction`, which may change the group it is
called from: `doAction a g` is the group after the call of action `a`.  An
iterator whose element was erased in between is undefined behaviour.  The
result is the group after the loop and the actions called, first to last. -/
def doActionsFrom (doAction : ActionPtr → ActionGroup → ActionGroup) :
    Nat → ActionGroup → Option typeActionID → List ActionPtr →
    Except Fault (ActionGroup × List ActionPtr)
  | 0, _, _, _ => .error .outOfFuel
  | _ + 1, g, none, called => .ok (g, called)
  | fuel + 1, g, some k, called =>
    match StdMap.find g.mActive k with
    | none => .error .undefinedBehaviour
    | some anAction =>
      doActionsFrom doAction fuel (doAction anAction g) (StdMap.next g.mActive k)
        (called ++ [anAction])

/-- The method `doActions`. -/
def doActions (doAction : ActionPtr → ActionGroup → ActionGroup) (fuel : Nat)
    (g : ActionGroup) : Except Fault (ActionGroup × List ActionPtr) :=
  doActionsFrom doAction fuel g (StdMap.begin g.mActive) []

/-- The actions `doActions` called, `none` when the call ended in a fault. -/
def calledBy (doAction : ActionPtr → ActionGroup → ActionGroup) (fuel : Nat)
    (g : ActionGroup) : Option (List ActionPtr) :=
  match doActions doAction fuel g with
  | .ok r => some r.2
  | .error _ => none

/-- The group `doActions` leaves behind, `none` when the call ended in a fault. -/
def groupAfter (doAction : ActionPtr → ActionGroup → ActionGroup) (fuel : Nat)
    (g : ActionGroup) : Option ActionGroup :=
  match doActions doAction fuel g with
  | .ok r => some r.1
  | .error _ => none

/-- The states of a group reached from a constructor by calls of `add`,
`activate`, `disable`, `drop` and `setActionSystem`. -/
inductive Reachable : ActionGroup → Prop where
  | ctor (theActionSystem : Option ActionSystemPtr) : Reachable (ActionGroup.ctor theActionSystem)
  | add {g : ActionGroup} (actionSystems : ActionSystemPtr → ActionSystem)
      (theActionID : typeActionID) : Reachable g → Reachable (g.add actionSystems theActionID)
  | activate {g : ActionGroup} (theActionID : typeActionID) :
      Reachable g → Reachable (g.activate theActionID)
  | disable {g : ActionGroup} (theActionID : typeActionID) :
      Reachable g → Reachable (g.disable theActionID)
  | drop {g : ActionGroup} (theActionID : typeActionID) :
      Reachable g → Reachable (g.drop theActionID)
  | setActionSystem {g : ActionGroup} (theActionSystem : Option ActionSystemPtr) :
      Reachable g → Reachable (g.setActionSystem theActionSystem)

end ActionGroup

/-- A catalog with the actions `"a"` (at address 1) and `"b"` (at address 2). -/
def ActionSystem.demo : ActionSystem := ⟨[("a", 1), ("b", 2)]⟩

/-- The group of `ActionSystem.demo` in which `"b"` was registered and activated
before `"a"`. -/
def ActionGroup.demo : ActionGroup :=
  ((((ActionGroup.ctor (some 0)).add (fun _ => ActionSystem.demo) "b").add
    (fun _ => ActionSystem.demo) "a").activate "b").activate "a"

/-- The laws of a strict total order, which `std::less` of a key type obeys. -/
class LawfulStdLess (κ : Type) [StdLess κ] : Prop where
  /-- No key is below itself. -/
  irrefl : ∀ a : κ, StdLess.less a a = false
  /-- The order is transitive. -/
  trans : ∀ a b c : κ, StdLess.less a b = true → StdLess.less b c = true →
    StdLess.less a c = true
  /-- Two keys neither of which is below the other are equal. -/
  connex : ∀ a b : κ, StdLess.less a b = false → StdLess.less b a = false → a = b

/-- The keys of a map ascend strictly in the order of `std::less`. -/
def StdMap.Ordered {κ β : Type} [StdLess κ] (m : StdMap κ β) : Prop :=
  (m.map Prod.fst).Pairwise (fun a b => StdLess.less a b = true)

/-- The shape of a group that the methods keep: both maps have ascending keys and
no action ID is in both. -/
structure ActionGroup.Tidy (g : ActionGroup) : Prop where
  /-- The keys of the active map ascend. -/
  active : StdMap.Ordered g.mActive
  /-- The keys of the disabled map ascend. -/
  disabled : StdMap.Ordered g.mDisabled
  /-- No ID is in both maps. -/
  disjoint : ∀ k, StdMap.find g.mActive k = none ∨ StdMap.find g.mDisabled k = none

/-! ## IEntity: construction, children, destruction -/

namespace IEntity

/-- The method `setFather`. -/
def setFather (w : World) (e : EntityPtr) (theFather : Option EntityPtr) : World :=
  w.setEntity e { w.entities e with mFather := theFather }

/-- The method `getFather`, `none` for null. -/
def getFather (w : World) (e : EntityPtr) : Option EntityPtr := (w.entities e).mFather

/-- The method `isRoot`. -/
def isRoot (w : World) (e : EntityPtr) : Bool := (w.entities e).mFather.isNone

/-- The constructor `IEntity(theFather)` of an entity at address `e`; `mNextID` is
the static ID counter, a 32-bit unsigned integer, and the result holds its new
value.  The ID is the incremented counter; the order is 0 for a root and the
father's order plus 1 otherwise. -/
def ctor (w : World) (mNextID : Nat) (e : EntityPtr) (theFather : Option EntityPtr) :
    World × Nat :=
  let anID := (mNextID + 1) % 2 ^ 32
  let anOrder :=
    match theFather with
    | none => 0
    | some f => ((w.entities f).mOrder + 1) % 2 ^ 32
  (w.setEntity e ⟨anID, anOrder, theFather, [], []⟩, anID)

/-- The loop of `dropAllSystems` from the iterator at key `it` on (`none` is
`mSystems.end()`): each round moves the iterator on and erases the system it
stood on with `eraseSystem`.  An iterator whose element is gone is undefined
behaviour. -/
def dropAllSystemsFrom : Nat → World → EntityPtr → Option typeSystemID → Except Fault World
  | 0, _, _, _ => .error .outOfFuel
  | _ + 1, w, _, none => .ok w
  | fuel + 1, w, e, some k =>
    match StdMap.find (w.entities e).mSystems k with
    | none => .error .undefinedBehaviour
    | some _ =>
      match IEntity.eraseSystem fuel w e k with
      | .error f => .error f
      | .ok w1 => dropAllSystemsFrom fuel w1 e (StdMap.next (w.entities e).mSystems k)

/-- The method `dropAllSystems`: the loop, then `mSystems.clear()`. -/
def dropAllSystems (fuel : Nat) (w : World) (e : EntityPtr) : Except Fault World :=
  match dropAllSystemsFrom fuel w e (StdMap.begin (w.entities e).mSystems) with
  | .error f => .error f
  | .ok w1 => .ok (w1.setEntity e { w1.entities e with mSystems := [] })

/-- The method `dropChild`: the child found under the name drops all its systems. -/
def dropChild (fuel : Nat) (w : World) (e : EntityPtr) (theChildName : String) :
    Except Fault World :=
  match StdMap.find (w.entities e).mChildren theChildName with
  | some aChild => dropAllSystems fuel w aChild
  | none => .ok w

/-- The loop of `dropAllChildren` over the children that are left to visit. -/
def dropAllChildrenFrom (fuel : Nat) : World → StdMap String EntityPtr → Except Fault World
  | w, [] => .ok w
  | w, (_, aChild) :: rest =>
    match dropAllSystems fuel w aChild with
    | .error f => .error f
    | .ok w1 => dropAllChildrenFrom fuel w1 rest

/-- The method `dropAllChildren`: every child in `mChildren` drops all its systems
(no call made from here changes a children map). -/
def dropAllChildren (fuel : Nat) (w : World) (e : EntityPtr) : Except Fault World :=
  dropAllChildrenFrom fuel w (w.entities e).mChildren

/-- The method `addChild`: `dropChild(theChildName)`, then the child gets the
value of `aFatherOrder++`, which is the father's order, as its order and `this` as
its father, and the pair is inserted in `mChildren` (an insert keeps a mapping
that is already there). -/
def addChild (fuel : Nat) (w : World) (e : EntityPtr) (theChildName : String)
    (theChild : EntityPtr) : Except Fault World :=
  match dropChild fuel w e theChildName with
  | .error f => .error f
  | .ok w1 =>
    let aFatherOrder := (w1.entities e).mOrder
    let w2 := setOrder w1 theChild aFatherOrder
    let w3 := setFather w2 theChild (some e)
    .ok (w3.setEntity e { w3.entities e with
      mChildren := StdMap.insert (w3.entities e).mChildren theChildName theChild })

/-- The destructor `~IEntity`: `dropAllChildren()`, then `dropAllSystems()`. -/
def dtor (fuel : Nat) (w : World) (e : EntityPtr) : Except Fault World :=
  match dropAllChildren fuel w e with
  | .error f => .error f
  | .ok w1 => dropAllSystems fuel w1 e

end IEntity

/-- Reads a value off the world a call returned; `none` when the call ended in a
fault. -/
def Except.readWorld {α : Type} (r : Except Fault World) (f : World → α) : Option α :=
  match r with
  | .ok w => some (f w)
  | .error _ => none

/-- The world with nothing registered in which entity 0 has the child 1 under the
name `"c"` (the state after `addChild("c", 1)` on entity 0 of a fresh world). -/
def World.nursery : World :=
  ((World.fresh fun _ => 0).setEntity 1 ⟨2, 0, some 0, [], []⟩).setEntity 0
    ⟨1, 0, none, [("c", 1)], []⟩

/-! ## Game and IApp: the graphic range -/

/-- Modelled from the spec: the enumeration `GraphicRange` of `Core_types.hpp`
(not among the sources), with the three values the code names, lowest first (as
the check `theGraphicRange >= LowRange && theGraphicRange <= HighRange` of
`setGraphicRange` has them). -/
inductive GraphicRange where
  | LowRange
  | MidRange
  | HighRange
deriving DecidableEq

/-- The place of a value in the enumeration. -/
def GraphicRange.toNat : GraphicRange → Nat
  | .LowRange => 0
  | .MidRange => 1
  | .HighRange => 2

/-- The value of the C++ expression `(theHeight - 240) / 10.0` for the `Uint32`
argument `theHeight`: the subtraction is made in 32-bit unsigned arithmetic, so
it wraps below 240; the difference is converted to `double` exactly and divided
by ten.  The quotient is kept exact here: a `double` division rounds
monotonically and the two bounds it is compared with, 52 and 72, are quotients
(520 / 10, 720 / 10) that are exact, so every comparison below comes out as the
C++ one does. -/
def heightOver10 (theHeight : Nat) : ℚ :=
  (((theHeight + 2 ^ 32 - 240) % 2 ^ 32 : Nat) : ℚ) / 10

/-- The method `Game::calculateRange` for a `Uint32` height. -/
def Game.calculateRange (theHeight : Nat) : GraphicRange :=
  if heightOver10 theHeight > 52 ∧ heightOver10 theHeight ≤ 72 then .MidRange
  else if heightOver10 theHeight > 72 then .HighRange
  else .LowRange

/-- The method `IApp::calculateRange`, which has the body of `Game::calculateRange`. -/
def IApp.calculateRange (theHeight : Nat) : GraphicRange :=
  if heightOver10 theHeight > 52 ∧ heightOver10 theHeight ≤ 72 then .MidRange
  else if heightOver10 theHeight > 72 then .HighRange
  else .LowRange

/-- The method `IEntity::getRoot`, with `aRoot` the local variable that starts at
`this`: the loop `while (!aRoot->isRoot()) aRoot->getFather();` calls `getFather`
and drops the value, so no round changes `aRoot` or anything else.  For a root
the loop is not entered and `aRoot` is returned.  For an entity with a father the
condition holds in every round: the loop never ends and has no side effect,
which is undefined behaviour in C++11 (an implementation may assume that such a
loop ends, and an optimising build returns `this`). -/
def IEntity.getRoot (w : World) (aRoot : EntityPtr) : Except Fault EntityPtr :=
  if IEntity.isRoot w aRoot then .ok aRoot
  else
    let _ := IEntity.getFather w aRoot
    .error .undefinedBehaviour

/-! ## IState and StateManager -/

/-- The members of an `IState` that `doInit`, `deInit`, `cleanup`, `pause` and
`resume` work on (the clocks and the elapsed times, which no flag depends on, are
left out), with two ghost counters. -/
structure IState where
  /-- Whether `doInit` has been called. -/
  mInit : Bool
  /-- Whether the state is paused. -/
  mPaused : Bool
  /-- Whether the state needs cleanup. -/
  mCleanup : Bool
  /-- Ghost: the number of calls of the virtual method `handleCleanup` so far. -/
  mHandleCleanupCalls : Nat
  /-- Ghost: the number of calls of `deInit` that took effect (found `mInit` true). -/
  mDeInits : Nat
deriving DecidableEq

namespace IState

/-- The constructor. -/
def ctor : IState := ⟨false, false, false, 0, 0⟩

/-- A call of the pure virtual `handleCleanup`: the flags of `IState` are private,
the body in a derived class does not reach them (the one of `SplashState` does
nothing). -/
def handleCleanup (st : IState) : IState :=
  { st with mHandleCleanupCalls := st.mHandleCleanupCalls + 1 }

/-- The method `doInit`. -/
def doInit (st : IState) : IState :=
  let st1 := if st.mCleanup = true then st.handleCleanup else st
  if st1.mInit = false then { st1 with mInit := true, mPaused := false } else st1

/-- The method `deInit`. -/
def deInit (st : IState) : IState :=
  if st.mInit = true then
    { st with mCleanup := true, mInit := false, mDeInits := st.mDeInits + 1 }
  else st

/-- The method `isInitComplete`. -/
def isInitComplete (st : IState) : Bool := st.mInit

/-- The method `pause`. -/
def pause (st : IState) : IState :=
  if st.mPaused = false then { st with mPaused := true } else st

/-- The method `resume`. -/
def resume (st : IState) : IState :=
  if st.mPaused = true then { st with mPaused := false } else st

/-- The method `cleanup`. -/
def cleanup (st : IState) : IState :=
  if st.mCleanup = true then { st.handleCleanup with mCleanup := false } else st

/-- One of the three calls a caller can make to change the flags. -/
inductive Call where
  | doInit
  | deInit
  | cleanup
deriving DecidableEq

/-- Makes the call on the state. -/
def Call.run (st : IState) : Call → IState
  | .doInit => st.doInit
  | .deInit => st.deInit
  | .cleanup => st.cleanup

/-- Makes the calls of the list one after the other. -/
def runAll (st : IState) (calls : List Call) : IState :=
  calls.foldl Call.run st

end IState

/-- Modelled from the spec: the status values of `Core_types.hpp` (not among the
sources) that the state manager and the game loop pass to `quit`. -/
inductive StatusType where
  | StatusAppOK
  | StatusAppStackEmpty
  | StatusAppInitFailed
deriving DecidableEq

/-- The two members of `Game` that `quit` writes; `mExitCode` is `none` as long as
no `quit` assigned it. -/
structure Game where
  /-- The exit code. -/
  mExitCode : Option StatusType
  /-- Whether the game loop goes on. -/
  mRunning : Bool
deriving DecidableEq

/-- The method `Game::quit`. -/
def Game.quit (_g : Game) (theExitCode : StatusType) : Game :=
  ⟨some theExitCode, false⟩

/-- The address of an `IState`. -/
abbrev StatePtr := Nat

/-- A `StateManager` with the objects it points to: `mApp` (`none` for null) with
the `Game` behind it, the vectors `mStack` and `mDead` of state pointers (front
first, so `back()` is the last element; an element `none` is a null pointer), the
states by address, and as a ghost the states deleted so far. -/
structure StateManager where
  /-- Whether a game was registered: the pointer `mApp`, as null or not. -/
  mApp : Option Unit
  /-- The game `mApp` points to. -/
  game : Game
  /-- The stack of states, the active one last. -/
  mStack : List (Option StatePtr)
  /-- The removed states that wait for their deletion. -/
  mDead : List (Option StatePtr)
  /-- The state at each address. -/
  states : StatePtr → IState
  /-- Ghost: the states deleted so far, latest first. -/
  mDeleted : List StatePtr

namespace StateManager

/-- The constructor, given the game and the states there are. -/
def ctor (game : Game) (states : StatePtr → IState) : StateManager :=
  ⟨none, game, [], [], states, []⟩

/-- The method `registerApp` (for a pointer that is not null, as it asserts). -/
def registerApp (sm : StateManager) : StateManager :=
  { sm with mApp := some () }

/-- The method `isEmpty`. -/
def isEmpty (sm : StateManager) : Bool := sm.mStack.isEmpty

/-- Applies a method of `IState` to the state at address `p`. -/
def onState (sm : StateManager) (p : StatePtr) (f : IState → IState) : StateManager :=
  { sm with states := Function.update sm.states p (f (sm.states p)) }

/-- The statement `if(NULL != mApp) mApp->quit(theExitCode);`. -/
def quitApp (sm : StateManager) (theExitCode : StatusType) : StateManager :=
  match sm.mApp with
  | some _ => { sm with game := sm.game.quit theExitCode }
  | none => sm

/-- The method `addActiveState` (for a pointer that is not null, as it asserts). -/
def addActiveState (sm : StateManager) (theState : StatePtr) : Except Fault StateManager :=
  match sm.mStack.getLast? with
  | some none => .error .undefinedBehaviour
  | some (some p) =>
    .ok ({ sm.onState p IState.pause with mStack := sm.mStack ++ [some theState] }.onState
      theState IState.doInit)
  | none => .ok ({ sm with mStack := sm.mStack ++ [some theState] }.onState theState IState.doInit)

/-- The end that `removeActiveState`, `dropActiveState` and
`inactivateActivateState` share: the new active state is resumed, or initialised
if it never was, and with no state left the game is told to quit with
`StatusAppOK`. -/
def activateTop (sm : StateManager) : Except Fault StateManager :=
  match sm.mStack.getLast? with
  | some none => .error .undefinedBehaviour
  | some (some p) =>
    if (sm.states p).isInitComplete then .ok (sm.onState p IState.resume)
    else .ok (sm.onState p IState.doInit)
  | none => .ok (sm.quitApp .StatusAppOK)

/-- The method `removeActiveState`. -/
def removeActiveState (sm : StateManager) : Except Fault StateManager :=
  match sm.mStack.getLast? with
  | some none => .error .undefinedBehaviour
  | some (some anState) =>
    let sm1 := (sm.onState anState IState.pause).onState anState IState.deInit
    activateTop { sm1 with mStack := sm1.mStack.dropLast, mDead := sm1.mDead ++ [some anState] }
  | none => .ok (sm.quitApp .StatusAppStackEmpty)

/-- The first part of `cleanup`: one dead state, if there is one, is taken off
`mDead`, de-initialised if need be, cleaned up and deleted.  (The call
`mCleanupEvents.doEvents()` before it runs the registered cleanup events; none is
registered here.) -/
def cleanupDead (sm : StateManager) : Except Fault StateManager :=
  match sm.mDead.getLast? with
  | none => .ok sm
  | some none => .error .undefinedBehaviour
  | some (some anState) =>
    let sm1 := { sm with mDead := sm.mDead.dropLast }
    let sm2 :=
      if (sm1.states anState).isInitComplete then sm1.onState anState IState.deInit else sm1
    let sm3 := sm2.onState anState IState.cleanup
    .ok { sm3 with mDeleted := anState :: sm3.mDeleted }

/-- The method `cleanup`: after the dead state, the test `NULL == mStack.back()`;
`back()` of an empty vector is undefined behaviour. -/
def cleanup (sm : StateManager) : Except Fault StateManager :=
  match cleanupDead sm with
  | .error f => .error f
  | .ok sm1 =>
    match sm1.mStack.getLast? with
    | none => .error .undefinedBehaviour
    | some none => .ok (sm1.quitApp .StatusAppOK)
    | some (some _) => .ok sm1

/-- The observation of a state manager that a call returned: `none` for a fault. -/
def observe {α : Type} (r : Except Fault StateManager) (f : StateManager → α) : Option α :=
  match r with
  | .ok sm => some (f sm)
  | .error _ => none

/-- The fault a call ended in, `none` when it returned. -/
def faultOf (r : Except Fault StateManager) : Option Fault :=
  match r with
  | .ok _ => none
  | .error f => some f

/-- A game loop round in which the only state of the stack removes itself: a
manager with a registered running game gets the state 0 as its active state, and
the state calls `removeActiveState` (as `SplashState::updateFixed` does). -/
def lastStateRemoved : Except Fault StateManager :=
  match ((ctor ⟨none, true⟩ fun _ => IState.ctor).registerApp).addActiveState 0 with
  | .error f => .error f
  | .ok sm => sm.removeActiveState

/-- The call of `cleanup` that the game loop makes at the end of that round. -/
def cleanupAfterLastState : Except Fault StateManager :=
  match lastStateRemoved with
  | .error f => .error f
  | .ok sm => sm.cleanup

end StateManager

/-! ## The four concrete systems and the properties they use -/

/-- The C++ types of the properties of the four concrete systems. -/
inductive GqeType where
  | bool
  | float
  | vector2f
  | vector2u
  | intRect
  | sprite
  | clock
  | actionGroup
deriving DecidableEq

/-- The values of a `GqeType`: a `float` is kept as a rational number, an
`sf::IntRect` as left, top, width, height; of an `sf::Sprite` and an `sf::Clock`
nothing is kept. -/
def GqeType.Val : GqeType → Type
  | .bool => Bool
  | .float => ℚ
  | .vector2f => ℚ × ℚ
  | .vector2u => Nat × Nat
  | .intRect => Int × Int × Int × Int
  | .sprite => Unit
  | .clock => Unit
  | .actionGroup => ActionGroup

instance instInhabitedGqeVal : ∀ t, Inhabited (GqeType.Val t)
  | .bool => ⟨false⟩
  | .float => ⟨(0 : ℚ)⟩
  | .vector2f => ⟨((0 : ℚ), (0 : ℚ))⟩
  | .vector2u => ⟨((0 : Nat), (0 : Nat))⟩
  | .intRect => ⟨((0 : Int), (0 : Int), (0 : Int), (0 : Int))⟩
  | .sprite => ⟨()⟩
  | .clock => ⟨()⟩
  | .actionGroup => ⟨ActionGroup.ctor none⟩

/-- The property bag `mProperties` of an entity. -/
abbrev EntityProperties := PropertyManager GqeType GqeType.Val

/-- Whether the bag holds a property under the ID (`find` does not reach `end()`). -/
def PropertyManager.has {Tag : Type} {Val : Tag → Type} (pm : PropertyManager Tag Val)
    (thePropertyID : typePropertyID) : Bool :=
  (StdMap.find pm.mList thePropertyID).isSome

/-- A call `get<TYPE>(thePropertyID)` in the body of a method: the type and the ID. -/
abbrev PropertyRead := GqeType × typePropertyID

/-- The method `MovementSystem::addProperties`, on the bag of the entity. -/
def MovementSystem.addProperties (pm : EntityProperties) : EntityProperties :=
  ((((((pm.add .vector2f "vVelocity" ((0 : ℚ), (0 : ℚ))).add
    .vector2f "vAcceleration" ((0 : ℚ), (0 : ℚ))).add
    .float "fRotationalVelocity" (0 : ℚ)).add
    .float "fRotationalAcceleration" (0 : ℚ)).add
    .bool "bFixedMovement" true).add
    .bool "bScreenWrap" true).add
    .bool "bMovable" true

/-- The `get` calls of `MovementSystem::handleScreenWrap`. -/
def MovementSystem.handleScreenWrapReads : List PropertyRead :=
  [(.intRect, "rSpriteRect")]

/-- The `get` calls of `MovementSystem::updateFixed` in the order of the source,
those of `handleScreenWrap`, which it calls, at the place of the call. -/
def MovementSystem.updateFixedReads : List PropertyRead :=
  [(.bool, "bFixedMovement"), (.vector2f, "vPosition"), (.float, "fRotation"),
   (.vector2f, "vVelocity"), (.vector2f, "vAcceleration"), (.float, "fRotationalVelocity"),
   (.float, "fRotationalAcceleration"), (.bool, "bScreenWrap")] ++
  MovementSystem.handleScreenWrapReads

/-- The `get` calls of `MovementSystem::updateVariable`, which are those of
`updateFixed`; `MovementSystem::draw` is empty. -/
def MovementSystem.updateVariableReads : List PropertyRead :=
  [(.bool, "bFixedMovement"), (.vector2f, "vPosition"), (.float, "fRotation"),
   (.vector2f, "vVelocity"), (.vector2f, "vAcceleration"), (.float, "fRotationalVelocity"),
   (.float, "fRotationalAcceleration"), (.bool, "bScreenWrap")] ++
  MovementSystem.handleScreenWrapReads

/-- The method `RenderSystem::addProperties`. -/
def RenderSystem.addProperties (pm : EntityProperties) : EntityProperties :=
  ((((((pm.add .sprite "Sprite" ()).add
    .intRect "rSpriteRect" ((0 : Int), (0 : Int), (0 : Int), (0 : Int))).add
    .vector2f "vScale" ((1 : ℚ), (1 : ℚ))).add
    .vector2f "vOrigin" ((0 : ℚ), (0 : ℚ))).add
    .vector2f "vPosition" ((0 : ℚ), (0 : ℚ))).add
    .float "fRotation" (0 : ℚ)).add
    .bool "bVisible" true

/-- The `get` calls of `RenderSystem::draw`; `updateFixed` and `updateVariable` of
`RenderSystem` are empty. -/
def RenderSystem.drawReads : List PropertyRead :=
  [(.bool, "bVisible"), (.sprite, "Sprite"), (.vector2f, "vPosition"), (.float, "fRotation"),
   (.intRect, "rSpriteRect"), (.vector2f, "vOrigin")]

/-- The method `AnimationSystem::addProperties`. -/
def AnimationSystem.addProperties (pm : EntityProperties) : EntityProperties :=
  (((pm.add .clock "FrameClock" ()).add
    .float "fFrameDelay" (0 : ℚ)).add
    .vector2u "wFrameModifier" ((0 : Nat), (0 : Nat))).add
    .intRect "rFrameRect" ((0 : Int), (0 : Int), (0 : Int), (0 : Int))

/-- The `get` calls of `AnimationSystem::updateFixed`; `updateVariable` and `draw`
of `AnimationSystem` are empty. -/
def AnimationSystem.updateFixedReads : List PropertyRead :=
  [(.clock, "FrameClock"), (.float, "fFrameDelay"), (.intRect, "rSpriteRect"),
   (.vector2u, "wFrameModifier"), (.intRect, "rFrameRect")]

/-- The method `ActionSystem::addProperties` of the action system at address `this`. -/
def ActionSystem.addProperties (this : ActionSystemPtr) (pm : EntityProperties) :
    EntityProperties :=
  pm.add .actionGroup "Actions" (ActionGroup.ctor (some this))

/-- The `get` call of `ActionSystem::updateFixed`; `updateVariable` and `draw` of
`ActionSystem` are empty. -/
def ActionSystem.updateFixedReads : List PropertyRead :=
  [(.actionGroup, "Actions")]

/-- The four concrete systems. -/
inductive ConcreteSystem where
  | MovementSystem
  | RenderSystem
  | AnimationSystem
  | ActionSystem
deriving DecidableEq

/-- The method `addProperties` of a concrete system (at address `this`). -/
def ConcreteSystem.addProperties (S : ConcreteSystem) (this : ActionSystemPtr)
    (pm : EntityProperties) : EntityProperties :=
  match S with
  | .MovementSystem => MovementSystem.addProperties pm
  | .RenderSystem => RenderSystem.addProperties pm
  | .AnimationSystem => AnimationSystem.addProperties pm
  | .ActionSystem => ActionSystem.addProperties this pm

/-- The `get` calls of `updateFixed`, `updateVariable` and `draw` of a concrete
system, helpers included. -/
def ConcreteSystem.reads : ConcreteSystem → List PropertyRead
  | .MovementSystem => MovementSystem.updateFixedReads ++ MovementSystem.updateVariableReads
  | .RenderSystem => RenderSystem.drawReads
  | .AnimationSystem => AnimationSystem.updateFixedReads
  | .ActionSystem => ActionSystem.updateFixedReads

/-! ## StringUtil: integer rectangles -/

/-- An `sf::IntRect`: left, top, width and height, each an `Int32`. -/
structure IntRect where
  /-- The left coordinate. -/
  left : Int
  /-- The top coordinate. -/
  top : Int
  /-- The width. -/
  width : Int
  /-- The height. -/
  height : Int
deriving DecidableEq

namespace StringUtil

/-- The characters `stream << theNumber` writes for a signed integer in the
classic locale: a minus sign for a negative number, then the decimal digits. -/
def writeInt (theNumber : Int) : List Char :=
  match theNumber with
  | .ofNat n => Nat.toDigits 10 n
  | .negSucc n => '-' :: Nat.toDigits 10 (n + 1)

/-- The method `convertIntRect`: top, left, width and height, in this sequence,
with `", "` between them. -/
def convertIntRect (theRect : IntRect) : String :=
  String.mk (writeInt theRect.top ++ [',', ' '] ++ writeInt theRect.left ++ [',', ' '] ++
    writeInt theRect.width ++ [',', ' '] ++ writeInt theRect.height)

/-- Whether `std::isspace` holds in the classic locale. -/
def isSpace (c : Char) : Bool :=
  c = ' ' || c = '\t' || c = '\n' || c = '\r' || c.toNat = 11 || c.toNat = 12

/-- The number the decimal digits spell. -/
def digitsValue (ds : List Char) : Nat :=
  ds.foldl (fun acc c => 10 * acc + (c.toNat - 48)) 0

/-- The optional sign at the head of a number: whether it is a minus sign, and the
characters after it. -/
def splitSign : List Char → Bool × List Char
  | '-' :: rest => (true, rest)
  | '+' :: rest => (false, rest)
  | s => (false, s)

/-- The value `iss >> anResult` extracts into an `Int32`: white space is skipped,
an optional sign and the decimal digits that follow are read, up to the first
other character; a number outside the `Int32` range gives the nearest bound.
`none` when there is no digit to read. -/
def readInt32 (s : List Char) : Option Int :=
  let signed := splitSign (s.dropWhile isSpace)
  let ds := signed.2.takeWhile Char.isDigit
  if ds.isEmpty then none
  else
    let v : Int :=
      if signed.1 then -((digitsValue ds : Nat) : Int) else ((digitsValue ds : Nat) : Int)
    some (max (-(2 : Int) ^ 31) (min v ((2 : Int) ^ 31 - 1)))

/-- The value of the variable `anResult` after the extraction `iss >> anResult`
from the characters `s`: the number read, and 0 when none can be read (since
C++11 a failed extraction writes 0 to the variable; what it held before is lost). -/
def extractInt32 (s : List Char) (_anResult : Int) : Int :=
  match readInt32 s with
  | some v => v
  | none => 0

/-- The method `parseInt32`: `anResult` starts as `theDefault`, and the result is
`anResult` after `iss >> anResult`. -/
def parseInt32 (theValue : List Char) (theDefault : Int) : Int :=
  extractInt32 theValue theDefault

/-- The scan of `find_first_of`: the index of the first `ch` in `s`, whose first
character has the index `i`. -/
def firstAt (ch : Char) : List Char → Nat → Option Nat
  | [], _ => none
  | c :: s, i => if c = ch then some i else firstAt ch s (i + 1)

/-- The call `theValue.find_first_of(ch, pos)`: `none` is `std::string::npos`. -/
def find_first_of (theValue : List Char) (ch : Char) (pos : Nat) : Option Nat :=
  firstAt ch (theValue.drop pos) pos

/-- The call `theValue.substr(pos, len)` for `pos` within the string; `none` for
the second argument is the default `npos`. -/
def substr (theValue : List Char) (pos : Nat) (len : Option Nat) : List Char :=
  match len with
  | some n => (theValue.drop pos).take n
  | none => theValue.drop pos

/-- The method `parseIntRect`.  The second argument of the two inner `substr`
calls is the offset of the next comma, as in the source, not a length. -/
def parseIntRect (theValue : String) (theDefault : IntRect) : IntRect :=
  match find_first_of theValue.data ',' 0 with
  | none => theDefault
  | some anComma1Offset =>
    let anLeft := parseInt32 (substr theValue.data 0 (some anComma1Offset)) theDefault.left
    match find_first_of theValue.data ',' (anComma1Offset + 1) with
    | none => theDefault
    | some anComma2Offset =>
      let anTop := parseInt32
        (substr theValue.data (anComma1Offset + 1) (some anComma2Offset)) theDefault.top
      match find_first_of theValue.data ',' (anComma2Offset + 1) with
      | none => theDefault
      | some anComma3Offset =>
        let anWidth := parseInt32
          (substr theValue.data (anComma2Offset + 1) (some anComma3Offset)) theDefault.width
        let anHeight := parseInt32
          (substr theValue.data (anComma3Offset + 1) none) theDefault.height
        ⟨anLeft, anTop, anWidth, anHeight⟩

end StringUtil

/-! ## ISystem: dropping all entities, and the moment of the cleanup hook -/

namespace ISystem

/-- The method `eraseEntity` up to its call of `handleCleanup`: the state in which
the hook is called, and the entity it is called for. -/
def stateAtCleanup (w : World) (s : SystemPtr) (k i : Nat) : Except Fault (World × EntityPtr) :=
  match StdMap.find (w.systems s).mEntities k with
  | none => .error .undefinedBehaviour
  | some q =>
    match q[i]? with
    | none => .error .undefinedBehaviour
    | some anEntity =>
      if (w.entities anEntity).mOrder ≠ k then .error .undefinedBehaviour
      else
        .ok (w.setSystem s { w.systems s with
          mEntities := StdMap.assign (w.systems s).mEntities k (q.eraseIdx i) }, anEntity)

/-- What `hasEntity` of the system answers for the ID of the entity in the state
in which `eraseEntity` calls `handleCleanup`; `none` when the call is not reached. -/
def hasEntityAtCleanup (w : World) (s : SystemPtr) (k i : Nat) : Option Bool :=
  match stateAtCleanup w s k i with
  | .ok (w1, anEntity) => some (hasEntity w1 s (IEntity.getID w1 anEntity))
  | .error _ => none

end ISystem

/-- A fresh world after `addEntity` of entity 5 (of order 0) on system 0 and then
`setOrder(1)` on the entity. -/
def World.reordered : World :=
  IEntity.setOrder (ISystem.addEntity (World.fresh fun _ => 0) 0 (some 5)).2 5 1

/-- The world `World.reordered` after a second `addEntity` of entity 5 on system 0
and then `setOrder(0)` on the entity: the system holds the entity in the deques
of order 0 and of order 1. -/
def World.addedTwice : World :=
  IEntity.setOrder (ISystem.addEntity World.reordered 0 (some 5)).2 5 0

namespace StdMap

variable {κ β : Type} [DecidableEq κ]

theorem find_assign_self [StdLess κ] (m : StdMap κ β) (k : κ) (v : β) :
    find (assign m k v) k = some v := by
  induction m with
  | nil => simp [assign, find]
  | cons p m ih =>
    obtain ⟨k', v'⟩ := p
    by_cases h : k' = k
    · simp [assign, find, h]
    · by_cases hl : StdLess.less k k' = true
      · simp [assign, find, h, hl]
      · simp [assign, find, h, hl, ih]

theorem find_assign_ne [StdLess κ] (m : StdMap κ β) (k k2 : κ) (v : β) (hne : k2 ≠ k) :
    find (assign m k v) k2 = find m k2 := by
  induction m with
  | nil => simp [assign, find, Ne.symm hne]
  | cons p m ih =>
    obtain ⟨k', v'⟩ := p
    by_cases h : k' = k
    · subst h
      simp [assign, find, Ne.symm hne]
    · by_cases hl : StdLess.less k k' = true
      · simp [assign, find, h, hl, Ne.symm hne]
      · by_cases h2 : k' = k2
        · subst h2
          simp [assign, find, h, hl]
        · simp [assign, find, h, hl, h2, ih]

end StdMap

/-! ### C9, C10: property round trips -/

namespace PropertyManager

variable {Tag : Type} [DecidableEq Tag] {Val : Tag → Type} [∀ t, Inhabited (Val t)]

/-- C9 (as stated, refuted): on a manager that already stores `"k"` with the
`uint32` value 1, `add<uint32>("k", 2)` followed by `get<uint32>("k")` returns 1, not 2. -/
theorem c9_add_existing_key_keeps_old_value :
    get (add (add (empty : PropertyManager CppType CppType.Val) .uint32 "k" (1 : Nat))
      .uint32 "k" (2 : Nat)) .uint32 "k" = (1 : Nat) ∧
    get (add (add (empty : PropertyManager CppType CppType.Val) .uint32 "k" (1 : Nat))
      .uint32 "k" (2 : Nat)) .uint32 "k" ≠ (2 : Nat) := by
  decide

/-- C9 (amended): for every manager in which key `k` is absent, after
`add<T>(k, v)` the call `get<T>(k)` returns `v`; when `k` is present, `add<T>(k, v)`
leaves the manager as it was. -/
theorem c9_get_after_add (pm : PropertyManager Tag Val) (T : Tag) (k : typePropertyID)
    (v : Val T) :
    (StdMap.find pm.mList k = none → get (add pm T k v) T k = v) ∧
    (StdMap.find pm.mList k ≠ none → add pm T k v = pm) := by
  constructor
  · intro h
    simp [add, get, h, StdMap.find_assign_self]
  · intro h
    cases hf : StdMap.find pm.mList k with
    | none => exact absurd hf h
    | some p => simp [add, hf]

/-- C9 witness: adding the absent key `"k"` to the empty manager. -/
theorem c9_get_after_add_witness :
    StdMap.find (empty : PropertyManager CppType CppType.Val).mList "k" = none ∧
    get (add (empty : PropertyManager CppType CppType.Val) .uint32 "k" (7 : Nat))
      .uint32 "k" = (7 : Nat) :=
  ⟨rfl, (c9_get_after_add (empty : PropertyManager CppType CppType.Val) .uint32 "k"
    (7 : Nat)).1 rfl⟩

/-- C10: for every manager in which key `k` is stored with type `T`, after
`set<T>(k, v2)` the call `get<T>(k)` returns `v2`, and the property stored under
every other key is unchanged. -/
theorem c10_get_after_set (pm : PropertyManager Tag Val) (T : Tag) (k : typePropertyID)
    (v2 : Val T) (p : IProperty Tag Val) (hk : StdMap.find pm.mList k = some p)
    (hT : p.mType = T) :
    get (set pm T k v2) T k = v2 ∧
    (∀ k', k' ≠ k → StdMap.find (set pm T k v2).mList k' = StdMap.find pm.mList k') ∧
    (∀ (U : Tag) (k' : typePropertyID), k' ≠ k → get (set pm T k v2) U k' = get pm U k') := by
  have hset : set pm T k v2 = ⟨StdMap.assign pm.mList k ⟨T, p.mID, v2⟩⟩ := by
    simp [set, hk, hT]
  refine ⟨?_, ?_, ?_⟩
  · rw [hset]
    simp [get, StdMap.find_assign_self]
  · intro k' hne
    rw [hset]
    exact StdMap.find_assign_ne _ _ _ _ hne
  · intro U k' hne
    rw [hset]
    simp only [get]
    rw [StdMap.find_assign_ne _ _ _ _ hne]

/-- C10 witness: overwriting the `uint32` property `"k"` next to a `bool` property `"b"`. -/
theorem c10_get_after_set_witness :
    get (set (add (add (empty : PropertyManager CppType CppType.Val) .uint32 "k" (1 : Nat))
      .bool "b" true) .uint32 "k" (5 : Nat)) .uint32 "k" = (5 : Nat) ∧
    get (set (add (add (empty : PropertyManager CppType CppType.Val) .uint32 "k" (1 : Nat))
      .bool "b" true) .uint32 "k" (5 : Nat)) .bool "b" = true :=
  have h := c10_get_after_set
    (add (add (empty : PropertyManager CppType CppType.Val) .uint32 "k" (1 : Nat)) .bool "b" true)
    .uint32 "k" (5 : Nat) ⟨.uint32, "k", (1 : Nat)⟩ rfl rfl
  ⟨h.1, by rw [h.2.2 .bool "b" (by decide)]; decide⟩

end PropertyManager


/-! ### C5: the reference count is the number of live handles -/

namespace StdMap

variable {κ β : Type} [DecidableEq κ]

theorem find_erase_self (m : StdMap κ β) (k : κ) : find (erase m k) k = none := by
  induction m with
  | nil => simp [erase, find]
  | cons p m ih =>
    obtain ⟨k', v'⟩ := p
    by_cases h : k' = k
    · simpa [erase, List.filter_cons, h] using ih
    · simpa [erase, List.filter_cons, h, find] using ih

end StdMap

namespace TAssetHandler

theorem refCount_getReference (h : TAssetHandler) (a : assetID) (lt : AssetLoadTime)
    (ls : AssetLoadStyle) (dt : AssetDropTime) :
    (h.getReference a lt ls dt).2.refCount a = h.refCount a + 1 := by
  unfold getReference refCount
  simp only [StdMap.find_assign_self]
  cases StdMap.find h.mAssets a <;> (simp only []; split <;> rfl)

theorem refCount_dropReference (h : TAssetHandler) (a : assetID) :
    (h.dropReference a).refCount a = h.refCount a - 1 := by
  cases hf : StdMap.find h.mAssets a with
  | none => simp [dropReference, refCount, hf]
  | some r =>
    by_cases hz : r.referenceCount - 1 = 0 ∧ r.dropTime = AssetDropAtZero
    · simp [dropReference, refCount, hf, hz, StdMap.find_erase_self]
    · simp [dropReference, refCount, hf, hz, StdMap.find_assign_self]

theorem getReferenceCalls_getReference (h : TAssetHandler) (a : assetID) (lt : AssetLoadTime)
    (ls : AssetLoadStyle) (dt : AssetDropTime) :
    (h.getReference a lt ls dt).2.getReferenceCalls a = h.getReferenceCalls a + 1 := by
  simp [getReference, getReferenceCalls, List.count_append]

theorem dropReferenceCalls_getReference (h : TAssetHandler) (a : assetID) (lt : AssetLoadTime)
    (ls : AssetLoadStyle) (dt : AssetDropTime) :
    (h.getReference a lt ls dt).2.dropReferenceCalls a = h.dropReferenceCalls a := by
  simp [getReference, dropReferenceCalls, List.count_append]

theorem mCalls_getReference (h : TAssetHandler) (a : assetID) (lt : AssetLoadTime)
    (ls : AssetLoadStyle) (dt : AssetDropTime) :
    (h.getReference a lt ls dt).2.mCalls = h.mCalls ++ [HandlerCall.getReference a] := rfl

theorem mCalls_dropReference (h : TAssetHandler) (a : assetID) :
    (h.dropReference a).mCalls = h.mCalls ++ [HandlerCall.dropReference a] := by
  unfold dropReference
  cases StdMap.find h.mAssets a with
  | none => rfl
  | some r => simp only []; split <;> rfl

theorem getReferenceCalls_dropReference (h : TAssetHandler) (a : assetID) :
    (h.dropReference a).getReferenceCalls a = h.getReferenceCalls a := by
  simp [getReferenceCalls, mCalls_dropReference, List.count_append]

theorem dropReferenceCalls_dropReference (h : TAssetHandler) (a : assetID) :
    (h.dropReference a).dropReferenceCalls a = h.dropReferenceCalls a + 1 := by
  simp [dropReferenceCalls, mCalls_dropReference, List.count_append]

end TAssetHandler

theorem HandleOp.step_spec (a : assetID) (st st' : HandleState) (op : HandleOp)
    (hb : st.Balanced a) (hs : op.step a st = some st') :
    st'.Balanced a ∧
    st'.live.length + (if op.isDestruction then 1 else 0) =
      st.live.length + (if op.isConstruction then 1 else 0) ∧
    st'.handler.getReferenceCalls a =
      st.handler.getReferenceCalls a + (if op.isConstruction then 1 else 0) ∧
    st'.handler.dropReferenceCalls a =
      st.handler.dropReferenceCalls a + (if op.isDestruction then 1 else 0) := by
  obtain ⟨hall, hcnt⟩ := hb
  cases op with
  | construct lt ls dt =>
    simp only [HandleOp.step, Option.some.injEq] at hs
    subst hs
    refine ⟨⟨?_, ?_⟩, ?_, ?_, ?_⟩
    · intro t ht
      rcases List.mem_append.1 ht with h | h
      · exact hall t h
      · simp only [List.mem_singleton] at h
        subst h
        rfl
    · simp [TAsset.ctor, TAssetHandler.refCount_getReference, hcnt]
    · simp [HandleOp.isDestruction, HandleOp.isConstruction]
    · simp [TAsset.ctor, TAssetHandler.getReferenceCalls_getReference,
        HandleOp.isConstruction]
    · simp [TAsset.ctor, TAssetHandler.dropReferenceCalls_getReference,
        HandleOp.isDestruction]
  | copy i =>
    simp only [HandleOp.step] at hs
    cases hg : st.live[i]? with
    | none => simp [hg] at hs
    | some t =>
      simp only [hg, Option.some.injEq] at hs
      subst hs
      have hta : t.mAssetID = a := hall t (List.getElem?_mem hg)
      refine ⟨⟨?_, ?_⟩, ?_, ?_, ?_⟩
      · intro u hu
        rcases List.mem_append.1 hu with h | h
        · exact hall u h
        · simp only [List.mem_singleton] at h
          subst h
          exact hta
      · simp [TAsset.copyCtor, hta, TAssetHandler.refCount_getReference, hcnt]
      · simp [HandleOp.isDestruction, HandleOp.isConstruction]
      · simp [TAsset.copyCtor, hta, TAssetHandler.getReferenceCalls_getReference,
          HandleOp.isConstruction]
      · simp [TAsset.copyCtor, hta, TAssetHandler.dropReferenceCalls_getReference,
          HandleOp.isDestruction]
  | destroy i =>
    simp only [HandleOp.step] at hs
    cases hg : st.live[i]? with
    | none => simp [hg] at hs
    | some t =>
      simp only [hg, Option.some.injEq] at hs
      subst hs
      have hta : t.mAssetID = a := hall t (List.getElem?_mem hg)
      have hi : i < st.live.length := by
        by_contra hcon
        rw [List.getElem?_eq_none (Nat.le_of_not_lt hcon)] at hg
        exact Option.noConfusion hg
      have hlen : (st.live.eraseIdx i).length = st.live.length - 1 := by
        rw [List.length_eraseIdx]
        simp [hi]
      refine ⟨⟨?_, ?_⟩, ?_, ?_, ?_⟩
      · intro u hu
        exact hall u ((List.eraseIdx_sublist st.live i).subset hu)
      · simp [TAsset.dtor, hta, TAssetHandler.refCount_dropReference, hcnt, hlen]
      · simp only [HandleOp.isDestruction, HandleOp.isConstruction, hlen]
        simp
        omega
      · simp [TAsset.dtor, hta, TAssetHandler.getReferenceCalls_dropReference,
          HandleOp.isConstruction]
      · simp [TAsset.dtor, hta, TAssetHandler.dropReferenceCalls_dropReference,
          HandleOp.isDestruction]

theorem runHandleOps_spec (a : assetID) (ops : List HandleOp) :
    ∀ (st st' : HandleState), st.Balanced a → runHandleOps a st ops = some st' →
    st'.Balanced a ∧
    st'.live.length + ops.countP HandleOp.isDestruction =
      st.live.length + ops.countP HandleOp.isConstruction ∧
    st'.handler.getReferenceCalls a =
      st.handler.getReferenceCalls a + ops.countP HandleOp.isConstruction ∧
    st'.handler.dropReferenceCalls a =
      st.handler.dropReferenceCalls a + ops.countP HandleOp.isDestruction := by
  induction ops with
  | nil =>
    intro st st' hb hr
    simp only [runHandleOps, Option.some.injEq] at hr
    subst hr
    simp [hb]
  | cons op ops ih =>
    intro st st' hb hr
    simp only [runHandleOps] at hr
    cases hs : op.step a st with
    | none => simp [hs] at hr
    | some st1 =>
      simp only [hs] at hr
      obtain ⟨hb1, hl1, hg1, hd1⟩ := HandleOp.step_spec a st st1 op hb hs
      obtain ⟨hb2, hl2, hg2, hd2⟩ := ih st1 st' hb1 hr
      refine ⟨hb2, ?_, ?_, ?_⟩
      · simp only [List.countP_cons]
        omega
      · simp only [List.countP_cons]
        omega
      · simp only [List.countP_cons]
        omega

/-- C5: for every sequence of handle constructions (by asset ID or by copy) and
destructions against one asset ID `a`, started with no live handle and a
reference count of 0 and run to its end, with N constructions and M
destructions: M ≤ N, the handles issued N `getReference` and M `dropReference`
requests for `a`, and the reference count of `a` equals N − M, the number of
live handles. -/
theorem c5_reference_count_is_live_handles (a : assetID) (h0 : TAssetHandler)
    (ops : List HandleOp) (st : HandleState)
    (hzero : h0.refCount a = 0)
    (hrun : runHandleOps a ⟨h0, []⟩ ops = some st) :
    ops.countP HandleOp.isDestruction ≤ ops.countP HandleOp.isConstruction ∧
    st.handler.getReferenceCalls a =
      h0.getReferenceCalls a + ops.countP HandleOp.isConstruction ∧
    st.handler.dropReferenceCalls a =
      h0.dropReferenceCalls a + ops.countP HandleOp.isDestruction ∧
    st.handler.refCount a =
      ops.countP HandleOp.isConstruction - ops.countP HandleOp.isDestruction ∧
    st.live.length =
      ops.countP HandleOp.isConstruction - ops.countP HandleOp.isDestruction := by
  have hb : HandleState.Balanced a ⟨h0, []⟩ := ⟨by simp, by simpa using hzero⟩
  obtain ⟨hb', hl, hg, hd⟩ := runHandleOps_spec a ops _ st hb hrun
  simp only [List.length_nil, Nat.zero_add] at hl
  refine ⟨by omega, hg, hd, ?_, by omega⟩
  rw [hb'.2]
  omega

/-- C5 witness: construct, copy, destroy the first handle, construct again:
3 constructions, 1 destruction, reference count 2. -/
theorem c5_reference_count_is_live_handles_witness :
    (TAssetHandler.fresh true).refCount "a.png" = 0 ∧
    ∃ st, runHandleOps "a.png" ⟨TAssetHandler.fresh true, []⟩
        [.construct AssetLoadLater AssetLoadFromFile AssetDropAtZero, .copy 0, .destroy 0,
         .construct AssetLoadNow AssetLoadFromFile AssetDropAtExit] = some st ∧
      st.handler.refCount "a.png" = 2 ∧ st.live.length = 2 :=
  ⟨rfl, _, rfl,
    (c5_reference_count_is_live_handles "a.png" (TAssetHandler.fresh true)
      [.construct AssetLoadLater AssetLoadFromFile AssetDropAtZero, .copy 0, .destroy 0,
       .construct AssetLoadNow AssetLoadFromFile AssetDropAtExit] _ rfl rfl).2.2.2.1,
    (c5_reference_count_is_live_handles "a.png" (TAssetHandler.fresh true)
      [.construct AssetLoadLater AssetLoadFromFile AssetDropAtZero, .copy 0, .destroy 0,
       .construct AssetLoadNow AssetLoadFromFile AssetDropAtExit] _ rfl rfl).2.2.2.2⟩

/-! ### C6 - C8: what getAsset, setID and the assignment do to the counts -/

namespace TAsset

/-- C6 (what the code does at the failing input): on a fresh handler whose loads
succeed, a handle on `"a.png"` (load Later, drop AtZero), one `getAsset()`, then
the destructor: two `getReference` and one `dropReference` were issued, the
reference count is 1 and the record is still there. -/
theorem c6_getAsset_leaks_a_reference :
    (TAssetHandler.fresh true).hasRecord "a.png" = false ∧
    (ctor (TAssetHandler.fresh true) "a.png" AssetLoadLater AssetLoadFromFile
      AssetDropAtZero).1.isLoaded "a.png" = false ∧
    (getAsset
      (ctor (TAssetHandler.fresh true) "a.png" AssetLoadLater AssetLoadFromFile
        AssetDropAtZero).1
      (ctor (TAssetHandler.fresh true) "a.png" AssetLoadLater AssetLoadFromFile
        AssetDropAtZero).2).1.isLoaded "a.png" = true ∧
    (lifeWithGetAsset (TAssetHandler.fresh true) "a.png").getReferenceCalls "a.png" = 2 ∧
    (lifeWithGetAsset (TAssetHandler.fresh true) "a.png").dropReferenceCalls "a.png" = 1 ∧
    (lifeWithGetAsset (TAssetHandler.fresh true) "a.png").refCount "a.png" = 1 ∧
    (lifeWithGetAsset (TAssetHandler.fresh true) "a.png").hasRecord "a.png" = true := by
  decide

/-- C7 (what the code does): `setID` issues one `getReference` for the new ID and
no `dropReference` at all; at the failing input, a handle bound to `"a"` re-bound
with `setID("b")`, the count of `"a"` stays 1 and that of `"b"` becomes 1. -/
theorem c7_setID_keeps_old_reference :
    (∀ (h : TAssetHandler) (t : TAsset) (b : assetID) (lt : AssetLoadTime)
        (ls : AssetLoadStyle) (dt : AssetDropTime),
      (setID h t b lt ls dt).1.mCalls = h.mCalls ++ [HandlerCall.getReference b]) ∧
    (boundTo (TAssetHandler.fresh true) "a").1.refCount "a" = 1 ∧
    (boundTo (TAssetHandler.fresh true) "a").1.refCount "b" = 0 ∧
    (setID (boundTo (TAssetHandler.fresh true) "a").1 (boundTo (TAssetHandler.fresh true) "a").2
      "b" AssetLoadLater AssetLoadFromFile AssetDropAtZero).1.refCount "a" = 1 ∧
    (setID (boundTo (TAssetHandler.fresh true) "a").1 (boundTo (TAssetHandler.fresh true) "a").2
      "b" AssetLoadLater AssetLoadFromFile AssetDropAtZero).1.refCount "b" = 1 ∧
    (setID (boundTo (TAssetHandler.fresh true) "a").1 (boundTo (TAssetHandler.fresh true) "a").2
      "b" AssetLoadLater AssetLoadFromFile AssetDropAtZero).1.dropReferenceCalls "a" = 0 ∧
    (setID (boundTo (TAssetHandler.fresh true) "a").1 (boundTo (TAssetHandler.fresh true) "a").2
      "b" AssetLoadLater AssetLoadFromFile AssetDropAtZero).2.mAssetID = "b" :=
  ⟨fun _ _ _ _ _ _ => rfl, by decide⟩

/-- C8 (what the code does): the assignment `x = y` issues `getReference` for the
ID of `y` twice (the copy made for the by-value parameter, and the call after the
swap) and `dropReference` for the old ID of `x` once; at the failing input, `x`
bound to `"a"` and `y` bound to `"b"` (drop AtExit), the count of `"a"` goes from
1 to 0 and that of `"b"` from 1 to 3, for 2 live handles on `"b"`. -/
theorem c8_assignment_counts_twice :
    (∀ (h : TAssetHandler) (x y : TAsset),
      (assign h x y).1.mCalls = h.mCalls ++
        [HandlerCall.getReference y.mAssetID, HandlerCall.getReference y.mAssetID,
         HandlerCall.dropReference x.mAssetID]) ∧
    (twoHandles "a" "b").1.refCount "a" = 1 ∧ (twoHandles "a" "b").1.refCount "b" = 1 ∧
    (assign (twoHandles "a" "b").1 (twoHandles "a" "b").2.1
      (twoHandles "a" "b").2.2).1.refCount "a" = 0 ∧
    (assign (twoHandles "a" "b").1 (twoHandles "a" "b").2.1
      (twoHandles "a" "b").2.2).1.refCount "b" = 3 ∧
    (assign (twoHandles "a" "b").1 (twoHandles "a" "b").2.1
      (twoHandles "a" "b").2.2).2.mAssetID = "b" := by
  refine ⟨fun h x y => ?_, by decide⟩
  simp only [assign, copyCtor, swap, dtor, TAssetHandler.mCalls_dropReference,
    TAssetHandler.mCalls_getReference, List.append_assoc, List.singleton_append]
  rfl

end TAsset

/-! ### Entities and systems -/


namespace StdMap

variable {β : Type}

theorem mem_of_find {κ : Type} [DecidableEq κ] (m : StdMap κ β) (k : κ) (v : β)
    (h : find m k = some v) : (k, v) ∈ m := by
  induction m with
  | nil => simp [find] at h
  | cons p m ih =>
    obtain ⟨k', v'⟩ := p
    by_cases hk : k' = k
    · subst hk
      simp only [find, if_true, Option.some.injEq] at h
      subst h
      exact List.mem_cons_self _ _
    · simp only [find, hk, if_false] at h
      exact List.mem_cons_of_mem _ (ih h)

theorem find_of_mem (m : StdMap Nat β) (hs : Sorted m) (k : Nat) (v : β)
    (h : (k, v) ∈ m) : find m k = some v := by
  induction m with
  | nil => simp at h
  | cons p m ih =>
    obtain ⟨k', v'⟩ := p
    simp only [Sorted, List.map_cons, List.pairwise_cons] at hs
    rcases List.mem_cons.1 h with h1 | h1
    · cases h1
      simp [find]
    · have hlt : k' < k := hs.1 k (List.mem_map_of_mem Prod.fst h1)
      have hne : k' ≠ k := Nat.ne_of_lt hlt
      simp only [find, hne, if_false]
      exact ih hs.2 h1

theorem mem_keys_assign (m : StdMap Nat β) (k : Nat) (v : β) (x : Nat)
    (h : x ∈ (assign m k v).map Prod.fst) : x = k ∨ x ∈ m.map Prod.fst := by
  induction m with
  | nil =>
    simp only [assign, List.map_cons, List.map_nil, List.mem_singleton] at h
    exact Or.inl h
  | cons p m ih =>
    obtain ⟨k', v'⟩ := p
    simp only [assign] at h
    split at h
    · rename_i hk
      subst hk
      simp only [List.map_cons, List.mem_cons] at h ⊢
      tauto
    · split at h
      · simp only [List.map_cons, List.mem_cons] at h ⊢
        tauto
      · simp only [List.map_cons, List.mem_cons] at h ⊢
        rcases h with h | h
        · tauto
        · have := ih h
          tauto

theorem sorted_assign (m : StdMap Nat β) (hs : Sorted m) (k : Nat) (v : β) :
    Sorted (assign m k v) := by
  induction m with
  | nil => simp [Sorted, assign]
  | cons p m ih =>
    obtain ⟨k', v'⟩ := p
    have hs' := hs
    simp only [Sorted, List.map_cons, List.pairwise_cons] at hs'
    simp only [assign]
    split
    · rename_i hk
      simpa [Sorted] using hs
    · rename_i hk
      split
      · rename_i hl
        have hlt : k < k' := by simpa [StdLess.less] using hl
        simp only [Sorted, List.map_cons, List.pairwise_cons]
        refine ⟨?_, hs'.1, hs'.2⟩
        intro x hx
        rcases List.mem_cons.1 hx with h | h
        · subst h
          exact hlt
        · exact Nat.lt_trans hlt (hs'.1 x h)
      · rename_i hl
        have hge : ¬ k < k' := by simpa [StdLess.less] using hl
        have hlt : k' < k := by omega
        simp only [Sorted, List.map_cons, List.pairwise_cons]
        refine ⟨?_, ih hs'.2⟩
        intro x hx
        rcases mem_keys_assign m k v x hx with h | h
        · subst h
          exact hlt
        · exact hs'.1 x h

theorem find_assign (m : StdMap Nat β) (k k2 : Nat) (v : β) :
    find (assign m k v) k2 = if k2 = k then some v else find m k2 := by
  by_cases h : k2 = k
  · subst h
    simp [find_assign_self]
  · simp [h, find_assign_ne _ _ _ _ h]

theorem find_erase_ne {κ : Type} [DecidableEq κ] (m : StdMap κ β) (k k2 : κ) (hne : k2 ≠ k) :
    find (erase m k) k2 = find m k2 := by
  induction m with
  | nil => simp [erase, find]
  | cons p m ih =>
    obtain ⟨k', v'⟩ := p
    by_cases h : k' = k
    · subst h
      have : ¬ k' = k2 := fun h' => hne h'.symm
      simpa [erase, List.filter_cons, find, this] using ih
    · by_cases h2 : k' = k2
      · subst h2
        simp [erase, List.filter_cons, h, find]
      · simpa [erase, List.filter_cons, h, find, h2] using ih

end StdMap

/-! ### The scans of a registry -/

namespace ISystem

theorem findInDeque_none (w : World) (theEntityID : typeEntityID) (q : List EntityPtr) :
    findInDeque w theEntityID q = none ↔ ∀ e ∈ q, (w.entities e).mEntityID ≠ theEntityID := by
  induction q with
  | nil => simp [findInDeque]
  | cons a q ih =>
    by_cases h : theEntityID = (w.entities a).mEntityID
    · simp [findInDeque, h]
    · have h' : (w.entities a).mEntityID ≠ theEntityID := fun x => h x.symm
      simp [findInDeque, h, ih, h']

theorem findInDeque_some (w : World) (theEntityID : typeEntityID) (q : List EntityPtr) (i : Nat)
    (h : findInDeque w theEntityID q = some i) :
    ∃ e, q[i]? = some e ∧ (w.entities e).mEntityID = theEntityID := by
  induction q generalizing i with
  | nil => simp [findInDeque] at h
  | cons a q ih =>
    by_cases ha : theEntityID = (w.entities a).mEntityID
    · simp only [findInDeque, ha, if_true, Option.some.injEq] at h
      subst h
      exact ⟨a, by simp, ha.symm⟩
    · simp only [findInDeque, ha, if_false, Option.map_eq_some'] at h
      obtain ⟨j, hj, rfl⟩ := h
      obtain ⟨e, he, hid⟩ := ih j hj
      exact ⟨e, by simpa using he, hid⟩

theorem findEntity_none (w : World) (theEntityID : typeEntityID)
    (m : StdMap Nat (List EntityPtr)) :
    findEntity w theEntityID m = none ↔
      ∀ k q, (k, q) ∈ m → ∀ e ∈ q, (w.entities e).mEntityID ≠ theEntityID := by
  induction m with
  | nil => simp [findEntity]
  | cons p m ih =>
    obtain ⟨k', q'⟩ := p
    cases hq : findInDeque w theEntityID q' with
    | none =>
      have hq' := (findInDeque_none w theEntityID q').1 hq
      simp only [findEntity, hq, ih, List.mem_cons, Prod.mk.injEq]
      constructor
      · intro h k q hkq e he
        rcases hkq with ⟨rfl, rfl⟩ | hkq
        · exact hq' e he
        · exact h k q hkq e he
      · intro h k q hkq e he
        exact h k q (Or.inr hkq) e he
    | some i =>
      obtain ⟨e, he, hid⟩ := findInDeque_some w theEntityID q' i hq
      simp only [findEntity, hq]
      constructor
      · intro h
        exact Option.noConfusion h
      · intro h
        exact absurd hid (h k' q' (List.mem_cons_self _ _) e (List.getElem?_mem he))

theorem hasEntity_false (w : World) (s : SystemPtr) (theEntityID : typeEntityID) :
    hasEntity w s theEntityID = false ↔
      ∀ k q, (k, q) ∈ (w.systems s).mEntities → ∀ e ∈ q,
        (w.entities e).mEntityID ≠ theEntityID := by
  unfold hasEntity
  rw [← findEntity_none]
  cases findEntity w theEntityID (w.systems s).mEntities <;> simp

end ISystem

theorem List.mem_eraseIdx_of_nodup {α : Type} (q : List α) (hq : q.Nodup) (i : Nat) (e x : α)
    (he : q[i]? = some e) : x ∈ q.eraseIdx i ↔ x ∈ q ∧ x ≠ e := by
  induction q generalizing i with
  | nil => simp at he
  | cons a q ih =>
    rw [List.nodup_cons] at hq
    cases i with
    | zero =>
      simp only [List.getElem?_cons_zero, Option.some.injEq] at he
      subst he
      simp only [List.eraseIdx_cons_zero, List.mem_cons]
      constructor
      · intro hx
        exact ⟨Or.inr hx, fun h => hq.1 (h ▸ hx)⟩
      · rintro ⟨hx | hx, hne⟩
        · exact absurd hx hne
        · exact hx
    | succ j =>
      simp only [List.getElem?_cons_succ] at he
      have hmem : e ∈ q := List.getElem?_mem he
      simp only [List.eraseIdx_cons_succ, List.mem_cons, ih hq.2 j he]
      constructor
      · rintro (hx | ⟨hx, hne⟩)
        · subst hx
          exact ⟨Or.inl rfl, fun h => hq.1 (h ▸ hmem)⟩
        · exact ⟨Or.inr hx, hne⟩
      · rintro ⟨hx | hx, hne⟩
        · exact Or.inl hx
        · exact Or.inr ⟨hx, hne⟩

/-! ### Registering an entity -/

namespace World

theorem register_entityID (w : World) (s : SystemPtr) (e x : EntityPtr) :
    ((w.register s e).entities x).mEntityID = (w.entities x).mEntityID := by
  by_cases h : x = e
  · subst h; simp [register]
  · simp [register, Function.update_noteq h]

theorem register_order (w : World) (s : SystemPtr) (e x : EntityPtr) :
    ((w.register s e).entities x).mOrder = (w.entities x).mOrder := by
  by_cases h : x = e
  · subst h; simp [register]
  · simp [register, Function.update_noteq h]

theorem register_mSystems (w : World) (s : SystemPtr) (e x : EntityPtr) :
    ((w.register s e).entities x).mSystems =
      if x = e then StdMap.assign (w.entities e).mSystems (w.systems s).mSystemID s
      else (w.entities x).mSystems := by
  by_cases h : x = e
  · subst h; simp [register]
  · simp [register, Function.update_noteq h, h]

theorem register_systemID (w : World) (s : SystemPtr) (e : EntityPtr) (x : SystemPtr) :
    ((w.register s e).systems x).mSystemID = (w.systems x).mSystemID := by
  by_cases h : x = s
  · subst h; simp [register]
  · simp [register, Function.update_noteq h]

theorem register_mEntities (w : World) (s : SystemPtr) (e : EntityPtr) (x : SystemPtr) :
    ((w.register s e).systems x).mEntities =
      if x = s then StdMap.assign (w.systems s).mEntities (w.entities e).mOrder
        ((StdMap.find (w.systems s).mEntities (w.entities e).mOrder).getD [] ++ [e])
      else (w.systems x).mEntities := by
  by_cases h : x = s
  · subst h; simp [register]
  · simp [register, Function.update_noteq h, h]

/-- In a consistent world an entity that is not in the deque of its order in `s`
does not have `s` in its membership set. -/
theorem Consistent.not_member (w : World) (hw : w.Consistent) (s : SystemPtr) (e : EntityPtr)
    (hnot : e ∉ (StdMap.find (w.systems s).mEntities (w.entities e).mOrder).getD []) :
    StdMap.find (w.entities e).mSystems (w.systems s).mSystemID = none := by
  cases hf : StdMap.find (w.entities e).mSystems (w.systems s).mSystemID with
  | none => rfl
  | some s2 =>
    obtain ⟨hid, q, hq, heq⟩ := hw.entityOf e _ s2 hf
    have hs : s2 = s := hw.systemIDs s2 s hid
    subst hs
    rw [hq] at hnot
    exact absurd heq hnot

theorem Consistent.register (w : World) (hw : w.Consistent) (s : SystemPtr) (e : EntityPtr)
    (hnot : e ∉ (StdMap.find (w.systems s).mEntities (w.entities e).mOrder).getD []) :
    (w.register s e).Consistent := by
  have hnone := hw.not_member w s e hnot
  refine ⟨?_, ?_, ?_, ?_, ?_, ?_, ?_⟩
  · intro a b h
    simp only [register_systemID] at h
    exact hw.systemIDs a b h
  · intro a b h
    simp only [register_entityID] at h
    exact hw.entityIDs a b h
  · intro x
    rw [register_mEntities]
    by_cases hx : x = s
    · subst hx
      simp only [if_true]
      exact StdMap.sorted_assign _ (hw.sorted x) _ _
    · simp only [hx, if_false]
      exact hw.sorted x
  · intro x k q a hf ha
    rw [register_order]
    rw [register_mEntities] at hf
    by_cases hx : x = s
    · subst hx
      simp only [if_true, StdMap.find_assign] at hf
      by_cases hk : k = (w.entities e).mOrder
      · simp only [hk, if_true, Option.some.injEq] at hf
        subst hf
        rcases List.mem_append.1 ha with h | h
        · cases hq : StdMap.find (w.systems x).mEntities (w.entities e).mOrder with
          | none => simp [hq] at h
          | some q0 =>
            simp only [hq, Option.getD_some] at h
            rw [hk]
            exact hw.ownBucket x _ q0 a hq h
        · simp only [List.mem_singleton] at h
          subst h
          exact hk.symm
      · simp only [hk, if_false] at hf
        exact hw.ownBucket x k q a hf ha
    · simp only [hx, if_false] at hf
      exact hw.ownBucket x k q a hf ha
  · intro x k q hf
    rw [register_mEntities] at hf
    by_cases hx : x = s
    · subst hx
      simp only [if_true, StdMap.find_assign] at hf
      by_cases hk : k = (w.entities e).mOrder
      · simp only [hk, if_true, Option.some.injEq] at hf
        subst hf
        cases hq : StdMap.find (w.systems x).mEntities (w.entities e).mOrder with
        | none => simp
        | some q0 =>
          simp only [hq, Option.getD_some] at hnot ⊢
          exact List.Nodup.append (hw.nodup x _ q0 hq) (List.nodup_singleton e)
            (by simpa [List.disjoint_singleton] using hnot)
      · simp only [hk, if_false] at hf
        exact hw.nodup x k q hf
    · simp only [hx, if_false] at hf
      exact hw.nodup x k q hf
  · intro x k q a hf ha
    rw [register_systemID, register_mSystems]
    rw [register_mEntities] at hf
    by_cases hx : x = s
    · subst hx
      simp only [if_true, StdMap.find_assign] at hf
      by_cases hae : a = e
      · subst hae
        simp [StdMap.find_assign_self]
      · simp only [hae, if_false]
        by_cases hk : k = (w.entities e).mOrder
        · simp only [hk, if_true, Option.some.injEq] at hf
          subst hf
          rcases List.mem_append.1 ha with h | h
          · cases hq : StdMap.find (w.systems x).mEntities (w.entities e).mOrder with
            | none => simp [hq] at h
            | some q0 =>
              simp only [hq, Option.getD_some] at h
              exact hw.systemOf x _ q0 a hq h
          · simp only [List.mem_singleton] at h
            exact absurd h hae
        · simp only [hk, if_false] at hf
          exact hw.systemOf x k q a hf ha
    · simp only [hx, if_false] at hf
      have hold := hw.systemOf x k q a hf ha
      by_cases hae : a = e
      · subst hae
        simp only [if_true]
        have hne : (w.systems x).mSystemID ≠ (w.systems s).mSystemID :=
          fun h => hx (hw.systemIDs x s h)
        rw [StdMap.find_assign_ne _ _ _ _ hne]
        exact hold
      · simp only [hae, if_false]
        exact hold
  · intro a sid x hf
    rw [register_systemID, register_order, register_mEntities]
    rw [register_mSystems] at hf
    have key : ∀ (hold : StdMap.find (w.entities a).mSystems sid = some x),
        (w.systems x).mSystemID = sid ∧
        ∃ q, StdMap.find (if x = s then StdMap.assign (w.systems s).mEntities
          (w.entities e).mOrder ((StdMap.find (w.systems s).mEntities
            (w.entities e).mOrder).getD [] ++ [e]) else (w.systems x).mEntities)
          (w.entities a).mOrder = some q ∧ a ∈ q := by
      intro hold
      obtain ⟨hid, q, hq, haq⟩ := hw.entityOf a sid x hold
      refine ⟨hid, ?_⟩
      by_cases hx : x = s
      · subst hx
        simp only [if_true, StdMap.find_assign]
        by_cases hk : (w.entities a).mOrder = (w.entities e).mOrder
        · simp only [hk, if_true]
          rw [hk] at hq
          exact ⟨_, rfl, by simp [hq, haq]⟩
        · simp only [hk, if_false]
          exact ⟨q, hq, haq⟩
      · simp only [hx, if_false]
        exact ⟨q, hq, haq⟩
    by_cases hae : a = e
    · subst hae
      simp only [if_true] at hf
      by_cases hsid : sid = (w.systems s).mSystemID
      · subst hsid
        rw [StdMap.find_assign_self] at hf
        simp only [Option.some.injEq] at hf
        subst hf
        refine ⟨rfl, ?_⟩
        simp only [if_true, StdMap.find_assign]
        exact ⟨_, rfl, by simp⟩
      · rw [StdMap.find_assign_ne _ _ _ _ hsid] at hf
        exact key hf
    · simp only [hae, if_false] at hf
      exact key hf

end World

/-! ### Unregistering an entity -/

namespace World

theorem unregister_entityID (w : World) (s : SystemPtr) (e : EntityPtr) (q : List EntityPtr)
    (i : Nat) (x : EntityPtr) :
    ((w.unregister s e q i).entities x).mEntityID = (w.entities x).mEntityID := by
  by_cases h : x = e
  · subst h; simp [unregister]
  · simp [unregister, Function.update_noteq h]

theorem unregister_order (w : World) (s : SystemPtr) (e : EntityPtr) (q : List EntityPtr)
    (i : Nat) (x : EntityPtr) :
    ((w.unregister s e q i).entities x).mOrder = (w.entities x).mOrder := by
  by_cases h : x = e
  · subst h; simp [unregister]
  · simp [unregister, Function.update_noteq h]

theorem unregister_mSystems (w : World) (s : SystemPtr) (e : EntityPtr) (q : List EntityPtr)
    (i : Nat) (x : EntityPtr) :
    ((w.unregister s e q i).entities x).mSystems =
      if x = e then StdMap.erase (w.entities e).mSystems (w.systems s).mSystemID
      else (w.entities x).mSystems := by
  by_cases h : x = e
  · subst h; simp [unregister]
  · simp [unregister, Function.update_noteq h, h]

theorem unregister_systemID (w : World) (s : SystemPtr) (e : EntityPtr) (q : List EntityPtr)
    (i : Nat) (x : SystemPtr) :
    ((w.unregister s e q i).systems x).mSystemID = (w.systems x).mSystemID := by
  by_cases h : x = s
  · subst h; simp [unregister]
  · simp [unregister, Function.update_noteq h]

theorem unregister_mEntities (w : World) (s : SystemPtr) (e : EntityPtr) (q : List EntityPtr)
    (i : Nat) (x : SystemPtr) :
    ((w.unregister s e q i).systems x).mEntities =
      if x = s then StdMap.assign (w.systems s).mEntities (w.entities e).mOrder (q.eraseIdx i)
      else (w.systems x).mEntities := by
  by_cases h : x = s
  · subst h; simp [unregister]
  · simp [unregister, Function.update_noteq h, h]

theorem Consistent.unregister (w : World) (hw : w.Consistent) (s : SystemPtr) (e : EntityPtr)
    (q : List EntityPtr) (i : Nat)
    (hq : StdMap.find (w.systems s).mEntities (w.entities e).mOrder = some q)
    (hi : q[i]? = some e) :
    (w.unregister s e q i).Consistent := by
  have hnd : q.Nodup := hw.nodup s _ q hq
  have hmemErase := fun x => List.mem_eraseIdx_of_nodup q hnd i e x hi
  refine ⟨?_, ?_, ?_, ?_, ?_, ?_, ?_⟩
  · intro a b h
    simp only [unregister_systemID] at h
    exact hw.systemIDs a b h
  · intro a b h
    simp only [unregister_entityID] at h
    exact hw.entityIDs a b h
  · intro x
    rw [unregister_mEntities]
    by_cases hx : x = s
    · subst hx
      simp only [if_true]
      exact StdMap.sorted_assign _ (hw.sorted x) _ _
    · simp only [hx, if_false]
      exact hw.sorted x
  · intro x k q2 a hf ha
    rw [unregister_order]
    rw [unregister_mEntities] at hf
    by_cases hx : x = s
    · subst hx
      simp only [if_true, StdMap.find_assign] at hf
      by_cases hk : k = (w.entities e).mOrder
      · simp only [hk, if_true, Option.some.injEq] at hf
        subst hf
        rw [hk]
        exact hw.ownBucket x _ q a hq ((hmemErase a).1 ha).1
      · simp only [hk, if_false] at hf
        exact hw.ownBucket x k q2 a hf ha
    · simp only [hx, if_false] at hf
      exact hw.ownBucket x k q2 a hf ha
  · intro x k q2 hf
    rw [unregister_mEntities] at hf
    by_cases hx : x = s
    · subst hx
      simp only [if_true, StdMap.find_assign] at hf
      by_cases hk : k = (w.entities e).mOrder
      · simp only [hk, if_true, Option.some.injEq] at hf
        subst hf
        exact hnd.sublist (List.eraseIdx_sublist q i)
      · simp only [hk, if_false] at hf
        exact hw.nodup x k q2 hf
    · simp only [hx, if_false] at hf
      exact hw.nodup x k q2 hf
  · intro x k q2 a hf ha
    rw [unregister_systemID, unregister_mSystems]
    rw [unregister_mEntities] at hf
    by_cases hx : x = s
    · subst hx
      simp only [if_true, StdMap.find_assign] at hf
      by_cases hk : k = (w.entities e).mOrder
      · simp only [hk, if_true, Option.some.injEq] at hf
        subst hf
        obtain ⟨hin, hne⟩ := (hmemErase a).1 ha
        simp only [hne, if_false]
        exact hw.systemOf x _ q a hq hin
      · simp only [hk, if_false] at hf
        have hord := hw.ownBucket x k q2 a hf ha
        have hne : a ≠ e := by
          intro h
          subst h
          exact hk hord.symm
        simp only [hne, if_false]
        exact hw.systemOf x k q2 a hf ha
    · simp only [hx, if_false] at hf
      have hold := hw.systemOf x k q2 a hf ha
      by_cases hae : a = e
      · subst hae
        simp only [if_true]
        have hne : (w.systems x).mSystemID ≠ (w.systems s).mSystemID :=
          fun h => hx (hw.systemIDs x s h)
        rw [StdMap.find_erase_ne _ _ _ hne]
        exact hold
      · simp only [hae, if_false]
        exact hold
  · intro a sid x hf
    rw [unregister_systemID, unregister_order, unregister_mEntities]
    rw [unregister_mSystems] at hf
    by_cases hae : a = e
    · subst hae
      simp only [if_true] at hf
      by_cases hsid : sid = (w.systems s).mSystemID
      · subst hsid
        rw [StdMap.find_erase_self] at hf
        exact Option.noConfusion hf
      · rw [StdMap.find_erase_ne _ _ _ hsid] at hf
        obtain ⟨hid, q0, hq0, ha0⟩ := hw.entityOf a sid x hf
        have hx : x ≠ s := by
          intro h
          subst h
          exact hsid hid.symm
        simp only [hx, if_false]
        exact ⟨hid, q0, hq0, ha0⟩
    · simp only [hae, if_false] at hf
      obtain ⟨hid, q0, hq0, ha0⟩ := hw.entityOf a sid x hf
      refine ⟨hid, ?_⟩
      by_cases hx : x = s
      · subst hx
        simp only [if_true, StdMap.find_assign]
        by_cases hk : (w.entities a).mOrder = (w.entities e).mOrder
        · simp only [hk, if_true]
          rw [hk, hq] at hq0
          simp only [Option.some.injEq] at hq0
          subst hq0
          exact ⟨_, rfl, (hmemErase a).2 ⟨ha0, hae⟩⟩
        · simp only [hk, if_false]
          exact ⟨q0, hq0, ha0⟩
      · simp only [hx, if_false]
        exact ⟨q0, hq0, ha0⟩

end World

/-! ### What the calls do in a consistent world -/

namespace ISystem

theorem addEntity_dup (w : World) (s : SystemPtr) (e : EntityPtr)
    (hmem : e ∈ (StdMap.find (w.systems s).mEntities (w.entities e).mOrder).getD []) :
    addEntity w s (some e) = (0, w) := by
  simp [addEntity, hmem]

theorem addEntity_new (w : World) (s : SystemPtr) (e : EntityPtr)
    (hnot : e ∉ (StdMap.find (w.systems s).mEntities (w.entities e).mOrder).getD [])
    (hnone : StdMap.find (w.entities e).mSystems (w.systems s).mSystemID = none) :
    addEntity w s (some e) = ((w.entities e).mEntityID, w.register s e) := by
  simp only [addEntity, hnot, if_false]
  have h1 : IEntity.addSystem
      ((w.setSystem s { w.systems s with
        mEntities := StdMap.assign (w.systems s).mEntities (w.entities e).mOrder
          ((StdMap.find (w.systems s).mEntities (w.entities e).mOrder).getD [] ++ [e]) }).hook
        (HookCall.addProperties s e)) e s =
      { entities := Function.update w.entities e { w.entities e with
          mSystems := StdMap.assign (w.entities e).mSystems (w.systems s).mSystemID s }
        systems := Function.update w.systems s { w.systems s with
          mEntities := StdMap.assign (w.systems s).mEntities (w.entities e).mOrder
            ((StdMap.find (w.systems s).mEntities (w.entities e).mOrder).getD [] ++ [e]) }
        mHooks := w.mHooks ++ [HookCall.addProperties s e] } := by
    simp [IEntity.addSystem, World.hook, World.setSystem, World.setEntity, hnone]
  rw [h1]
  simp [World.hook, World.register]

theorem dropEntity_absent (w : World) (s : SystemPtr) (theEntityID : typeEntityID)
    (h : hasEntity w s theEntityID = false) (fuel : Nat) :
    dropEntity (fuel + 1) w s theEntityID = .ok w := by
  unfold hasEntity at h
  cases hfind : findEntity w theEntityID (w.systems s).mEntities with
  | none => simp [dropEntity, hfind]
  | some ki => simp [hfind] at h

end ISystem

namespace ISystem

theorem findInDeque_congr (w w' : World)
    (h : ∀ x, (w'.entities x).mEntityID = (w.entities x).mEntityID)
    (theEntityID : typeEntityID) (q : List EntityPtr) :
    findInDeque w' theEntityID q = findInDeque w theEntityID q := by
  induction q with
  | nil => rfl
  | cons a q ih => simp [findInDeque, h, ih]

theorem findEntity_congr (w w' : World)
    (h : ∀ x, (w'.entities x).mEntityID = (w.entities x).mEntityID)
    (theEntityID : typeEntityID) (m : StdMap Nat (List EntityPtr)) :
    findEntity w' theEntityID m = findEntity w theEntityID m := by
  induction m with
  | nil => rfl
  | cons p m ih =>
    obtain ⟨k, q⟩ := p
    simp [findEntity, findInDeque_congr w w' h, ih]

end ISystem

namespace IEntity

theorem dropSystem_absent (w : World) (e : EntityPtr) (theSystemID : typeSystemID)
    (h : hasSystem w e theSystemID = false) (fuel : Nat) :
    dropSystem (fuel + 1) w e theSystemID = .ok w := by
  unfold hasSystem at h
  cases hfind : StdMap.find (w.entities e).mSystems theSystemID with
  | none => simp [dropSystem, hfind]
  | some s => simp [hfind] at h

end IEntity

namespace ISystem

end ISystem

namespace IEntity

end IEntity

namespace World

theorem Consistent.addEntity (w : World) (hw : w.Consistent) (s : SystemPtr)
    (theEntity : Option EntityPtr) : (ISystem.addEntity w s theEntity).2.Consistent := by
  cases theEntity with
  | none => exact hw
  | some e =>
    by_cases hmem : e ∈ (StdMap.find (w.systems s).mEntities (w.entities e).mOrder).getD []
    · rw [ISystem.addEntity_dup w s e hmem]
      exact hw
    · rw [ISystem.addEntity_new w s e hmem (hw.not_member w s e hmem)]
      exact hw.register w s e hmem

theorem Consistent.setOrder (w : World) (hw : w.Consistent) (e : EntityPtr) (theOrder : Nat)
    (hfree : ∀ s, ISystem.hasEntity w s (w.entities e).mEntityID = false) :
    (IEntity.setOrder w e theOrder).Consistent := by
  have hnot : ∀ s k q, StdMap.find (w.systems s).mEntities k = some q → e ∉ q := by
    intro s k q hf he
    exact (ISystem.hasEntity_false w s _).1 (hfree s) k q (StdMap.mem_of_find _ _ _ hf) e he rfl
  have hsys : ∀ x, (IEntity.setOrder w e theOrder).systems x = w.systems x := fun _ => rfl
  have hid : ∀ x, ((IEntity.setOrder w e theOrder).entities x).mEntityID =
      (w.entities x).mEntityID := by
    intro x
    by_cases hx : x = e
    · subst hx; simp [IEntity.setOrder, World.setEntity]
    · simp [IEntity.setOrder, World.setEntity, Function.update_noteq hx]
  have hms : ∀ x, ((IEntity.setOrder w e theOrder).entities x).mSystems =
      (w.entities x).mSystems := by
    intro x
    by_cases hx : x = e
    · subst hx; simp [IEntity.setOrder, World.setEntity]
    · simp [IEntity.setOrder, World.setEntity, Function.update_noteq hx]
  have hord : ∀ x, x ≠ e → ((IEntity.setOrder w e theOrder).entities x).mOrder =
      (w.entities x).mOrder := by
    intro x hx
    simp [IEntity.setOrder, World.setEntity, Function.update_noteq hx]
  refine ⟨?_, ?_, ?_, ?_, ?_, ?_, ?_⟩
  · intro a b h
    simp only [hsys] at h
    exact hw.systemIDs a b h
  · intro a b h
    simp only [hid] at h
    exact hw.entityIDs a b h
  · intro x
    rw [hsys]
    exact hw.sorted x
  · intro x k q a hf ha
    rw [hsys] at hf
    have hae : a ≠ e := fun h => hnot x k q hf (h ▸ ha)
    rw [hord a hae]
    exact hw.ownBucket x k q a hf ha
  · intro x k q hf
    rw [hsys] at hf
    exact hw.nodup x k q hf
  · intro x k q a hf ha
    rw [hsys] at hf ⊢
    rw [hms]
    exact hw.systemOf x k q a hf ha
  · intro a sid x hf
    rw [hms] at hf
    rw [hsys]
    obtain ⟨h1, q, hq, haq⟩ := hw.entityOf a sid x hf
    have hae : a ≠ e := fun h => hnot x _ q hq (h ▸ haq)
    rw [hord a hae]
    exact ⟨h1, q, hq, haq⟩

end World

/-! ### C1 - C3: the bidirectional registration -/

namespace World

end World

namespace ISystem

theorem mem_entitiesOf (m : StdMap Nat (List EntityPtr)) (e : EntityPtr) :
    e ∈ entitiesOf m ↔ ∃ k q, (k, q) ∈ m ∧ e ∈ q := by
  induction m with
  | nil => simp [entitiesOf]
  | cons p m ih =>
    obtain ⟨k0, q0⟩ := p
    simp only [entitiesOf, List.mem_append, ih, List.mem_cons, Prod.mk.injEq]
    constructor
    · rintro (h | ⟨k, q, hm, he⟩)
      · exact ⟨k0, q0, Or.inl ⟨rfl, rfl⟩, h⟩
      · exact ⟨k, q, Or.inr hm, he⟩
    · rintro ⟨k, q, (⟨rfl, rfl⟩ | hm), he⟩
      · exact Or.inl he
      · exact Or.inr ⟨k, q, hm, he⟩

end ISystem

namespace ISystem

theorem foldl_snoc (l init : List EntityPtr) :
    l.foldl (fun acc e => acc ++ [e]) init = init ++ l := by
  induction l generalizing init with
  | nil => simp
  | cons a l ih => simp [ih]

theorem foldl_buckets {σ : Type} (body : σ → EntityPtr → σ)
    (m : StdMap Nat (List EntityPtr)) (init : σ) :
    m.foldl (fun acc kq => kq.2.foldl body acc) init = (entitiesOf m).foldl body init := by
  induction m generalizing init with
  | nil => rfl
  | cons p m ih =>
    obtain ⟨k, q⟩ := p
    simp only [List.foldl_cons, entitiesOf, List.foldl_append]
    exact ih _

theorem forEachEntity_eq {σ : Type} (sys : ISystem) (body : σ → EntityPtr → σ) (init : σ) :
    sys.forEachEntity body init = (entitiesOf sys.mEntities).foldl body init :=
  foldl_buckets body sys.mEntities init

theorem visited_eq (sys : ISystem) : sys.visited = entitiesOf sys.mEntities := by
  unfold visited
  rw [forEachEntity_eq, foldl_snoc]
  simp

theorem forEachEntity_visited {σ : Type} (sys : ISystem) (body : σ → EntityPtr → σ)
    (init : σ) : sys.forEachEntity body init = sys.visited.foldl body init := by
  rw [visited_eq, forEachEntity_eq]

theorem addSystem_systems (w : World) (e : EntityPtr) (s : SystemPtr) :
    (IEntity.addSystem w e s).systems = w.systems := by
  unfold IEntity.addSystem
  split <;> rfl

theorem addSystem_order (w : World) (e : EntityPtr) (s : SystemPtr) (x : EntityPtr) :
    ((IEntity.addSystem w e s).entities x).mOrder = (w.entities x).mOrder := by
  unfold IEntity.addSystem
  split
  · by_cases hx : x = e
    · subst hx; simp [World.setEntity]
    · simp [World.setEntity, Function.update_noteq hx]
  · rfl

theorem addEntity_order (w : World) (s : SystemPtr) (theEntity : Option EntityPtr)
    (x : EntityPtr) :
    ((addEntity w s theEntity).2.entities x).mOrder = (w.entities x).mOrder := by
  cases theEntity with
  | none => rfl
  | some e =>
    simp only [addEntity]
    split
    · rfl
    · simp only [World.hook, addSystem_order, World.setSystem]

theorem addEntity_mEntities (w : World) (s : SystemPtr) (e : EntityPtr)
    (hnot : e ∉ (StdMap.find (w.systems s).mEntities (w.entities e).mOrder).getD []) :
    ((addEntity w s (some e)).2.systems s).mEntities =
      StdMap.assign (w.systems s).mEntities (w.entities e).mOrder
        ((StdMap.find (w.systems s).mEntities (w.entities e).mOrder).getD [] ++ [e]) := by
  simp only [addEntity, hnot, if_false, World.hook, addSystem_systems, World.setSystem,
    Function.update_same]

theorem Filed.step (w : World) (s : SystemPtr) (e : EntityPtr) (added : List EntityPtr)
    (hnew : e ∉ added)
    (hf : Filed (fun a => (w.entities a).mOrder) (w.systems s).mEntities added) :
    Filed (fun a => (w.entities a).mOrder) ((addEntity w s (some e)).2.systems s).mEntities
      (added ++ [e]) := by
  obtain ⟨hs, hb⟩ := hf
  have hnot : e ∉ (StdMap.find (w.systems s).mEntities (w.entities e).mOrder).getD [] := by
    rw [hb]
    intro h
    exact hnew (List.mem_filter.1 h).1
  rw [addEntity_mEntities w s e hnot]
  refine ⟨StdMap.sorted_assign _ hs _ _, ?_⟩
  intro k
  rw [StdMap.find_assign]
  by_cases hk : k = (w.entities e).mOrder
  · subst hk
    simp [hb, List.filter_append]
  · have hk' : ¬ (w.entities e).mOrder = k := fun h => hk h.symm
    simp [hk, hk', hb, List.filter_append]

theorem Filed.addEntities (s : SystemPtr) (es : List EntityPtr) :
    ∀ (w : World) (added : List EntityPtr), (∀ e ∈ es, e ∉ added) → es.Nodup →
      Filed (fun a => (w.entities a).mOrder) (w.systems s).mEntities added →
      Filed (fun a => (w.entities a).mOrder) ((ISystem.addEntities w s es).systems s).mEntities
        (added ++ es) ∧
      ∀ x, ((ISystem.addEntities w s es).entities x).mOrder = (w.entities x).mOrder := by
  induction es with
  | nil =>
    intro w added _ _ hf
    simpa [ISystem.addEntities] using hf
  | cons e es ih =>
    intro w added hnew hnd hf
    rw [List.nodup_cons] at hnd
    have hstep := Filed.step w s e added (hnew e (List.mem_cons_self _ _)) hf
    have hord : (fun a => ((addEntity w s (some e)).2.entities a).mOrder) =
        (fun a => (w.entities a).mOrder) := funext (addEntity_order w s (some e))
    have hnew' : ∀ x ∈ es, x ∉ added ++ [e] := by
      intro x hx hmem
      rcases List.mem_append.1 hmem with h | h
      · exact hnew x (List.mem_cons_of_mem _ hx) h
      · simp only [List.mem_singleton] at h
        subst h
        exact hnd.1 hx
    have := ih (addEntity w s (some e)).2 (added ++ [e]) hnew' hnd.2 (by rw [hord]; exact hstep)
    rw [hord] at this
    simp only [ISystem.addEntities, List.append_assoc, List.singleton_append] at this ⊢
    refine ⟨this.1, fun x => ?_⟩
    rw [this.2 x, addEntity_order]

theorem Filed.own (ord : EntityPtr → Nat) (m : StdMap Nat (List EntityPtr))
    (added : List EntityPtr) (hf : Filed ord m added) (k : Nat) (q : List EntityPtr)
    (hm : (k, q) ∈ m) (e : EntityPtr) (he : e ∈ q) : ord e = k := by
  have h1 := StdMap.find_of_mem m hf.1 k q hm
  have h2 := hf.2 k
  rw [h1] at h2
  simp only [Option.getD_some] at h2
  rw [h2] at he
  simpa using (List.mem_filter.1 he).2

theorem filter_entitiesOf (ord : EntityPtr → Nat) (m : StdMap Nat (List EntityPtr))
    (hs : StdMap.Sorted m) (hown : ∀ k q, (k, q) ∈ m → ∀ e ∈ q, ord e = k) (k : Nat) :
    (entitiesOf m).filter (fun a => decide (ord a = k)) = (StdMap.find m k).getD [] := by
  induction m with
  | nil => simp [entitiesOf, StdMap.find]
  | cons p m ih =>
    obtain ⟨k0, q0⟩ := p
    have hs' := hs
    simp only [StdMap.Sorted, List.map_cons, List.pairwise_cons] at hs'
    have ih' := ih hs'.2 (fun k q h => hown k q (List.mem_cons_of_mem _ h))
    have h0 := hown k0 q0 (List.mem_cons_self _ _)
    simp only [entitiesOf, List.filter_append, ih']
    by_cases hk : k0 = k
    · subst hk
      have hnone : StdMap.find m k0 = none := by
        cases hf : StdMap.find m k0 with
        | none => rfl
        | some q =>
          have := hs'.1 k0 (List.mem_map_of_mem Prod.fst (StdMap.mem_of_find m k0 q hf))
          omega
      have hq0 : q0.filter (fun a => decide (ord a = k0)) = q0 :=
        List.filter_eq_self.2 (fun a ha => by simpa using h0 a ha)
      simp [StdMap.find, hnone, hq0]
    · have hq0 : q0.filter (fun a => decide (ord a = k)) = [] := by
        rw [List.filter_eq_nil_iff]
        intro a ha
        have := h0 a ha
        simp only [decide_eq_true_eq]
        omega
      simp [StdMap.find, hk, hq0]

theorem pairwise_entitiesOf (ord : EntityPtr → Nat) (m : StdMap Nat (List EntityPtr))
    (hs : StdMap.Sorted m) (hown : ∀ k q, (k, q) ∈ m → ∀ e ∈ q, ord e = k) :
    (entitiesOf m).Pairwise (fun a b => ord a ≤ ord b) := by
  induction m with
  | nil => simp [entitiesOf]
  | cons p m ih =>
    obtain ⟨k0, q0⟩ := p
    simp only [StdMap.Sorted, List.map_cons, List.pairwise_cons] at hs
    have h0 := hown k0 q0 (List.mem_cons_self _ _)
    simp only [entitiesOf]
    rw [List.pairwise_append]
    refine ⟨?_, ih hs.2 (fun k q h => hown k q (List.mem_cons_of_mem _ h)), ?_⟩
    · rw [List.pairwise_iff_forall_sublist]
      intro a b hab
      have ha := h0 a (hab.subset (List.mem_cons_self _ _))
      have hb := h0 b (hab.subset (List.mem_cons_of_mem _ (List.mem_singleton_self _)))
      omega
    · intro a ha b hb
      obtain ⟨k, q, hm, he⟩ := (mem_entitiesOf m b).1 hb
      have h1 := h0 a ha
      have h2 := hown k q (List.mem_cons_of_mem _ hm) b he
      have hlt := hs.1 k (List.mem_map_of_mem Prod.fst hm)
      omega

end ISystem

/-- C4: a system with an empty registry gets the distinct entities `es` with
`addEntity`, in that sequence.  One full pass (`ActionSystem::updateFixed`,
`MovementSystem::updateFixed`, `RenderSystem::draw`) then runs its work on the
entities of `visited`, front to back, and `visited` is the stable sort of `es` by
order: it is a permutation of `es`, it ascends in z-order, and for every z-order
`k` its entities of order `k` are those of `es`, in insertion order. -/
theorem c4_pass_visits_in_stable_order (w : World) (s : SystemPtr) (es : List EntityPtr)
    (hempty : (w.systems s).mEntities = []) (hnd : es.Nodup) :
    (∀ (σ : Type) (work : σ → EntityPtr → σ) (init : σ),
      ActionSystem.updateFixed (ISystem.addEntities w s es) s work init =
        ((ISystem.addEntities w s es).systems s).visited.foldl work init ∧
      MovementSystem.updateFixed (ISystem.addEntities w s es) s work init =
        ((ISystem.addEntities w s es).systems s).visited.foldl work init ∧
      RenderSystem.draw (ISystem.addEntities w s es) s work init =
        ((ISystem.addEntities w s es).systems s).visited.foldl work init) ∧
    ((ISystem.addEntities w s es).systems s).visited.Perm es ∧
    ((ISystem.addEntities w s es).systems s).visited.Pairwise
      (fun a b => IEntity.getOrder (ISystem.addEntities w s es) a ≤
        IEntity.getOrder (ISystem.addEntities w s es) b) ∧
    ∀ k, ((ISystem.addEntities w s es).systems s).visited.filter
        (fun a => decide (IEntity.getOrder (ISystem.addEntities w s es) a = k)) =
      es.filter (fun a => decide (IEntity.getOrder (ISystem.addEntities w s es) a = k)) := by
  have hstart : ISystem.Filed (fun a => (w.entities a).mOrder) (w.systems s).mEntities [] := by
    rw [hempty]
    exact ⟨by simp [StdMap.Sorted], fun k => by simp [StdMap.find]⟩
  obtain ⟨hf, hord⟩ := ISystem.Filed.addEntities s es w [] (by simp) hnd hstart
  simp only [List.nil_append] at hf
  have hordf : (fun a => IEntity.getOrder (ISystem.addEntities w s es) a) =
      (fun a => (w.entities a).mOrder) := funext hord
  have hown := ISystem.Filed.own _ _ _ hf
  have hfilter : ∀ k, (ISystem.entitiesOf ((ISystem.addEntities w s es).systems s).mEntities).filter
      (fun a => decide ((w.entities a).mOrder = k)) =
      es.filter (fun a => decide ((w.entities a).mOrder = k)) := by
    intro k
    rw [ISystem.filter_entitiesOf _ _ hf.1 hown k, hf.2 k]
  refine ⟨?_, ?_, ?_, ?_⟩
  · intro σ work init
    exact ⟨ISystem.forEachEntity_visited _ work init, ISystem.forEachEntity_visited _ work init,
      ISystem.forEachEntity_visited _ work init⟩
  · rw [ISystem.visited_eq, List.perm_iff_count]
    intro a
    have h1 := List.count_filter (l := ISystem.entitiesOf
      ((ISystem.addEntities w s es).systems s).mEntities)
      (p := fun x => decide ((w.entities x).mOrder = (w.entities a).mOrder)) (a := a) (by simp)
    have h2 := List.count_filter (l := es)
      (p := fun x => decide ((w.entities x).mOrder = (w.entities a).mOrder)) (a := a) (by simp)
    rw [← h1, ← h2, hfilter]
  · rw [ISystem.visited_eq]
    simp only [IEntity.getOrder, hord]
    exact ISystem.pairwise_entitiesOf _ _ hf.1 hown
  · intro k
    rw [ISystem.visited_eq]
    simp only [IEntity.getOrder, hord]
    exact hfilter k

/-- C4 witness: the entities 0, 1, 2 with the orders 2, 0, 1 are added in that
sequence; the pass visits 1, 2, 0, that is the orders 0, 1, 2. -/
theorem c4_pass_visits_in_stable_order_witness :
    ((World.fresh fun p => [2, 0, 1].getD p 0).systems 0).mEntities = [] ∧
    [0, 1, 2].Nodup ∧
    ((ISystem.addEntities (World.fresh fun p => [2, 0, 1].getD p 0) 0 [0, 1, 2]).systems
      0).visited = [1, 2, 0] ∧
    (((ISystem.addEntities (World.fresh fun p => [2, 0, 1].getD p 0) 0 [0, 1, 2]).systems
      0).visited.map
        (IEntity.getOrder (ISystem.addEntities (World.fresh fun p => [2, 0, 1].getD p 0) 0
          [0, 1, 2]))) = [0, 1, 2] ∧
    ((ISystem.addEntities (World.fresh fun p => [2, 0, 1].getD p 0) 0 [0, 1, 2]).systems
      0).visited.Perm [0, 1, 2] :=
  ⟨rfl, by decide, by decide, by decide,
    (c4_pass_visits_in_stable_order (World.fresh fun p => [2, 0, 1].getD p 0) 0 [0, 1, 2]
      rfl (by decide)).2.1⟩

/-- A list that ascends in `ord` is determined by its sublists of each order: two
such lists with the same entities of every order, in the same sequence, are
equal.  So "a permutation, ascending, insertion order kept within an order"
names one list, the stable sort. -/
theorem ISystem.stable_sort_unique (ord : EntityPtr → Nat) (l1 : List EntityPtr) :
    ∀ l2 : List EntityPtr, l1.Pairwise (fun a b => ord a ≤ ord b) →
      l2.Pairwise (fun a b => ord a ≤ ord b) →
      (∀ k, l1.filter (fun a => decide (ord a = k)) = l2.filter (fun a => decide (ord a = k))) →
      l1 = l2 := by
  induction l1 with
  | nil =>
    intro l2 _ _ hf
    cases l2 with
    | nil => rfl
    | cons b t2 =>
      have := hf (ord b)
      simp at this
  | cons a t ih =>
    intro l2 h1 h2 hf
    cases l2 with
    | nil =>
      have := hf (ord a)
      simp at this
    | cons b t2 =>
      rw [List.pairwise_cons] at h1 h2
      have ha2 : a ∈ b :: t2 := by
        have : a ∈ (b :: t2).filter (fun x => decide (ord x = ord a)) := by
          rw [← hf (ord a)]
          simp
        exact (List.mem_filter.1 this).1
      have hb1 : b ∈ a :: t := by
        have : b ∈ (a :: t).filter (fun x => decide (ord x = ord b)) := by
          rw [hf (ord b)]
          simp
        exact (List.mem_filter.1 this).1
      have hle1 : ord b ≤ ord a := by
        rcases List.mem_cons.1 ha2 with h | h
        · rw [h]
        · exact h2.1 a h
      have hle2 : ord a ≤ ord b := by
        rcases List.mem_cons.1 hb1 with h | h
        · rw [h]
        · exact h1.1 b h
      have hab : ord a = ord b := Nat.le_antisymm hle2 hle1
      have hhead := hf (ord a)
      simp only [List.filter_cons, decide_True, if_true, hab.symm] at hhead
      have hEq : a = b := (List.cons.inj hhead).1
      subst hEq
      have htail : t = t2 := by
        apply ih t2 h1.2 h2.2
        intro k
        have := hf k
        simp only [List.filter_cons] at this
        split at this
        · exact (List.cons.inj this).2
        · exact this
      rw [htail]

/-! ### C11 - C13: lookups that fail, and the type of a key -/

namespace PropertyManager

variable {Tag : Type} [DecidableEq Tag] {Val : Tag → Type} [∀ t, Inhabited (Val t)]

/-- C11: for every key that is absent from the manager or stored with a type
different from `U`, `get<U>(k)` returns the default-constructed `U()` and leaves
the manager unchanged. -/
theorem c11_get_mismatch_gives_default (pm : PropertyManager Tag Val) (U : Tag)
    (k : typePropertyID) (h : ∀ p, StdMap.find pm.mList k = some p → p.mType ≠ U) :
    get pm U k = default ∧ getCall pm U k = (default, pm) := by
  cases hf : StdMap.find pm.mList k with
  | none => simp [get, getCall, hf]
  | some p => simp [get, getCall, hf, h p hf]

/-- C11 witness: the `uint32` property `"k"` holding 7 read as `bool`, and the
absent key `"x"` read as `uint32`. -/
theorem c11_get_mismatch_gives_default_witness :
    get (add (empty : PropertyManager CppType CppType.Val) .uint32 "k" (7 : Nat)) .bool "k"
      = false ∧
    get (add (empty : PropertyManager CppType CppType.Val) .uint32 "k" (7 : Nat)) .uint32 "x"
      = (0 : Nat) :=
  ⟨(c11_get_mismatch_gives_default
      (add (empty : PropertyManager CppType CppType.Val) .uint32 "k" (7 : Nat)) .bool "k"
      (by intro p hp; cases hp; decide)).1,
   (c11_get_mismatch_gives_default
      (add (empty : PropertyManager CppType CppType.Val) .uint32 "k" (7 : Nat)) .uint32 "x"
      (by intro p hp; cases hp)).1⟩

theorem typeOf_add (pm : PropertyManager Tag Val) (T : Tag) (k' k : typePropertyID)
    (v : Val T) :
    typeOf (add pm T k' v) k =
      match typeOf pm k with
      | some t => some t
      | none => if k' = k then some T else none := by
  unfold typeOf add
  cases hf' : StdMap.find pm.mList k' with
  | some p' =>
    simp only []
    cases hf : StdMap.find pm.mList k with
    | some p => simp
    | none =>
      have hne : ¬ k' = k := by
        intro h
        rw [h, hf] at hf'
        exact Option.noConfusion hf'
      simp [hne]
  | none =>
    simp only []
    by_cases hk : k = k'
    · subst hk
      simp [StdMap.find_assign_self, hf']
    · have hk' : ¬ k' = k := fun h => hk h.symm
      rw [StdMap.find_assign_ne _ _ _ _ hk]
      cases hf : StdMap.find pm.mList k <;> simp [hk']

theorem typeOf_set (pm : PropertyManager Tag Val) (T : Tag) (k' k : typePropertyID)
    (v : Val T) : typeOf (set pm T k' v) k = typeOf pm k := by
  unfold typeOf set
  cases hf' : StdMap.find pm.mList k' with
  | none => rfl
  | some p' =>
    simp only []
    by_cases hT : p'.mType = T
    · simp only [hT, if_true]
      by_cases hk : k = k'
      · subst hk
        simp [StdMap.find_assign_self, hf', hT]
      · rw [StdMap.find_assign_ne _ _ _ _ hk]
    · simp [hT]

theorem typeOf_runAll (calls : List (PropertyCall Tag Val)) :
    ∀ (pm : PropertyManager Tag Val) (k : typePropertyID),
      typeOf (PropertyCall.runAll pm calls) k =
        match typeOf pm k with
        | some t => some t
        | none => PropertyCall.firstAdd k calls := by
  induction calls with
  | nil =>
    intro pm k
    cases h : typeOf pm k <;> simp [PropertyCall.runAll, PropertyCall.firstAdd, h]
  | cons c cs ih =>
    intro pm k
    rw [PropertyCall.runAll, ih]
    cases c with
    | add T k' v =>
      simp only [PropertyCall.run, typeOf_add, PropertyCall.firstAdd]
      cases h : typeOf pm k with
      | some t => rfl
      | none =>
        by_cases hk : k' = k <;> simp [hk]
    | set T k' v =>
      simp only [PropertyCall.run, typeOf_set, PropertyCall.firstAdd]

/-- C12: for every sequence of `add<T>` and `set<T>` calls on a manager, the type
recorded for a key `k` afterwards is the type it had before, or for a key that
was absent the type of the first `add` on `k`; `add<U>(k, x)` on an existing key
changes nothing, and `set<U>(k, x)` with `U` different from the stored type
changes nothing. -/
theorem c12_type_of_key_is_fixed (pm : PropertyManager Tag Val)
    (calls : List (PropertyCall Tag Val)) (k : typePropertyID) :
    (typeOf (PropertyCall.runAll pm calls) k =
      match typeOf pm k with
      | some t => some t
      | none => PropertyCall.firstAdd k calls) ∧
    (∀ (U : Tag) (x : Val U) (p : IProperty Tag Val),
      StdMap.find pm.mList k = some p → add pm U k x = pm) ∧
    (∀ (U : Tag) (x : Val U) (p : IProperty Tag Val),
      StdMap.find pm.mList k = some p → p.mType ≠ U → set pm U k x = pm) := by
  refine ⟨typeOf_runAll calls pm k, ?_, ?_⟩
  · intro U x p hp
    simp [add, hp]
  · intro U x p hp hne
    simp [set, hp, hne]

/-- C12 witness: `add<uint32>("k")`, then `add<bool>("k")`, `set<bool>("k")` and
`set<uint32>("k")`: the type of `"k"` stays `uint32`, and only the last call
changes the value. -/
theorem c12_type_of_key_is_fixed_witness :
    typeOf (PropertyCall.runAll (empty : PropertyManager CppType CppType.Val)
      [.add .uint32 "k" (1 : Nat), .add .bool "k" true, .set .bool "k" true,
       .set .uint32 "k" (4 : Nat)]) "k" = some CppType.uint32 ∧
    get (PropertyCall.runAll (empty : PropertyManager CppType CppType.Val)
      [.add .uint32 "k" (1 : Nat), .add .bool "k" true, .set .bool "k" true]) .uint32 "k"
      = (1 : Nat) :=
  ⟨(c12_type_of_key_is_fixed (empty : PropertyManager CppType CppType.Val)
      [.add .uint32 "k" (1 : Nat), .add .bool "k" true, .set .bool "k" true,
       .set .uint32 "k" (4 : Nat)] "k").1, by decide⟩

/-- C13 (what the code does): for every key absent from the manager
`getPointer<T>(key)` ends with the exception `std::out_of_range` thrown by
`mList.at`; so it does on the empty manager for the key `"missing"`. -/
theorem c13_getPointer_absent_key_throws :
    (∀ (pm : PropertyManager CppType CppType.Val) (T : CppType) (k : typePropertyID),
      StdMap.find pm.mList k = none → getPointer pm T k = .error .out_of_range) ∧
    getPointer (empty : PropertyManager CppType CppType.Val) .bool "missing" =
      .error .out_of_range ∧
    get (empty : PropertyManager CppType CppType.Val) .bool "missing" = false := by
  refine ⟨?_, rfl, rfl⟩
  intro pm T k h
  simp [getPointer, h]

end PropertyManager

/-! ### The order of string keys -/

theorem lexLess_irrefl (a : List Nat) : lexLess a a = false := by
  induction a with
  | nil => rfl
  | cons x xs ih => simp [lexLess, ih]

theorem lexLess_trans (a : List Nat) :
    ∀ b c : List Nat, lexLess a b = true → lexLess b c = true → lexLess a c = true := by
  induction a with
  | nil =>
    intro b c hab hbc
    cases b with
    | nil => simp [lexLess] at hab
    | cons y ys =>
      cases c with
      | nil => simp [lexLess] at hbc
      | cons z zs => simp [lexLess]
  | cons x xs ih =>
    intro b c hab hbc
    cases b with
    | nil => simp [lexLess] at hab
    | cons y ys =>
      cases c with
      | nil => simp [lexLess] at hbc
      | cons z zs =>
        simp only [lexLess] at hab hbc ⊢
        by_cases hxy : x < y
        · by_cases hyz : y < z
          · have : x < z := Nat.lt_trans hxy hyz
            simp [this]
          · simp only [hyz, if_false] at hbc
            by_cases hzy : z < y
            · simp [hzy] at hbc
            · have : x < z := by omega
              simp [this]
        · simp only [hxy, if_false] at hab
          by_cases hyx : y < x
          · simp [hyx] at hab
          · simp only [hyx, if_false] at hab
            have hxy' : x = y := by omega
            subst hxy'
            by_cases hyz : x < z
            · simp [hyz]
            · simp only [hyz, if_false] at hbc ⊢
              by_cases hzy : z < x
              · simp [hzy] at hbc
              · simp only [hzy, if_false] at hbc ⊢
                exact ih ys zs hab hbc

theorem lexLess_connex (a : List Nat) :
    ∀ b : List Nat, lexLess a b = false → lexLess b a = false → a = b := by
  induction a with
  | nil =>
    intro b hab _
    cases b with
    | nil => rfl
    | cons y ys => simp [lexLess] at hab
  | cons x xs ih =>
    intro b hab hba
    cases b with
    | nil => simp [lexLess] at hba
    | cons y ys =>
      simp only [lexLess] at hab hba
      by_cases hxy : x < y
      · simp [hxy] at hab
      · by_cases hyx : y < x
        · simp [hyx] at hba
        · simp only [hxy, hyx, if_false] at hab hba
          have : x = y := by omega
          subst this
          rw [ih ys hab hba]

theorem String.codes_injective (a b : String)
    (h : a.data.map Char.toNat = b.data.map Char.toNat) : a = b := by
  have hinj : Function.Injective Char.toNat := by
    intro c d hcd
    apply Char.ext
    apply UInt32.ext
    exact hcd
  have := List.map_injective_iff.2 hinj h
  exact String.ext this

instance instLawfulStdLessNat : LawfulStdLess Nat where
  irrefl := by intro a; simp [StdLess.less]
  trans := by
    intro a b c hab hbc
    simp only [StdLess.less, decide_eq_true_eq] at hab hbc ⊢
    omega
  connex := by
    intro a b hab hba
    simp only [StdLess.less, decide_eq_false_iff_not] at hab hba
    omega

instance instLawfulStdLessString : LawfulStdLess String where
  irrefl := fun _ => lexLess_irrefl _
  trans := fun _ _ _ => lexLess_trans _ _ _
  connex := fun a b hab hba => String.codes_injective a b (lexLess_connex _ _ hab hba)

/-! ### Maps with ascending keys -/

namespace StdMap

variable {κ β : Type} [DecidableEq κ]

theorem find_eq_none_iff (m : StdMap κ β) (k : κ) :
    find m k = none ↔ k ∉ m.map Prod.fst := by
  induction m with
  | nil => simp [find]
  | cons p m ih =>
    obtain ⟨k', v'⟩ := p
    by_cases h : k' = k
    · simp [find, h]
    · have h' : ¬ k = k' := fun x => h x.symm
      simp [find, h, h', ih]

theorem erase_of_absent (m : StdMap κ β) (k : κ) (h : find m k = none) : erase m k = m := by
  rw [find_eq_none_iff] at h
  unfold erase
  rw [List.filter_eq_self]
  intro p hp
  simp only [ne_eq, decide_not, Bool.not_eq_true', decide_eq_false_iff_not]
  intro hk
  exact h (hk ▸ List.mem_map_of_mem Prod.fst hp)

theorem find_insert_self [StdLess κ] (m : StdMap κ β) (k : κ) (v : β)
    (h : find m k = none) : find (insert m k v) k = some v := by
  induction m with
  | nil => simp [insert, find]
  | cons p m ih =>
    obtain ⟨k', v'⟩ := p
    by_cases hk : k' = k
    · simp [find, hk] at h
    · simp only [find, hk, if_false] at h
      simp only [insert, hk, if_false]
      split
      · simp [find]
      · simp [find, hk, ih h]

theorem find_insert_ne [StdLess κ] (m : StdMap κ β) (k k2 : κ) (v : β) (hne : k2 ≠ k) :
    find (insert m k v) k2 = find m k2 := by
  induction m with
  | nil => simp [insert, find, Ne.symm hne]
  | cons p m ih =>
    obtain ⟨k', v'⟩ := p
    simp only [insert]
    split
    · rfl
    · split
      · simp [find, Ne.symm hne]
      · by_cases h2 : k' = k2
        · simp [find, h2]
        · simp [find, h2, ih]

theorem mem_keys_insert [StdLess κ] (m : StdMap κ β) (k : κ) (v : β) (x : κ)
    (h : x ∈ (insert m k v).map Prod.fst) : x = k ∨ x ∈ m.map Prod.fst := by
  induction m with
  | nil =>
    simp only [insert, List.map_cons, List.map_nil, List.mem_singleton] at h
    exact Or.inl h
  | cons p m ih =>
    obtain ⟨k', v'⟩ := p
    simp only [insert] at h
    split at h
    · exact Or.inr h
    · split at h
      · simp only [List.map_cons, List.mem_cons] at h ⊢
        tauto
      · simp only [List.map_cons, List.mem_cons] at h ⊢
        rcases h with h | h
        · tauto
        · have := ih h
          tauto

theorem ordered_insert [StdLess κ] [LawfulStdLess κ] (m : StdMap κ β) (hs : Ordered m)
    (k : κ) (v : β) : Ordered (insert m k v) := by
  induction m with
  | nil => simp [Ordered, insert]
  | cons p m ih =>
    obtain ⟨k', v'⟩ := p
    have hs' := hs
    simp only [Ordered, List.map_cons, List.pairwise_cons] at hs'
    simp only [insert]
    split
    · exact hs
    · rename_i hk
      split
      · rename_i hl
        simp only [Ordered, List.map_cons, List.pairwise_cons]
        refine ⟨?_, hs'.1, hs'.2⟩
        intro x hx
        rcases List.mem_cons.1 hx with h | h
        · subst h
          exact hl
        · exact LawfulStdLess.trans _ _ _ hl (hs'.1 x h)
      · rename_i hl
        have hl' : StdLess.less k k' = false := by simpa using hl
        have hlt : StdLess.less k' k = true := by
          by_contra hc
          have hc' : StdLess.less k' k = false := by simpa using hc
          exact hk (LawfulStdLess.connex k' k hc' hl')
        simp only [Ordered, List.map_cons, List.pairwise_cons]
        refine ⟨?_, ih hs'.2⟩
        intro x hx
        rcases mem_keys_insert m k v x hx with h | h
        · subst h
          exact hlt
        · exact hs'.1 x h

theorem ordered_erase [StdLess κ] (m : StdMap κ β) (hs : Ordered m) (k : κ) :
    Ordered (erase m k) := by
  unfold Ordered erase at *
  exact hs.sublist ((List.filter_sublist m).map Prod.fst)

theorem erase_insert_cancel [StdLess κ] (m : StdMap κ β) (k : κ) (v : β)
    (h : find m k = none) : erase (insert m k v) k = m := by
  induction m with
  | nil => simp [insert, erase]
  | cons p m ih =>
    obtain ⟨k', v'⟩ := p
    by_cases hk : k' = k
    · simp [find, hk] at h
    · have h' := h
      simp only [find, hk, if_false] at h'
      simp only [insert, hk, if_false]
      split
      · have := erase_of_absent ((k', v') :: m) k h
        simpa [erase, List.filter_cons] using this
      · have := ih h'
        simp only [erase] at this ⊢
        simp only [List.filter_cons, hk, ne_eq, not_false_eq_true, decide_True, if_true, this]

theorem not_less_of_less [StdLess κ] [LawfulStdLess κ] (a b : κ)
    (h : StdLess.less a b = true) : StdLess.less b a = false := by
  by_contra hc
  have hc' : StdLess.less b a = true := by simpa using hc
  have := LawfulStdLess.trans a b a h hc'
  rw [LawfulStdLess.irrefl] at this
  exact Bool.noConfusion this

theorem absent_of_below [StdLess κ] [LawfulStdLess κ] (m : StdMap κ β) (k : κ)
    (h : ∀ x ∈ m.map Prod.fst, StdLess.less k x = true) : find m k = none := by
  rw [find_eq_none_iff]
  intro hk
  have := h k hk
  rw [LawfulStdLess.irrefl] at this
  exact Bool.noConfusion this

theorem insert_erase_cancel [StdLess κ] [LawfulStdLess κ] (m : StdMap κ β) (hs : Ordered m)
    (k : κ) (v : β) (h : find m k = some v) : insert (erase m k) k v = m := by
  induction m with
  | nil => simp [find] at h
  | cons p m ih =>
    obtain ⟨k', v'⟩ := p
    simp only [Ordered, List.map_cons, List.pairwise_cons] at hs
    by_cases hk : k' = k
    · subst hk
      simp only [find, if_true, Option.some.injEq] at h
      subst h
      have habs : find m k' = none := absent_of_below m k' hs.1
      have he : erase ((k', v') :: m) k' = m := by
        have := erase_of_absent m k' habs
        simpa [erase, List.filter_cons] using this
      rw [he]
      cases m with
      | nil => simp [insert]
      | cons p2 m2 =>
        obtain ⟨k2, v2⟩ := p2
        have hlt : StdLess.less k' k2 = true := hs.1 k2 (by simp)
        have hne : ¬ k2 = k' := by
          intro h2
          rw [h2, LawfulStdLess.irrefl] at hlt
          exact Bool.noConfusion hlt
        simp [insert, hne, hlt]
    · simp only [find, hk, if_false] at h
      have hmem : k ∈ m.map Prod.fst := by
        by_contra hc
        rw [← find_eq_none_iff] at hc
        rw [hc] at h
        exact Option.noConfusion h
      have hlt : StdLess.less k' k = true := hs.1 k hmem
      have hnl : StdLess.less k k' = false := not_less_of_less k' k hlt
      have he : erase ((k', v') :: m) k = (k', v') :: erase m k := by
        simp [erase, List.filter_cons, hk]
      rw [he]
      simp only [insert, hk, if_false, hnl, Bool.false_eq_true]
      rw [ih hs.2 h]

end StdMap

/-! ### C14 - C18: action groups -/

namespace ActionGroup

theorem isAvailable_false (g : ActionGroup) (k : typeActionID) :
    g.isAvailable k = false ↔
      StdMap.find g.mActive k = none ∧ StdMap.find g.mDisabled k = none := by
  unfold isAvailable
  cases StdMap.find g.mActive k <;> cases StdMap.find g.mDisabled k <;> simp

theorem Tidy.ctor (p : Option ActionSystemPtr) : (ActionGroup.ctor p).Tidy :=
  ⟨by simp [ActionGroup.ctor, StdMap.Ordered], by simp [ActionGroup.ctor, StdMap.Ordered],
    fun _ => Or.inl rfl⟩

theorem Tidy.add (g : ActionGroup) (hg : g.Tidy) (sys : ActionSystemPtr → ActionSystem)
    (id : typeActionID) : (g.add sys id).Tidy := by
  unfold ActionGroup.add
  split
  · rename_i hav
    obtain ⟨hact, _⟩ := (isAvailable_false g id).1 hav
    split
    · split
      · refine ⟨hg.active, StdMap.ordered_insert _ hg.disabled _ _, ?_⟩
        intro k
        by_cases hk : k = id
        · subst hk
          exact Or.inl hact
        · simp only [StdMap.find_insert_ne _ _ _ _ hk]
          exact hg.disjoint k
      · exact hg
    · exact hg
  · exact hg

theorem Tidy.activate (g : ActionGroup) (hg : g.Tidy) (id : typeActionID) :
    (g.activate id).Tidy := by
  unfold ActionGroup.activate
  split
  · simp only []
    split
    · refine ⟨StdMap.ordered_insert _ hg.active _ _, StdMap.ordered_erase _ hg.disabled _, ?_⟩
      intro k
      by_cases hk : k = id
      · subst hk
        exact Or.inr (StdMap.find_erase_self _ _)
      · simp only [StdMap.find_insert_ne _ _ _ _ hk, StdMap.find_erase_ne _ _ _ hk]
        exact hg.disjoint k
    · refine ⟨hg.active, StdMap.ordered_erase _ hg.disabled _, ?_⟩
      intro k
      by_cases hk : k = id
      · subst hk
        exact Or.inr (StdMap.find_erase_self _ _)
      · simp only [StdMap.find_erase_ne _ _ _ hk]
        exact hg.disjoint k
  · exact hg

theorem Tidy.disable (g : ActionGroup) (hg : g.Tidy) (id : typeActionID) :
    (g.disable id).Tidy := by
  unfold ActionGroup.disable
  split
  · simp only []
    split
    · refine ⟨StdMap.ordered_erase _ hg.active _, StdMap.ordered_insert _ hg.disabled _ _, ?_⟩
      intro k
      by_cases hk : k = id
      · subst hk
        exact Or.inl (StdMap.find_erase_self _ _)
      · simp only [StdMap.find_insert_ne _ _ _ _ hk, StdMap.find_erase_ne _ _ _ hk]
        exact hg.disjoint k
    · refine ⟨StdMap.ordered_erase _ hg.active _, hg.disabled, ?_⟩
      intro k
      by_cases hk : k = id
      · subst hk
        exact Or.inl (StdMap.find_erase_self _ _)
      · simp only [StdMap.find_erase_ne _ _ _ hk]
        exact hg.disjoint k
  · exact hg

theorem Tidy.drop (g : ActionGroup) (hg : g.Tidy) (id : typeActionID) :
    (g.drop id).Tidy := by
  have h1 : ∀ g : ActionGroup, g.Tidy →
      ({ g with mActive := StdMap.erase g.mActive id } : ActionGroup).Tidy := by
    intro g hg
    refine ⟨StdMap.ordered_erase _ hg.active _, hg.disabled, ?_⟩
    intro k
    by_cases hk : k = id
    · subst hk
      exact Or.inl (StdMap.find_erase_self _ _)
    · simp only [StdMap.find_erase_ne _ _ _ hk]
      exact hg.disjoint k
  have h2 : ∀ g : ActionGroup, g.Tidy →
      ({ g with mDisabled := StdMap.erase g.mDisabled id } : ActionGroup).Tidy := by
    intro g hg
    refine ⟨hg.active, StdMap.ordered_erase _ hg.disabled _, ?_⟩
    intro k
    by_cases hk : k = id
    · subst hk
      exact Or.inr (StdMap.find_erase_self _ _)
    · simp only [StdMap.find_erase_ne _ _ _ hk]
      exact hg.disjoint k
  unfold ActionGroup.drop
  split
  · simp only []
    split <;> split <;> first | exact h2 _ (h1 _ hg) | exact h1 _ hg | exact h2 _ hg | exact hg
  · exact hg

theorem Reachable.tidy (g : ActionGroup) (hr : g.Reachable) : g.Tidy := by
  induction hr with
  | ctor p => exact Tidy.ctor p
  | add sys id _ ih => exact ih.add _ sys id
  | activate id _ ih => exact ih.activate _ id
  | disable id _ ih => exact ih.disable _ id
  | drop id _ ih => exact ih.drop _ id
  | setActionSystem p _ ih =>
    cases p with
    | none => exact ih
    | some q => exact ⟨ih.active, ih.disabled, ih.disjoint⟩

end ActionGroup

/-- C14: in every group state reached from a constructor by any sequence of
`add`, `activate`, `disable`, `drop` (and `setActionSystem`) calls, every action
ID is in at most one of the active and the disabled map. -/
theorem c14_active_and_disabled_are_disjoint (g : ActionGroup) (hr : g.Reachable)
    (theActionID : typeActionID) :
    ¬ (StdMap.find g.mActive theActionID ≠ none ∧
       StdMap.find g.mDisabled theActionID ≠ none) := by
  rintro ⟨h1, h2⟩
  rcases (ActionGroup.Reachable.tidy g hr).disjoint theActionID with h | h
  · exact h1 h
  · exact h2 h

/-- C14 witness: the group in which `"b"` and `"a"` were added and activated. -/
theorem c14_active_and_disabled_are_disjoint_witness :
    ActionGroup.demo.isActive "a" = true ∧
    ¬ (StdMap.find ActionGroup.demo.mActive "a" ≠ none ∧
       StdMap.find ActionGroup.demo.mDisabled "a" ≠ none) :=
  ⟨by decide,
   c14_active_and_disabled_are_disjoint ActionGroup.demo
    (.activate "a" (.activate "b" (.add _ "a" (.add _ "b" (.ctor (some 0)))))) "a"⟩

namespace ActionGroup

theorem activate_of_disabled (g : ActionGroup) (id : typeActionID) (a : ActionPtr)
    (hd : StdMap.find g.mDisabled id = some a) (ha : StdMap.find g.mActive id = none) :
    g.activate id = { g with mDisabled := StdMap.erase g.mDisabled id,
                             mActive := StdMap.insert g.mActive id a } := by
  simp [ActionGroup.activate, hd, ha]

theorem disable_of_active (g : ActionGroup) (id : typeActionID) (a : ActionPtr)
    (ha : StdMap.find g.mActive id = some a) (hd : StdMap.find g.mDisabled id = none) :
    g.disable id = { g with mActive := StdMap.erase g.mActive id,
                            mDisabled := StdMap.insert g.mDisabled id a } := by
  simp [ActionGroup.disable, hd, ha]

theorem activate_of_not_disabled (g : ActionGroup) (id : typeActionID)
    (hd : StdMap.find g.mDisabled id = none) : g.activate id = g := by
  simp [ActionGroup.activate, hd]

theorem disable_of_not_active (g : ActionGroup) (id : typeActionID)
    (ha : StdMap.find g.mActive id = none) : g.disable id = g := by
  simp [ActionGroup.disable, ha]

end ActionGroup

/-- C15: in every reachable group state and for every action ID, `activate(id)`
moves the ID with its action pointer from the disabled to the active map when
the ID is disabled, touching no other ID, and leaves the group unchanged when the
ID is already active or not registered; `disable(id)` is the mirror image; and
`disable` after `activate` gives back a group in which the ID was disabled (as
`activate` after `disable` gives back one in which it was active). -/
theorem c15_activate_and_disable_move_one_id (g : ActionGroup) (hr : g.Reachable)
    (id : typeActionID) :
    (∀ a, StdMap.find g.mDisabled id = some a →
      StdMap.find (g.activate id).mActive id = some a ∧
      StdMap.find (g.activate id).mDisabled id = none ∧
      (∀ k, k ≠ id →
        StdMap.find (g.activate id).mActive k = StdMap.find g.mActive k ∧
        StdMap.find (g.activate id).mDisabled k = StdMap.find g.mDisabled k) ∧
      (g.activate id).disable id = g) ∧
    ((g.isActive id = true ∨ g.isAvailable id = false) → g.activate id = g) ∧
    (∀ a, StdMap.find g.mActive id = some a →
      StdMap.find (g.disable id).mDisabled id = some a ∧
      StdMap.find (g.disable id).mActive id = none ∧
      (∀ k, k ≠ id →
        StdMap.find (g.disable id).mActive k = StdMap.find g.mActive k ∧
        StdMap.find (g.disable id).mDisabled k = StdMap.find g.mDisabled k) ∧
      (g.disable id).activate id = g) ∧
    ((StdMap.find g.mDisabled id ≠ none ∨ g.isAvailable id = false) → g.disable id = g) := by
  have hg := ActionGroup.Reachable.tidy g hr
  refine ⟨?_, ?_, ?_, ?_⟩
  · intro a hd
    have ha : StdMap.find g.mActive id = none := by
      rcases hg.disjoint id with h | h
      · exact h
      · rw [h] at hd
        exact Option.noConfusion hd
    rw [ActionGroup.activate_of_disabled g id a hd ha]
    refine ⟨StdMap.find_insert_self _ _ _ ha, StdMap.find_erase_self _ _, ?_, ?_⟩
    · intro k hk
      exact ⟨StdMap.find_insert_ne _ _ _ _ hk, StdMap.find_erase_ne _ _ _ hk⟩
    · rw [ActionGroup.disable_of_active _ id a (StdMap.find_insert_self _ _ _ ha)
        (StdMap.find_erase_self _ _)]
      simp only [StdMap.erase_insert_cancel _ _ _ ha,
        StdMap.insert_erase_cancel _ hg.disabled _ _ hd]
  · intro h
    apply ActionGroup.activate_of_not_disabled
    rcases h with h | h
    · rcases hg.disjoint id with h' | h'
      · simp [ActionGroup.isActive, h'] at h
      · exact h'
    · exact ((ActionGroup.isAvailable_false g id).1 h).2
  · intro a ha
    have hd : StdMap.find g.mDisabled id = none := by
      rcases hg.disjoint id with h | h
      · rw [h] at ha
        exact Option.noConfusion ha
      · exact h
    rw [ActionGroup.disable_of_active g id a ha hd]
    refine ⟨StdMap.find_insert_self _ _ _ hd, StdMap.find_erase_self _ _, ?_, ?_⟩
    · intro k hk
      exact ⟨StdMap.find_erase_ne _ _ _ hk, StdMap.find_insert_ne _ _ _ _ hk⟩
    · rw [ActionGroup.activate_of_disabled _ id a (StdMap.find_insert_self _ _ _ hd)
        (StdMap.find_erase_self _ _)]
      simp only [StdMap.erase_insert_cancel _ _ _ hd,
        StdMap.insert_erase_cancel _ hg.active _ _ ha]
  · intro h
    apply ActionGroup.disable_of_not_active
    rcases h with h | h
    · rcases hg.disjoint id with h' | h'
      · exact h'
      · exact absurd h' h
    · exact ((ActionGroup.isAvailable_false g id).1 h).1

/-- C15 witness: in the group with `"a"` and `"b"` active, `disable("a")` moves
`"a"` with its action 1, and `activate("a")` afterwards gives the group back. -/
theorem c15_activate_and_disable_move_one_id_witness :
    StdMap.find ActionGroup.demo.mActive "a" = some 1 ∧
    StdMap.find (ActionGroup.demo.disable "a").mDisabled "a" = some 1 ∧
    StdMap.find (ActionGroup.demo.disable "a").mActive "a" = none ∧
    (ActionGroup.demo.disable "a").activate "a" = ActionGroup.demo :=
  ⟨by decide,
   ((c15_activate_and_disable_move_one_id ActionGroup.demo
      (.activate "a" (.activate "b" (.add _ "a" (.add _ "b" (.ctor (some 0)))))) "a").2.2.1
      1 (by decide)).1,
   ((c15_activate_and_disable_move_one_id ActionGroup.demo
      (.activate "a" (.activate "b" (.add _ "a" (.add _ "b" (.ctor (some 0)))))) "a").2.2.1
      1 (by decide)).2.1,
   ((c15_activate_and_disable_move_one_id ActionGroup.demo
      (.activate "a" (.activate "b" (.add _ "a" (.add _ "b" (.ctor (some 0)))))) "a").2.2.1
      1 (by decide)).2.2.2⟩

/-- C18: for every group and action ID that is not yet in the group, `add(id)`
puts the ID with the catalog's action in the disabled map (so `isAvailable(id)`
is true and `isActive(id)` false, every other ID and the active map as before)
when the catalog of the group's `ActionSystem` holds an action with that ID, and
leaves the group unchanged when the catalog has none or no `ActionSystem` is
set; `add(id)` of an ID already in the group leaves the group unchanged. -/
theorem c18_add_registers_disabled (actionSystems : ActionSystemPtr → ActionSystem)
    (g : ActionGroup) (id : typeActionID) :
    (g.isAvailable id = false →
      (∀ p a, g.mActionSystem = some p → (actionSystems p).getAction id = some a →
        StdMap.find (g.add actionSystems id).mDisabled id = some a ∧
        (g.add actionSystems id).isAvailable id = true ∧
        (g.add actionSystems id).isActive id = false ∧
        (g.add actionSystems id).mActive = g.mActive ∧
        (g.add actionSystems id).mActionSystem = g.mActionSystem ∧
        ∀ k, k ≠ id →
          StdMap.find (g.add actionSystems id).mDisabled k = StdMap.find g.mDisabled k) ∧
      (∀ p, g.mActionSystem = some p → (actionSystems p).getAction id = none →
        g.add actionSystems id = g) ∧
      (g.mActionSystem = none → g.add actionSystems id = g)) ∧
    (g.isAvailable id = true → g.add actionSystems id = g) := by
  constructor
  · intro hav
    obtain ⟨hact, hdis⟩ := (ActionGroup.isAvailable_false g id).1 hav
    refine ⟨?_, ?_, ?_⟩
    · intro p a hp ha
      have hadd : g.add actionSystems id =
          { g with mDisabled := StdMap.insert g.mDisabled id a } := by
        simp [ActionGroup.add, hav, hp, ha]
      rw [hadd]
      refine ⟨StdMap.find_insert_self _ _ _ hdis, ?_, ?_, rfl, rfl, ?_⟩
      · simp [ActionGroup.isAvailable, StdMap.find_insert_self _ _ _ hdis]
      · simp [ActionGroup.isActive, hact]
      · intro k hk
        exact StdMap.find_insert_ne _ _ _ _ hk
    · intro p hp ha
      simp [ActionGroup.add, hav, hp, ha]
    · intro hp
      simp [ActionGroup.add, hav, hp]
  · intro hav
    simp [ActionGroup.add, hav]

/-- C18 witness: `add("a")` on a new group of the catalog with `"a"` and `"b"`,
and on a group without an `ActionSystem`. -/
theorem c18_add_registers_disabled_witness :
    (ActionGroup.ctor (some 0)).isAvailable "a" = false ∧
    StdMap.find ((ActionGroup.ctor (some 0)).add (fun _ => ActionSystem.demo) "a").mDisabled "a"
      = some 1 ∧
    ((ActionGroup.ctor (some 0)).add (fun _ => ActionSystem.demo) "a").isActive "a" = false ∧
    (ActionGroup.ctor none).add (fun _ => ActionSystem.demo) "a" = ActionGroup.ctor none :=
  ⟨by decide,
   (((c18_add_registers_disabled (fun _ => ActionSystem.demo) (ActionGroup.ctor (some 0))
      "a").1 (by decide)).1 0 1 rfl (by decide)).1,
   (((c18_add_registers_disabled (fun _ => ActionSystem.demo) (ActionGroup.ctor (some 0))
      "a").1 (by decide)).1 0 1 rfl (by decide)).2.2.1,
   ((c18_add_registers_disabled (fun _ => ActionSystem.demo) (ActionGroup.ctor none)
      "a").1 (by decide)).2.2 rfl⟩

/-! ### C16, C17: the walk of `doActions` -/

namespace StdMap

variable {κ β : Type} [DecidableEq κ]

theorem find_append_of_absent (pre m : StdMap κ β) (k : κ)
    (h : k ∉ pre.map Prod.fst) : find (pre ++ m) k = find m k := by
  induction pre with
  | nil => rfl
  | cons p pre ih =>
    obtain ⟨k', v'⟩ := p
    simp only [List.map_cons, List.mem_cons, not_or] at h
    have hk : ¬ k' = k := fun x => h.1 x.symm
    simp [find, hk, ih h.2]

theorem next_append_of_absent (pre rest : StdMap κ β) (k : κ) (v : β)
    (h : k ∉ pre.map Prod.fst) : next (pre ++ (k, v) :: rest) k = begin rest := by
  induction pre with
  | nil => simp [next]
  | cons p pre ih =>
    obtain ⟨k', v'⟩ := p
    simp only [List.map_cons, List.mem_cons, not_or] at h
    have hk : ¬ k' = k := fun x => h.1 x.symm
    simp [next, hk, ih h.2]

theorem erase_append_of_absent (pre rest : StdMap κ β) (k : κ) (v : β)
    (h1 : k ∉ pre.map Prod.fst) (h2 : k ∉ rest.map Prod.fst) :
    erase (pre ++ (k, v) :: rest) k = pre ++ rest := by
  have e1 := erase_of_absent pre k ((find_eq_none_iff pre k).2 h1)
  have e2 := erase_of_absent rest k ((find_eq_none_iff rest k).2 h2)
  simp only [erase] at e1 e2 ⊢
  rw [List.filter_append, List.filter_cons, e1, e2]
  simp

theorem Ordered.nodup_keys [StdLess κ] [LawfulStdLess κ] (m : StdMap κ β) (h : Ordered m) :
    (m.map Prod.fst).Nodup := by
  unfold Ordered at h
  refine h.imp ?_
  intro a b hab heq
  rw [heq, LawfulStdLess.irrefl] at hab
  exact Bool.noConfusion hab

end StdMap

namespace ActionGroup

theorem disable_mActive (g : ActionGroup) (id : typeActionID) (a : ActionPtr)
    (ha : StdMap.find g.mActive id = some a) :
    (g.disable id).mActive = StdMap.erase g.mActive id := by
  simp only [ActionGroup.disable, ha]
  split <;> rfl

/-- The walk from the iterator at the head of `rest`, when the active map is
`pre ++ rest` and every action of `rest` leaves the active map alone or erases
its own ID from it: the actions of `rest` are called, each once, front to back,
and the group at the end is the group after these calls, made one after the
other. -/
theorem doActionsFrom_walk (doAction : ActionPtr → ActionGroup → ActionGroup)
    (rest : StdMap typeActionID ActionPtr) :
    ∀ (fuel : Nat) (g : ActionGroup) (pre : StdMap typeActionID ActionPtr)
      (called : List ActionPtr),
      g.mActive = pre ++ rest → ((pre ++ rest).map Prod.fst).Nodup →
      (∀ k a, (k, a) ∈ rest → ∀ g', (doAction a g').mActive = g'.mActive ∨
        (doAction a g').mActive = StdMap.erase g'.mActive k) →
      rest.length < fuel →
      doActionsFrom doAction fuel g (StdMap.begin rest) called =
        .ok ((rest.map Prod.snd).foldl (fun acc a => doAction a acc) g,
          called ++ rest.map Prod.snd) := by
  induction rest with
  | nil =>
    intro fuel g pre called _ _ _ hfuel
    obtain ⟨n, rfl⟩ : ∃ n, fuel = n + 1 := ⟨fuel - 1, by simp at hfuel; omega⟩
    simp [doActionsFrom, StdMap.begin]
  | cons p rest ih =>
    obtain ⟨k, a⟩ := p
    intro fuel g pre called hact hnd hself hfuel
    obtain ⟨n, rfl⟩ : ∃ n, fuel = n + 1 := ⟨fuel - 1, by simp at hfuel; omega⟩
    simp only [List.length_cons, Nat.add_lt_add_iff_right] at hfuel
    have hnd' := hnd
    simp only [List.map_append, List.map_cons] at hnd'
    rw [List.nodup_append] at hnd'
    obtain ⟨hpre, hrest, hdisj⟩ := hnd'
    rw [List.nodup_cons] at hrest
    have hkpre : k ∉ pre.map Prod.fst := fun h => hdisj h (List.mem_cons_self _ _)
    have hfind : StdMap.find g.mActive k = some a := by
      rw [hact, StdMap.find_append_of_absent _ _ _ hkpre]
      simp [StdMap.find]
    have hnext : StdMap.next g.mActive k = StdMap.begin rest := by
      rw [hact, StdMap.next_append_of_absent _ _ _ _ hkpre]
    have hself' : ∀ k' a', (k', a') ∈ rest →
        ∀ g', (doAction a' g').mActive = g'.mActive ∨
          (doAction a' g').mActive = StdMap.erase g'.mActive k' :=
      fun k' a' hm => hself k' a' (List.mem_cons_of_mem _ hm)
    have hstep : doActionsFrom doAction (n + 1) g (StdMap.begin ((k, a) :: rest)) called =
        doActionsFrom doAction n (doAction a g) (StdMap.begin rest) (called ++ [a]) := by
      simp [doActionsFrom, StdMap.begin, hfind, hnext]
    rw [hstep]
    rcases hself k a (List.mem_cons_self _ _) g with hsame | hdis
    · have hg' := ih n (doAction a g) (pre ++ [(k, a)]) (called ++ [a])
        (by rw [hsame, hact]; simp) (by simpa using hnd) hself' hfuel
      simpa using hg'
    · have hnd2 : ((pre ++ rest).map Prod.fst).Nodup := by
        simp only [List.map_append]
        rw [List.nodup_append]
        exact ⟨hpre, hrest.2, fun x hx hy => hdisj hx (List.mem_cons_of_mem _ hy)⟩
      have hg' := ih n (doAction a g) pre (called ++ [a])
        (by rw [hdis, hact, StdMap.erase_append_of_absent _ _ _ _ hkpre hrest.1])
        hnd2 hself' hfuel
      simpa using hg'

end ActionGroup

/-- C16 (as stated, refuted): in the group `ActionGroup.demo` the action `"b"`
(address 2) was registered and activated before the action `"a"` (address 1);
`doActions` calls the action of `"a"` first and that of `"b"` second. -/
theorem c16_doActions_runs_in_key_order_not_registration_order :
    ActionGroup.demo =
      ((((ActionGroup.ctor (some 0)).add (fun _ => ActionSystem.demo) "b").add
        (fun _ => ActionSystem.demo) "a").activate "b").activate "a" ∧
    ActionSystem.demo.getAction "b" = some 2 ∧ ActionSystem.demo.getAction "a" = some 1 ∧
    ActionGroup.calledBy (fun _ g => g) 3 ActionGroup.demo = some [1, 2] := by
  decide

/-- C16 (amended): in every reachable group state, `doActions` (with actions that
leave the group alone, and a budget above the number of active actions) calls
the active actions in ascending order of their action IDs: the keys of the
active map ascend strictly, and the actions are called in the sequence of the
map. -/
theorem c16_doActions_runs_in_ascending_id_order (g : ActionGroup) (hr : g.Reachable)
    (doAction : ActionPtr → ActionGroup → ActionGroup)
    (hinert : ∀ a g', doAction a g' = g') (fuel : Nat) (hfuel : g.mActive.length < fuel) :
    StdMap.Ordered g.mActive ∧
    ∃ g', ActionGroup.doActions doAction fuel g = .ok (g', g.mActive.map Prod.snd) := by
  have hg := ActionGroup.Reachable.tidy g hr
  refine ⟨hg.active, ?_⟩
  have hg' := ActionGroup.doActionsFrom_walk doAction g.mActive fuel g [] []
    rfl (StdMap.Ordered.nodup_keys _ hg.active)
    (fun _ a _ g' => Or.inl (by rw [hinert a g'])) hfuel
  exact ⟨_, by simpa [ActionGroup.doActions] using hg'⟩

/-- C16 witness: the group with `"b"` and `"a"` active calls the action of `"a"`,
then that of `"b"`. -/
theorem c16_doActions_runs_in_ascending_id_order_witness :
    ActionGroup.demo.mActive.length < 3 ∧
    ∃ g', ActionGroup.doActions (fun _ g => g) 3 ActionGroup.demo =
      .ok (g', ActionGroup.demo.mActive.map Prod.snd) :=
  ⟨by decide,
   (c16_doActions_runs_in_ascending_id_order ActionGroup.demo
      (.activate "a" (.activate "b" (.add _ "a" (.add _ "b" (.ctor (some 0))))))
      (fun _ g => g) (fun _ _ => rfl) 3 (by decide)).2⟩

/-- C17: in every reachable group state, when every active action either leaves
the active map of the group alone or deactivates itself (removes its own ID from
the active map, as `disable` and `drop` do) during its call, one call of
`doActions` (with a budget above the number of active actions) returns and has
called `doAction` once for each action that was active when the call started, in
the sequence of the active map: the actions called are those of the active map
at the start, and the group at the end is the group at the start after the
calls `doAction` of these actions, one after the other. -/
theorem c17_doActions_calls_each_active_action_once (g : ActionGroup) (hr : g.Reachable)
    (doAction : ActionPtr → ActionGroup → ActionGroup)
    (hself : ∀ k a, StdMap.find g.mActive k = some a →
      ∀ g', (doAction a g').mActive = g'.mActive ∨
        (doAction a g').mActive = StdMap.erase g'.mActive k)
    (fuel : Nat) (hfuel : g.mActive.length < fuel) :
    ActionGroup.doActions doAction fuel g =
      .ok ((g.mActive.map Prod.snd).foldl (fun acc a => doAction a acc) g,
        g.mActive.map Prod.snd) := by
  have hg := ActionGroup.Reachable.tidy g hr
  have hnd := StdMap.Ordered.nodup_keys _ hg.active
  have hmem : ∀ (m : StdMap typeActionID ActionPtr), (m.map Prod.fst).Nodup →
      ∀ k a, (k, a) ∈ m → StdMap.find m k = some a := by
    intro m
    induction m with
    | nil => intro _ k a hm; simp at hm
    | cons p m ih =>
      obtain ⟨k', a'⟩ := p
      intro hnd k a hm
      simp only [List.map_cons, List.nodup_cons] at hnd
      rcases List.mem_cons.1 hm with h | h
      · cases h
        simp [StdMap.find]
      · have hne : ¬ k' = k := by
          intro h'
          subst h'
          exact hnd.1 (List.mem_map_of_mem Prod.fst h)
        simp only [StdMap.find, hne, if_false]
        exact ih hnd.2 k a h
  have hg' := ActionGroup.doActionsFrom_walk doAction g.mActive fuel g [] []
    rfl hnd (fun k a hm g' => hself k a (hmem g.mActive hnd k a hm) g') hfuel
  simpa [ActionGroup.doActions] using hg'

/-- C17 witness: in the group with `"a"` and `"b"` active the action of `"a"`
(address 1) disables `"a"` during its call and the action of `"b"` does nothing:
both are called once, and the group at the end is the group at the start with
`"a"` disabled. -/
theorem c17_doActions_calls_each_active_action_once_witness :
    ActionGroup.demo.mActive.length < 3 ∧
    ActionGroup.calledBy (fun a g => if a = 1 then g.disable "a" else g) 3 ActionGroup.demo =
      some [1, 2] ∧
    ActionGroup.groupAfter (fun a g => if a = 1 then g.disable "a" else g) 3 ActionGroup.demo =
      some (ActionGroup.demo.disable "a") ∧
    ActionGroup.demo.disable "a" ≠ ActionGroup.demo ∧
    ActionGroup.doActions (fun a g => if a = 1 then g.disable "a" else g) 3 ActionGroup.demo =
      .ok ((ActionGroup.demo.mActive.map Prod.snd).foldl
          (fun acc a => if a = 1 then acc.disable "a" else acc) ActionGroup.demo,
        ActionGroup.demo.mActive.map Prod.snd) :=
  ⟨by decide, by decide, by decide, by decide,
   c17_doActions_calls_each_active_action_once ActionGroup.demo
      (.activate "a" (.activate "b" (.add _ "a" (.add _ "b" (.ctor (some 0))))))
      (fun a g => if a = 1 then g.disable "a" else g)
      (by
        intro k a hk g'
        by_cases ha : a = 1
        · subst ha
          have hka : k = "a" := by
            by_cases h1 : k = "a"
            · exact h1
            · by_cases h2 : k = "b"
              · subst h2
                revert hk
                decide
              · have h1' : ¬ "a" = k := fun h => h1 h.symm
                have h2' : ¬ "b" = k := fun h => h2 h.symm
                have hd : ActionGroup.demo.mActive = [("a", 1), ("b", 2)] := by decide
                rw [hd] at hk
                simp [StdMap.find, h1', h2'] at hk
          subst hka
          simp only [if_true]
          cases hf : StdMap.find g'.mActive "a" with
          | none => exact Or.inl (by rw [ActionGroup.disable_of_not_active g' "a" hf])
          | some b => exact Or.inr (ActionGroup.disable_mActive g' "a" b hf)
        · exact Or.inl (by simp [ha]))
      3 (by decide)⟩

/-! ### C19: the order of a child -/

/-- C19 (what the code does): the constructor gives an entity with a father the
father's order plus 1, but `addChild` passes the value of `aFatherOrder++`, the
father's order itself, to `setOrder`: after `p.addChild(name, c)` (no child was
registered under the name) `c.getFather()` is `p` and `c.getOrder()` equals
`p.getOrder()`.  So for two roots 0 and 1 of order 0, after `0.addChild("c", 1)`
entity 1 has order 0, not 1. -/
theorem c19_addChild_gives_the_fathers_order :
    (∀ (w : World) (n : Nat) (e f : EntityPtr),
      IEntity.getOrder (IEntity.ctor w n e none).1 e = 0 ∧
      IEntity.getOrder (IEntity.ctor w n e (some f)).1 e = (IEntity.getOrder w f + 1) % 2 ^ 32) ∧
    (∀ (w : World) (fuel : Nat) (p : EntityPtr) (theChildName : String) (c : EntityPtr),
      StdMap.find (w.entities p).mChildren theChildName = none →
      ∃ w', IEntity.addChild fuel w p theChildName c = .ok w' ∧
        IEntity.getFather w' c = some p ∧
        IEntity.getOrder w' c = IEntity.getOrder w p ∧
        IEntity.getOrder w' p = IEntity.getOrder w p) ∧
    (IEntity.addChild 4 (World.fresh fun _ => 0) 0 "c" 1).readWorld
      (fun w => (IEntity.getOrder w 0, IEntity.getOrder w 1, IEntity.getFather w 1)) =
      some (0, 0, some 0) := by
  refine ⟨?_, ?_, by decide⟩
  · intro w n e f
    simp [IEntity.getOrder, IEntity.ctor, World.setEntity]
  · intro w fuel p name c hnone
    have hadd : IEntity.addChild fuel w p name c = .ok
        ((IEntity.setFather (IEntity.setOrder w c (w.entities p).mOrder) c (some p)).setEntity p
          { (IEntity.setFather (IEntity.setOrder w c (w.entities p).mOrder) c
              (some p)).entities p with
            mChildren := StdMap.insert
              ((IEntity.setFather (IEntity.setOrder w c (w.entities p).mOrder) c
                (some p)).entities p).mChildren name c }) := by
      simp only [IEntity.addChild, IEntity.dropChild, hnone]
    refine ⟨_, hadd, ?_, ?_, ?_⟩
    · by_cases hcp : c = p
      · subst hcp
        simp [IEntity.getFather, IEntity.setFather, IEntity.setOrder, World.setEntity]
      · simp [IEntity.getFather, IEntity.setFather, IEntity.setOrder, World.setEntity,
          Function.update_noteq hcp]
    · by_cases hcp : c = p
      · subst hcp
        simp [IEntity.getOrder, IEntity.setFather, IEntity.setOrder, World.setEntity]
      · have hpc : p ≠ c := fun h => hcp h.symm
        simp [IEntity.getOrder, IEntity.setFather, IEntity.setOrder, World.setEntity,
          Function.update_noteq hcp, Function.update_noteq hpc]
    · by_cases hcp : c = p
      · subst hcp
        simp [IEntity.getOrder, IEntity.setFather, IEntity.setOrder, World.setEntity]
      · have hpc : p ≠ c := fun h => hcp h.symm
        simp [IEntity.getOrder, IEntity.setFather, IEntity.setOrder, World.setEntity,
          Function.update_noteq hcp, Function.update_noteq hpc]

/-! ### C20: the destructor of an entity -/

namespace StdMap

variable {κ β : Type} [DecidableEq κ]

end StdMap

namespace World

end World

namespace IEntity

end IEntity

namespace IEntity

end IEntity

theorem World.nursery_from_addChild :
    IEntity.addChild 4 (World.fresh fun _ => 0) 0 "c" 1 = .ok World.nursery := by
  simp only [IEntity.addChild, IEntity.dropChild, World.fresh, StdMap.find, IEntity.setOrder,
    IEntity.setFather, World.setEntity, World.nursery, StdMap.insert]
  congr 2
  funext e
  by_cases h0 : e = 0
  · subst h0
    simp
  · by_cases h1 : e = 1
    · subst h1
      simp
    · simp [Function.update_noteq h0, Function.update_noteq h1]

theorem heightOver10_low (h : Nat) (h1 : 240 ≤ h) (h2 : h < 2 ^ 32) :
    heightOver10 h = ((h - 240 : Nat) : ℚ) / 10 := by
  unfold heightOver10
  have : (h + 2 ^ 32 - 240) % 2 ^ 32 = h - 240 := by omega
  rw [this]

theorem heightOver10_wrap (h : Nat) (h1 : h < 240) :
    heightOver10 h = ((h + 4294967056 : Nat) : ℚ) / 10 := by
  unfold heightOver10
  have : (h + 2 ^ 32 - 240) % 2 ^ 32 = h + 4294967056 := by omega
  rw [this]

theorem heightOver10_gt (h : Nat) (n : Nat) (b : ℚ) (hb : b * 10 = (n : ℚ)) (x : Nat)
    (hx : heightOver10 h = (x : ℚ) / 10) : heightOver10 h > b ↔ n < x := by
  rw [hx, gt_iff_lt, lt_div_iff₀ (by norm_num : (0 : ℚ) < 10), hb]
  exact Nat.cast_lt

/-- C30 (what the code does): `calculateRange` returns `LowRange` for the heights
from 240 to 760, `MidRange` for those from 761 to 960 and `HighRange` above 960,
but below 240 the unsigned difference `theHeight - 240` wraps to a number above
four thousand million and the result is `HighRange`: a window 200 pixels high
gets `HighRange`, one 480 pixels high `LowRange`.  So do `Game::calculateRange`
and `IApp::calculateRange`. -/
theorem c30_calculateRange_wraps_below_240 :
    (∀ h, h < 240 → Game.calculateRange h = .HighRange) ∧
    (∀ h, 240 ≤ h → h ≤ 760 → Game.calculateRange h = .LowRange) ∧
    (∀ h, 760 < h → h ≤ 960 → Game.calculateRange h = .MidRange) ∧
    (∀ h, 960 < h → h < 2 ^ 32 → Game.calculateRange h = .HighRange) ∧
    (∀ h, IApp.calculateRange h = Game.calculateRange h) ∧
    Game.calculateRange 200 = .HighRange ∧ Game.calculateRange 480 = .LowRange ∧
    ¬ (Game.calculateRange 200).toNat ≤ (Game.calculateRange 480).toNat := by
  have hwrap : ∀ h, h < 240 → Game.calculateRange h = .HighRange := by
    intro h h1
    have hx := heightOver10_wrap h h1
    have g72 := heightOver10_gt h 720 72 (by norm_num) _ hx
    have hhigh : heightOver10 h > 72 := g72.2 (by omega)
    have hnot : ¬ (heightOver10 h > 52 ∧ heightOver10 h ≤ 72) := fun c => absurd hhigh (not_lt.2 c.2)
    simp only [Game.calculateRange, hnot, hhigh, if_true, if_false]
  have hlow : ∀ h, 240 ≤ h → h ≤ 760 → Game.calculateRange h = .LowRange := by
    intro h h1 h2
    have hx := heightOver10_low h h1 (by omega)
    have g52 := heightOver10_gt h 520 52 (by norm_num) _ hx
    have g72 := heightOver10_gt h 720 72 (by norm_num) _ hx
    have n52 : ¬ heightOver10 h > 52 := fun c => by have := g52.1 c; omega
    have n72 : ¬ heightOver10 h > 72 := fun c => by have := g72.1 c; omega
    have hnot : ¬ (heightOver10 h > 52 ∧ heightOver10 h ≤ 72) := fun c => n52 c.1
    simp only [Game.calculateRange, hnot, n72, if_false]
  refine ⟨hwrap, hlow, ?_, ?_, fun _ => rfl, hwrap 200 (by omega), hlow 480 (by omega) (by omega), ?_⟩
  · intro h h1 h2
    have hx := heightOver10_low h (by omega) (by omega)
    have g52 := heightOver10_gt h 520 52 (by norm_num) _ hx
    have g72 := heightOver10_gt h 720 72 (by norm_num) _ hx
    have p52 : heightOver10 h > 52 := g52.2 (by omega)
    have n72 : heightOver10 h ≤ 72 := not_lt.1 (fun c => by have := g72.1 c; omega)
    simp only [Game.calculateRange, p52, n72, and_self, if_true]
  · intro h h1 h2
    have hx := heightOver10_low h (by omega) h2
    have g72 := heightOver10_gt h 720 72 (by norm_num) _ hx
    have hhigh : heightOver10 h > 72 := g72.2 (by omega)
    have hnot : ¬ (heightOver10 h > 52 ∧ heightOver10 h ≤ 72) := fun c => absurd hhigh (not_lt.2 c.2)
    simp only [Game.calculateRange, hnot, hhigh, if_true, if_false]
  · rw [hwrap 200 (by omega), hlow 480 (by omega) (by omega)]
    decide

/-! ### C27: the root of an entity -/

/-- C27 (what the code does): `getRoot` returns the entity itself when it is a
root; for an entity with a father its loop calls `getFather` without moving
`aRoot` to the father, so the loop can never end and the call is undefined
behaviour: the root ancestor is not what comes back.  Entity 1 of
`World.nursery` has the root 0 as its father, and `getRoot` on it does not
return 0. -/
theorem c27_getRoot_loops_on_an_entity_with_a_father :
    (∀ (w : World) (e : EntityPtr), IEntity.isRoot w e = true →
      IEntity.getRoot w e = .ok e) ∧
    (∀ (w : World) (e : EntityPtr), IEntity.isRoot w e = false →
      IEntity.getRoot w e = .error .undefinedBehaviour) ∧
    IEntity.getFather World.nursery 1 = some 0 ∧ IEntity.isRoot World.nursery 0 = true ∧
    IEntity.getRoot World.nursery 1 = .error .undefinedBehaviour ∧
    IEntity.getRoot World.nursery 1 ≠ .ok 0 := by
  have hloop : ∀ (w : World) (e : EntityPtr), IEntity.isRoot w e = false →
      IEntity.getRoot w e = .error .undefinedBehaviour := by
    intro w e h
    simp only [IEntity.getRoot, h, Bool.false_eq_true, if_false]
  refine ⟨?_, hloop, by decide, by decide, hloop _ _ (by decide), ?_⟩
  · intro w e h
    simp only [IEntity.getRoot, h, if_true]
  · rw [hloop _ _ (by decide)]
    intro h
    cases h

/-! ### C28: the child registered under a name -/

/-- No removal on either side touches a children map or a father. -/
theorem drop_keeps_family (fuel : Nat) :
    (∀ w w' s id, ISystem.dropEntity fuel w s id = .ok w' →
      ∀ x, (w'.entities x).mChildren = (w.entities x).mChildren ∧
        (w'.entities x).mFather = (w.entities x).mFather) ∧
    (∀ w w' s k i, ISystem.eraseEntity fuel w s k i = .ok w' →
      ∀ x, (w'.entities x).mChildren = (w.entities x).mChildren ∧
        (w'.entities x).mFather = (w.entities x).mFather) ∧
    (∀ w w' e sid, IEntity.dropSystem fuel w e sid = .ok w' →
      ∀ x, (w'.entities x).mChildren = (w.entities x).mChildren ∧
        (w'.entities x).mFather = (w.entities x).mFather) ∧
    (∀ w w' e sid, IEntity.eraseSystem fuel w e sid = .ok w' →
      ∀ x, (w'.entities x).mChildren = (w.entities x).mChildren ∧
        (w'.entities x).mFather = (w.entities x).mFather) := by
  induction fuel with
  | zero =>
    refine ⟨?_, ?_, ?_, ?_⟩ <;> intro w w' <;> intros <;>
      simp_all [ISystem.dropEntity, ISystem.eraseEntity, IEntity.dropSystem, IEntity.eraseSystem]
  | succ n ih =>
    obtain ⟨ih1, ih2, ih3, ih4⟩ := ih
    refine ⟨?_, ?_, ?_, ?_⟩
    · intro w w' s id h x
      simp only [ISystem.dropEntity] at h
      split at h
      · exact ih2 _ _ _ _ _ h x
      · cases h
        exact ⟨rfl, rfl⟩
    · intro w w' s k i h x
      simp only [ISystem.eraseEntity] at h
      split at h
      · cases h
      · split at h
        · cases h
        · split at h
          · cases h
          · split at h
            · have := ih3 _ _ _ _ h x
              simpa [World.hook, World.setSystem] using this
            · cases h
              simp [World.hook, World.setSystem]
    · intro w w' e sid h x
      simp only [IEntity.dropSystem] at h
      split at h
      · exact ih4 _ _ _ _ h x
      · cases h
        exact ⟨rfl, rfl⟩
    · intro w w' e sid h x
      simp only [IEntity.eraseSystem] at h
      split at h
      · cases h
      · have hx : ∀ (v : StdMap typeSystemID SystemPtr),
            (((w.setEntity e { w.entities e with mSystems := v }).entities x).mChildren =
              (w.entities x).mChildren) ∧
            (((w.setEntity e { w.entities e with mSystems := v }).entities x).mFather =
              (w.entities x).mFather) := by
          intro v
          by_cases hxe : x = e
          · subst hxe
            simp [World.setEntity]
          · simp [World.setEntity, Function.update_noteq hxe]
        split at h
        · have := ih1 _ _ _ _ h x
          rw [this.1, this.2]
          exact hx _
        · cases h
          exact hx _

theorem IEntity.dropAllSystemsFrom_keeps_family (fuel : Nat) :
    ∀ (w w' : World) (e : EntityPtr) (it : Option typeSystemID),
      IEntity.dropAllSystemsFrom fuel w e it = .ok w' →
      ∀ x, (w'.entities x).mChildren = (w.entities x).mChildren ∧
        (w'.entities x).mFather = (w.entities x).mFather := by
  induction fuel with
  | zero =>
    intro w w' e it h
    simp [IEntity.dropAllSystemsFrom] at h
  | succ n ih =>
    intro w w' e it h x
    cases it with
    | none =>
      simp only [IEntity.dropAllSystemsFrom] at h
      cases h
      exact ⟨rfl, rfl⟩
    | some k =>
      simp only [IEntity.dropAllSystemsFrom] at h
      split at h
      · cases h
      · split at h
        · cases h
        · rename_i w1 h1
          have a := (drop_keeps_family n).2.2.2 _ _ _ _ h1 x
          have b := ih _ _ _ _ h x
          exact ⟨b.1.trans a.1, b.2.trans a.2⟩

theorem IEntity.dropAllSystems_keeps_family (fuel : Nat) (w w' : World) (e : EntityPtr)
    (h : IEntity.dropAllSystems fuel w e = .ok w') (x : EntityPtr) :
    (w'.entities x).mChildren = (w.entities x).mChildren ∧
      (w'.entities x).mFather = (w.entities x).mFather := by
  simp only [IEntity.dropAllSystems] at h
  split at h
  · cases h
  · rename_i w1 h1
    cases h
    have a := IEntity.dropAllSystemsFrom_keeps_family fuel _ _ _ _ h1 x
    by_cases hxe : x = e
    · subst hxe
      simpa [World.setEntity] using a
    · simpa [World.setEntity, Function.update_noteq hxe] using a

namespace StdMap

variable {κ β : Type} [DecidableEq κ]

/-- An `insert` under a key that the map holds changes nothing. -/
theorem insert_of_present [StdLess κ] [LawfulStdLess κ] (m : StdMap κ β) (hs : Ordered m)
    (k : κ) (v v0 : β) (h : find m k = some v0) : insert m k v = m := by
  induction m with
  | nil => simp [find] at h
  | cons p m ih =>
    obtain ⟨k', v'⟩ := p
    simp only [Ordered, List.map_cons, List.pairwise_cons] at hs
    by_cases hk : k' = k
    · simp [insert, hk]
    · simp only [find, hk, if_false] at h
      have hmem : k ∈ m.map Prod.fst := by
        by_contra hc
        rw [(find_eq_none_iff m k).2 hc] at h
        cases h
      have hlt := hs.1 k hmem
      have hnl : StdLess.less k k' = false := not_less_of_less k' k hlt
      simp only [insert, hk, if_false, hnl, Bool.false_eq_true]
      rw [ih hs.2 h]

end StdMap

/-- C28 (what the code does): when `p.addChild(n, c)` returns and a child `c0` was
registered under `n` (in a children map with ascending keys, as a `std::map`
has), the child under `n` in the children map of `p` is still
`c0` (`dropChild` leaves the map alone and `insert` keeps the mapping it finds),
while the father of `c` is now `p`.  In `World.nursery`, where entity 0 has the
child 1 under `"c"`, the call `addChild("c", 2)` on entity 0 returns with child 1
still under `"c"` and with 0 as the father of entity 2. -/
theorem c28_addChild_keeps_the_old_child :
    (∀ (fuel : Nat) (w w' : World) (p : EntityPtr) (n : String) (c c0 : EntityPtr),
      StdMap.Ordered (w.entities p).mChildren →
      StdMap.find (w.entities p).mChildren n = some c0 →
      IEntity.addChild fuel w p n c = .ok w' →
      StdMap.find (w'.entities p).mChildren n = some c0 ∧ IEntity.getFather w' c = some p) ∧
    StdMap.find (World.nursery.entities 0).mChildren "c" = some 1 ∧
    (IEntity.addChild 4 World.nursery 0 "c" 2).readWorld
      (fun w => (StdMap.find (w.entities 0).mChildren "c", IEntity.getFather w 2)) =
      some (some 1, some 0) := by
  refine ⟨?_, by decide, by decide⟩
  intro fuel w w' p n c c0 hord hfind h
  simp only [IEntity.addChild, IEntity.dropChild, hfind] at h
  split at h
  · cases h
  · rename_i w1 h1
    cases h
    have hfam := IEntity.dropAllSystems_keeps_family fuel _ _ _ h1 p
    have hpc : ((IEntity.setFather (IEntity.setOrder w1 c (w1.entities p).mOrder) c
        (some p)).entities p).mChildren = (w.entities p).mChildren := by
      rw [← hfam.1]
      by_cases hpc : p = c
      · subst hpc
        simp [IEntity.setFather, IEntity.setOrder, World.setEntity]
      · simp [IEntity.setFather, IEntity.setOrder, World.setEntity, Function.update_noteq hpc]
    constructor
    · simp only [World.setEntity, Function.update_same, hpc]
      rw [StdMap.insert_of_present _ hord n c c0 hfind]
      exact hfind
    · by_cases hcp : c = p
      · subst hcp
        simp [IEntity.getFather, IEntity.setFather, IEntity.setOrder, World.setEntity]
      · simp [IEntity.getFather, IEntity.setFather, IEntity.setOrder, World.setEntity,
          Function.update_noteq hcp]

/-! ### C21: adding on the entity side -/

/-- C21 (as stated, refuted): in a fresh world, after `addSystem` of system 0 on
entity 5 the entity has the system, but the system does not hold the entity
(whose ID is 6). -/
theorem c21_addSystem_does_not_register_with_the_system :
    IEntity.hasSystem (IEntity.addSystem (World.fresh fun _ => 0) 5 0) 5
      (ISystem.getID (IEntity.addSystem (World.fresh fun _ => 0) 5 0) 0) = true ∧
    IEntity.getID (IEntity.addSystem (World.fresh fun _ => 0) 5 0) 5 = 6 ∧
    ISystem.hasEntity (IEntity.addSystem (World.fresh fun _ => 0) 5 0) 0 6 = false := by
  decide

/-- C21 (amended): for every entity `e` and system `s`, in every state, after
`e.addSystem(s)` the call `e.hasSystem(s.getID())` is true, and no registry has
changed: the systems are what they were, and `hasEntity` of every system answers
for every ID as it did before the call (so `s.hasEntity(e.getID())` is true only
if it was true before). -/
theorem c21_addSystem_records_membership_only (w : World) (e : EntityPtr) (s : SystemPtr) :
    IEntity.hasSystem (IEntity.addSystem w e s) e (ISystem.getID (IEntity.addSystem w e s) s)
      = true ∧
    (IEntity.addSystem w e s).systems = w.systems ∧
    (∀ s' id, ISystem.hasEntity (IEntity.addSystem w e s) s' id = ISystem.hasEntity w s' id) := by
  have hsys : (IEntity.addSystem w e s).systems = w.systems := by
    unfold IEntity.addSystem
    split <;> rfl
  have hid : ∀ x, ((IEntity.addSystem w e s).entities x).mEntityID =
      (w.entities x).mEntityID := by
    intro x
    unfold IEntity.addSystem
    split
    · by_cases hx : x = e
      · subst hx
        simp [World.setEntity]
      · simp [World.setEntity, Function.update_noteq hx]
    · rfl
  refine ⟨?_, hsys, ?_⟩
  · simp only [ISystem.getID, hsys]
    cases hf : StdMap.find (w.entities e).mSystems (w.systems s).mSystemID with
    | none =>
      simp [IEntity.hasSystem, IEntity.addSystem, hf, World.setEntity,
        StdMap.find_assign_self]
    | some x => simp [IEntity.hasSystem, IEntity.addSystem, hf]
  · intro s' id
    simp only [ISystem.hasEntity, hsys]
    rw [ISystem.findEntity_congr w _ hid]

/-! ### C26: the cleanup flag of a state -/

/-- C26 (what the code does): `cleanup` resets the cleanup flag after its call of
`handleCleanup`, but `doInit` calls `handleCleanup` and leaves the flag set.  So
after `doInit`, `deInit`, `doInit`, `cleanup` on a new state `handleCleanup` has
been called twice for the one `deInit` that took effect. -/
theorem c26_doInit_leaves_the_cleanup_flag_set :
    (∀ st : IState, st.mCleanup = true →
      st.cleanup.mCleanup = false ∧
      st.cleanup.mHandleCleanupCalls = st.mHandleCleanupCalls + 1) ∧
    (∀ st : IState, st.mCleanup = true →
      st.doInit.mCleanup = true ∧
      st.doInit.mHandleCleanupCalls = st.mHandleCleanupCalls + 1 ∧
      st.doInit.mDeInits = st.mDeInits) ∧
    (IState.runAll IState.ctor [.doInit, .deInit, .doInit, .cleanup]).mHandleCleanupCalls = 2 ∧
    (IState.runAll IState.ctor [.doInit, .deInit, .doInit, .cleanup]).mDeInits = 1 ∧
    (IState.runAll IState.ctor [.doInit, .deInit, .doInit]).mCleanup = true := by
  refine ⟨?_, ?_, by decide, by decide, by decide⟩
  · intro st h
    simp [IState.cleanup, IState.handleCleanup, h]
  · intro st h
    simp only [IState.doInit, h, if_true, IState.handleCleanup]
    split <;> simp [h]

/-! ### C25: the cleanup of the state manager -/

/-- C25 (what the code does): `cleanup` evaluates `mStack.back()` whatever the
size of the stack, so on an empty stack it reads the top element of an empty
vector, which is undefined behaviour, and tells nobody to quit; on a stack whose
top is a state it leaves the game alone.  When the only state of the stack
removes itself, `removeActiveState` empties the stack (and tells the game to quit
with `StatusAppOK`), and the `cleanup` of the same game loop round ends in
undefined behaviour. -/
theorem c25_cleanup_reads_the_top_of_an_empty_stack :
    (∀ sm : StateManager, sm.mStack = [] →
      sm.cleanup = .error .undefinedBehaviour) ∧
    (∀ (sm : StateManager) (rest : List (Option StatePtr)) (p : StatePtr),
      sm.mStack = rest ++ [some p] → sm.mDead = [] → sm.cleanup = .ok sm) ∧
    StateManager.observe StateManager.lastStateRemoved
      (fun sm => (sm.mStack, sm.mDead, sm.game.mExitCode)) =
      some ([], [some 0], some StatusType.StatusAppOK) ∧
    StateManager.faultOf StateManager.cleanupAfterLastState = some Fault.undefinedBehaviour := by
  refine ⟨?_, ?_, by decide, by decide⟩
  · intro sm h
    have hstack : ∀ sm1, StateManager.cleanupDead sm = .ok sm1 → sm1.mStack = [] := by
      intro sm1 h1
      simp only [StateManager.cleanupDead] at h1
      split at h1
      · cases h1
        exact h
      · cases h1
      · cases h1
        simp only [StateManager.onState]
        split <;> exact h
    have hfault : ∀ f, StateManager.cleanupDead sm = .error f → f = .undefinedBehaviour := by
      intro f h1
      simp only [StateManager.cleanupDead] at h1
      split at h1
      · cases h1
      · cases h1
        rfl
      · cases h1
    simp only [StateManager.cleanup]
    cases hd : StateManager.cleanupDead sm with
    | error f => simp [hfault f hd]
    | ok sm1 => simp [hstack sm1 hd]
  · intro sm rest p h hdead
    simp [StateManager.cleanup, StateManager.cleanupDead, hdead, h]

/-! ### C22: the properties a system reads -/

theorem PropertyManager.has_add {Tag : Type} [DecidableEq Tag] {Val : Tag → Type}
    (pm : PropertyManager Tag Val) (T : Tag) (k : typePropertyID) (v : Val T)
    (k2 : typePropertyID) :
    (pm.add T k v).has k2 = (decide (k2 = k) || pm.has k2) := by
  unfold PropertyManager.add PropertyManager.has
  cases hf : StdMap.find pm.mList k with
  | none =>
    by_cases hk : k2 = k
    · subst hk
      simp [StdMap.find_assign_self]
    · simp [StdMap.find_assign_ne _ _ _ _ hk, hk]
  | some p =>
    by_cases hk : k2 = k
    · subst hk
      simp [hf]
    · simp [hk]

/-- C22 (as stated, refuted): `MovementSystem::updateFixed` reads `"vPosition"`,
`"fRotation"` and (in `handleScreenWrap`) `"rSpriteRect"`, and
`AnimationSystem::updateFixed` reads `"rSpriteRect"`; in the bag of an entity that
was registered with that one system these keys are missing. -/
theorem c22_movement_and_animation_read_render_properties :
    (GqeType.vector2f, "vPosition") ∈ MovementSystem.updateFixedReads ∧
    (GqeType.float, "fRotation") ∈ MovementSystem.updateFixedReads ∧
    (GqeType.intRect, "rSpriteRect") ∈ MovementSystem.updateFixedReads ∧
    (MovementSystem.addProperties PropertyManager.empty).has "vPosition" = false ∧
    (MovementSystem.addProperties PropertyManager.empty).has "fRotation" = false ∧
    (MovementSystem.addProperties PropertyManager.empty).has "rSpriteRect" = false ∧
    (GqeType.intRect, "rSpriteRect") ∈ AnimationSystem.updateFixedReads ∧
    (AnimationSystem.addProperties PropertyManager.empty).has "rSpriteRect" = false := by
  decide

/-- C22 (amended): for each of the four concrete systems, every property key that
its `updateFixed`, `updateVariable` or `draw` (and their helpers) reads is a key
that its own `addProperties` or the `addProperties` of `RenderSystem` adds: in
the bag of an entity registered with that system and with `RenderSystem`, in
either order, every read finds its key (and in a bag that was empty before, a
property of the type it asks for); `RenderSystem` and `ActionSystem` read only
keys they add themselves. -/
theorem c22_reads_are_own_or_render_properties (S : ConcreteSystem) (this : ActionSystemPtr)
    (pm : EntityProperties) :
    (∀ r ∈ S.reads,
      (S.addProperties this (RenderSystem.addProperties pm)).has r.2 = true ∧
      (RenderSystem.addProperties (S.addProperties this pm)).has r.2 = true) ∧
    (∀ r ∈ S.reads,
      PropertyManager.typeOf
        (S.addProperties this (RenderSystem.addProperties PropertyManager.empty)) r.2 =
        some r.1 ∧
      PropertyManager.typeOf
        (RenderSystem.addProperties (S.addProperties this PropertyManager.empty)) r.2 =
        some r.1) ∧
    ((S = .RenderSystem ∨ S = .ActionSystem) →
      ∀ r ∈ S.reads, (S.addProperties this pm).has r.2 = true) := by
  refine ⟨?_, ?_, ?_⟩
  · intro r hr
    cases S <;>
      simp only [ConcreteSystem.reads, MovementSystem.updateFixedReads,
        MovementSystem.updateVariableReads, MovementSystem.handleScreenWrapReads,
        RenderSystem.drawReads, AnimationSystem.updateFixedReads,
        ActionSystem.updateFixedReads, List.cons_append, List.nil_append, List.mem_cons,
        List.mem_singleton, List.not_mem_nil, or_false] at hr <;>
      rcases hr with rfl | rfl | rfl | rfl | rfl | rfl | rfl | rfl | rfl | rfl | rfl | rfl |
        rfl | rfl | rfl | rfl | rfl | rfl <;>
      simp [ConcreteSystem.addProperties, MovementSystem.addProperties,
        RenderSystem.addProperties, AnimationSystem.addProperties, ActionSystem.addProperties,
        PropertyManager.has_add]
  · intro r hr
    cases S
    case ActionSystem =>
      simp only [ConcreteSystem.reads, ActionSystem.updateFixedReads, List.mem_singleton] at hr
      subst hr
      have h0 : PropertyManager.typeOf (PropertyManager.empty : EntityProperties) "Actions" =
          none := rfl
      simp only [ConcreteSystem.addProperties, ActionSystem.addProperties,
        RenderSystem.addProperties, PropertyManager.typeOf_add, h0]
      simp
    all_goals
      simp only [ConcreteSystem.reads, MovementSystem.updateFixedReads,
        MovementSystem.updateVariableReads, MovementSystem.handleScreenWrapReads,
        RenderSystem.drawReads, AnimationSystem.updateFixedReads,
        List.cons_append, List.nil_append, List.mem_cons,
        List.mem_singleton, List.not_mem_nil, or_false] at hr
      simp only [ConcreteSystem.addProperties]
      rcases hr with rfl | rfl | rfl | rfl | rfl | rfl | rfl | rfl | rfl | rfl | rfl | rfl |
        rfl | rfl | rfl | rfl | rfl | rfl <;>
      exact ⟨by decide, by decide⟩
  · rintro (rfl | rfl) r hr <;>
      simp only [ConcreteSystem.reads, RenderSystem.drawReads, ActionSystem.updateFixedReads,
        List.mem_cons, List.mem_singleton, List.not_mem_nil, or_false] at hr <;>
      rcases hr with rfl | rfl | rfl | rfl | rfl | rfl <;>
      simp [ConcreteSystem.addProperties, RenderSystem.addProperties,
        ActionSystem.addProperties, PropertyManager.has_add]

/-! ### C29: integer rectangles as strings -/

namespace StringUtil

theorem digitChar_spec (k : Nat) (hk : k < 10) :
    (Nat.digitChar k).isDigit = true ∧ (Nat.digitChar k).toNat - 48 = k ∧
      Nat.digitChar k ≠ ',' ∧ isSpace (Nat.digitChar k) = false := by
  interval_cases k <;> decide

theorem digitsValue_snoc (ds : List Char) (c : Char) :
    digitsValue (ds ++ [c]) = 10 * digitsValue ds + (c.toNat - 48) := by
  simp [digitsValue, List.foldl_append]

/-- What `Nat.toDigitsCore` puts before the accumulator: digits, at least one, that
spell the number. -/
theorem toDigitsCore_spec (fuel : Nat) : ∀ (n : Nat) (acc : List Char), n < fuel →
    ∃ ds, Nat.toDigitsCore 10 fuel n acc = ds ++ acc ∧ ds ≠ [] ∧
      (∀ c ∈ ds, c.isDigit = true ∧ c ≠ ',' ∧ isSpace c = false) ∧ digitsValue ds = n := by
  induction fuel with
  | zero => intro n acc h; omega
  | succ f ih =>
    intro n acc h
    have hd := digitChar_spec (n % 10) (Nat.mod_lt _ (by omega))
    by_cases h0 : n / 10 = 0
    · refine ⟨[Nat.digitChar (n % 10)], ?_, by simp, ?_, ?_⟩
      · simp [Nat.toDigitsCore, h0]
      · intro c hc
        rw [List.mem_singleton] at hc
        subst hc
        exact ⟨hd.1, hd.2.2.1, hd.2.2.2⟩
      · show digitsValue [Nat.digitChar (n % 10)] = n
        simp only [digitsValue, List.foldl]
        rw [hd.2.1]
        omega
    · obtain ⟨ds, hds, hne, hall, hval⟩ := ih (n / 10) (Nat.digitChar (n % 10) :: acc) (by omega)
      refine ⟨ds ++ [Nat.digitChar (n % 10)], ?_, by simp, ?_, ?_⟩
      · simp [Nat.toDigitsCore, h0, hds]
      · intro c hc
        rcases List.mem_append.1 hc with hc | hc
        · exact hall c hc
        · rw [List.mem_singleton] at hc
          subst hc
          exact ⟨hd.1, hd.2.2.1, hd.2.2.2⟩
      · rw [digitsValue_snoc, hval, hd.2.1]
        omega

theorem toDigits_spec (n : Nat) :
    Nat.toDigits 10 n ≠ [] ∧
      (∀ c ∈ Nat.toDigits 10 n, c.isDigit = true ∧ c ≠ ',' ∧ isSpace c = false) ∧
      digitsValue (Nat.toDigits 10 n) = n := by
  obtain ⟨ds, hds, hne, hall, hval⟩ := toDigitsCore_spec (n + 1) n [] (by omega)
  have : Nat.toDigits 10 n = ds := by simpa [Nat.toDigits] using hds
  rw [this]
  exact ⟨hne, hall, hval⟩

theorem takeWhile_digits (ds rest : List Char) (hds : ∀ c ∈ ds, c.isDigit = true)
    (hrest : ∀ c t, rest = c :: t → c.isDigit = false) :
    (ds ++ rest).takeWhile Char.isDigit = ds := by
  induction ds with
  | nil =>
    cases rest with
    | nil => rfl
    | cons c t => simp [List.takeWhile, hrest c t rfl]
  | cons d ds ih =>
    have hd := hds d (List.mem_cons_self _ _)
    simp only [List.cons_append, List.takeWhile_cons, hd, if_true]
    rw [ih (fun c hc => hds c (List.mem_cons_of_mem _ hc))]

/-- A number of the `Int32` range that `writeInt` wrote is read back, after any
white space and up to a character that is no digit. -/
theorem readInt32_writeInt (n : Int) (hlo : -(2 : Int) ^ 31 ≤ n) (hhi : n ≤ (2 : Int) ^ 31 - 1)
    (sp rest : List Char) (hsp : ∀ c ∈ sp, isSpace c = true)
    (hrest : ∀ c t, rest = c :: t → c.isDigit = false) :
    readInt32 (sp ++ (writeInt n ++ rest)) = some n := by
  have hclamp : max (-(2 : Int) ^ 31) (min n ((2 : Int) ^ 31 - 1)) = n := by
    rw [min_eq_left hhi, max_eq_right hlo]
  have hdrop : ∀ (body : List Char), (∀ c t, body = c :: t → isSpace c = false) →
      (sp ++ body).dropWhile isSpace = body := by
    intro body hbody
    induction sp with
    | nil =>
      cases body with
      | nil => rfl
      | cons c t => simp [List.dropWhile, hbody c t rfl]
    | cons a sp ih =>
      have ha := hsp a (List.mem_cons_self _ _)
      simp only [List.cons_append, List.dropWhile, ha]
      exact ih (fun c hc => hsp c (List.mem_cons_of_mem _ hc))
  cases n with
  | ofNat m =>
    obtain ⟨hne, hall, hval⟩ := toDigits_spec m
    have hbody : ∀ c t, Nat.toDigits 10 m ++ rest = c :: t → isSpace c = false := by
      intro c t h
      cases hm : Nat.toDigits 10 m with
      | nil => exact absurd hm hne
      | cons d ds =>
        rw [hm] at h
        simp only [List.cons_append, List.cons.injEq] at h
        rw [← h.1]
        exact (hall d (by rw [hm]; exact List.mem_cons_self _ _)).2.2
    have htake := takeWhile_digits (Nat.toDigits 10 m) rest (fun c hc => (hall c hc).1) hrest
    have hsign : splitSign (Nat.toDigits 10 m ++ rest) = (false, Nat.toDigits 10 m ++ rest) := by
      cases hm : Nat.toDigits 10 m with
      | nil => exact absurd hm hne
      | cons d ds =>
        have hd := (hall d (by rw [hm]; exact List.mem_cons_self _ _)).1
        simp only [List.cons_append]
        unfold splitSign
        split
        · rename_i heq
          simp only [List.cons.injEq] at heq
          rw [heq.1] at hd
          exact absurd hd (by decide)
        · rename_i heq
          simp only [List.cons.injEq] at heq
          rw [heq.1] at hd
          exact absurd hd (by decide)
        · rfl
    have hempty : (Nat.toDigits 10 m).isEmpty = false := by
      cases hm : Nat.toDigits 10 m with
      | nil => exact absurd hm hne
      | cons d ds => rfl
    simp only [readInt32, writeInt, hdrop _ hbody, hsign, htake, hempty, Bool.false_eq_true,
      if_false, hval]
    exact congrArg some hclamp
  | negSucc m =>
    obtain ⟨hne, hall, hval⟩ := toDigits_spec (m + 1)
    have hbody : ∀ c t, '-' :: Nat.toDigits 10 (m + 1) ++ rest = c :: t → isSpace c = false := by
      intro c t h
      simp only [List.cons_append, List.cons.injEq] at h
      rw [← h.1]
      decide
    have htake := takeWhile_digits (Nat.toDigits 10 (m + 1)) rest (fun c hc => (hall c hc).1) hrest
    have hsign : splitSign ('-' :: Nat.toDigits 10 (m + 1) ++ rest) =
        (true, Nat.toDigits 10 (m + 1) ++ rest) := rfl
    have hempty : (Nat.toDigits 10 (m + 1)).isEmpty = false := by
      cases hm : Nat.toDigits 10 (m + 1) with
      | nil => exact absurd hm hne
      | cons d ds => rfl
    simp only [readInt32, writeInt, hdrop _ hbody, hsign, htake, hempty, Bool.false_eq_true,
      if_false, hval, if_true]
    have hv : -((m + 1 : Nat) : Int) = Int.negSucc m := by
      rw [Int.negSucc_eq]
      push_cast
      ring
    rw [hv]
    exact congrArg some hclamp

theorem writeInt_no_comma (n : Int) : ',' ∉ writeInt n := by
  intro h
  cases n with
  | ofNat m => exact ((toDigits_spec m).2.1 _ h).2.1 rfl
  | negSucc m =>
    simp only [writeInt, List.mem_cons] at h
    rcases h with h | h
    · exact absurd h (by decide)
    · exact ((toDigits_spec (m + 1)).2.1 _ h).2.1 rfl

theorem firstAt_append (ch : Char) (w rest : List Char) (h : ch ∉ w) (i : Nat) :
    firstAt ch (w ++ ch :: rest) i = some (i + w.length) := by
  induction w generalizing i with
  | nil => simp [firstAt]
  | cons c w ih =>
    simp only [List.mem_cons, not_or] at h
    have hc : ¬ c = ch := fun x => h.1 x.symm
    simp only [List.cons_append, firstAt, hc, if_false, List.length_cons]
    have := ih h.2 (i + 1)
    rw [show w.append (ch :: rest) = w ++ ch :: rest from rfl, this]
    congr 1
    omega

theorem firstAt_count (ch : Char) (s : List Char) (i j : Nat) (h : firstAt ch s i = some j) :
    i ≤ j ∧ (s.drop (j - i + 1)).count ch + 1 ≤ s.count ch := by
  induction s generalizing i with
  | nil => simp [firstAt] at h
  | cons c s ih =>
    by_cases hc : c = ch
    · simp only [firstAt, hc, if_true, Option.some.injEq] at h
      subst h
      subst hc
      simp
    · simp only [firstAt, hc, if_false] at h
      obtain ⟨h1, h2⟩ := ih (i + 1) h
      refine ⟨by omega, ?_⟩
      have e : j - i + 1 = (j - (i + 1) + 1) + 1 := by omega
      rw [e, List.drop_succ_cons, List.count_cons_of_ne (fun x => hc x.symm)]
      exact h2

theorem find_first_of_count (s : List Char) (ch : Char) (p j : Nat)
    (h : find_first_of s ch p = some j) :
    (s.drop (j + 1)).count ch + 1 ≤ (s.drop p).count ch := by
  obtain ⟨h1, h2⟩ := firstAt_count ch (s.drop p) p j h
  rw [List.drop_drop] at h2
  have e : p + (j - p + 1) = j + 1 := by omega
  rw [e] at h2
  exact h2

theorem take_append_cons (pre : List Char) (c : Char) (R : List Char) (n : Nat)
    (h : pre.length + 1 ≤ n) :
    (pre ++ c :: R).take n = pre ++ c :: R.take (n - pre.length - 1) := by
  rw [List.take_append_eq_append_take]
  have h1 : pre.take n = pre := List.take_of_length_le (by omega)
  have h2 : n - pre.length = (n - pre.length - 1) + 1 := by omega
  rw [h1, h2, List.take_succ_cons]
  simp

theorem drop_append_cons (pre : List Char) (c : Char) (R : List Char) :
    (pre ++ c :: R).drop (pre.length + 1) = R := by
  rw [List.drop_append_eq_append_drop]
  simp

/-- The rectangle `parseIntRect` reads from four written numbers with `", "`
between them. -/
theorem parseIntRect_joined (a b c d : List Char) (va vb vc vd : Int)
    (ha : ',' ∉ a) (hb : ',' ∉ b) (hc : ',' ∉ c)
    (ra : ∀ sp rest, (∀ x ∈ sp, isSpace x = true) →
      (∀ x t, rest = x :: t → x.isDigit = false) → readInt32 (sp ++ (a ++ rest)) = some va)
    (rb : ∀ sp rest, (∀ x ∈ sp, isSpace x = true) →
      (∀ x t, rest = x :: t → x.isDigit = false) → readInt32 (sp ++ (b ++ rest)) = some vb)
    (rc : ∀ sp rest, (∀ x ∈ sp, isSpace x = true) →
      (∀ x t, rest = x :: t → x.isDigit = false) → readInt32 (sp ++ (c ++ rest)) = some vc)
    (rd : ∀ sp rest, (∀ x ∈ sp, isSpace x = true) →
      (∀ x t, rest = x :: t → x.isDigit = false) → readInt32 (sp ++ (d ++ rest)) = some vd)
    (theDefault : IntRect) :
    parseIntRect (String.mk (a ++ [',', ' '] ++ b ++ [',', ' '] ++ c ++ [',', ' '] ++ d))
      theDefault = ⟨va, vb, vc, vd⟩ := by
  have hsp : ∀ x ∈ [' '], isSpace x = true := by
    intro x hx
    rw [List.mem_singleton] at hx
    subst hx
    decide
  have hcomma : ∀ (R : List Char) (x : Char) (t : List Char), ',' :: R = x :: t →
      x.isDigit = false := by
    intro R x t h
    simp only [List.cons.injEq] at h
    rw [← h.1]
    decide
  have hnil : ∀ (x : Char) (t : List Char), ([] : List Char) = x :: t → x.isDigit = false := by
    intro x t h
    cases h
  have hdata : (String.mk (a ++ [',', ' '] ++ b ++ [',', ' '] ++ c ++ [',', ' '] ++ d)).data =
      a ++ ',' :: (' ' :: b ++ ',' :: (' ' :: c ++ ',' :: (' ' :: d))) := by
    simp
  have hb' : ',' ∉ ' ' :: b := by
    simp only [List.mem_cons, not_or]
    exact ⟨by decide, hb⟩
  have hc' : ',' ∉ ' ' :: c := by
    simp only [List.mem_cons, not_or]
    exact ⟨by decide, hc⟩
  -- the first comma
  have f1 : find_first_of (a ++ ',' :: (' ' :: b ++ ',' :: (' ' :: c ++ ',' :: (' ' :: d)))) ','
      0 = some a.length := by
    simp only [find_first_of, List.drop_zero]
    rw [firstAt_append ',' a _ ha 0]
    simp
  have d1 : (a ++ ',' :: (' ' :: b ++ ',' :: (' ' :: c ++ ',' :: (' ' :: d)))).drop
      (a.length + 1) = ' ' :: b ++ ',' :: (' ' :: c ++ ',' :: (' ' :: d)) :=
    drop_append_cons a ',' _
  have f2 : find_first_of (a ++ ',' :: (' ' :: b ++ ',' :: (' ' :: c ++ ',' :: (' ' :: d)))) ','
      (a.length + 1) = some (a.length + 1 + (b.length + 1)) := by
    simp only [find_first_of, d1]
    rw [firstAt_append ',' (' ' :: b) _ hb' (a.length + 1)]
    simp
  have d2 : (a ++ ',' :: (' ' :: b ++ ',' :: (' ' :: c ++ ',' :: (' ' :: d)))).drop
      (a.length + 1 + (b.length + 1) + 1) = ' ' :: c ++ ',' :: (' ' :: d) := by
    have e : a.length + 1 + (b.length + 1) + 1 = (a.length + 1) + ((' ' :: b).length + 1) := by
      simp only [List.length_cons]
      omega
    rw [e, ← List.drop_drop, d1]
    exact drop_append_cons (' ' :: b) ',' _
  have f3 : find_first_of (a ++ ',' :: (' ' :: b ++ ',' :: (' ' :: c ++ ',' :: (' ' :: d)))) ','
      (a.length + 1 + (b.length + 1) + 1) =
      some (a.length + 1 + (b.length + 1) + 1 + (c.length + 1)) := by
    simp only [find_first_of, d2]
    rw [firstAt_append ',' (' ' :: c) _ hc' _]
    simp
  have d3 : (a ++ ',' :: (' ' :: b ++ ',' :: (' ' :: c ++ ',' :: (' ' :: d)))).drop
      (a.length + 1 + (b.length + 1) + 1 + (c.length + 1) + 1) = ' ' :: d := by
    have e : a.length + 1 + (b.length + 1) + 1 + (c.length + 1) + 1 =
        (a.length + 1 + (b.length + 1) + 1) + ((' ' :: c).length + 1) := by
      simp only [List.length_cons]
      omega
    rw [e, ← List.drop_drop, d2]
    exact drop_append_cons (' ' :: c) ',' _
  -- the four numbers
  have p1 : parseInt32 (substr (a ++ ',' :: (' ' :: b ++ ',' :: (' ' :: c ++ ',' :: (' ' :: d))))
      0 (some a.length)) theDefault.left = va := by
    have : (a ++ ',' :: (' ' :: b ++ ',' :: (' ' :: c ++ ',' :: (' ' :: d)))).take a.length = a := by
      rw [List.take_append_eq_append_take]
      simp
    simp only [substr, List.drop_zero, this, parseInt32, extractInt32]
    have := ra [] [] (by simp) hnil
    simp only [List.nil_append, List.append_nil] at this
    rw [this]
  have p2 : parseInt32 (substr (a ++ ',' :: (' ' :: b ++ ',' :: (' ' :: c ++ ',' :: (' ' :: d))))
      (a.length + 1) (some (a.length + 1 + (b.length + 1)))) theDefault.top = vb := by
    simp only [substr, d1]
    rw [take_append_cons (' ' :: b) ',' _ _ (by simp; omega)]
    have h2 : ∀ R, readInt32 (' ' :: b ++ ',' :: R) = some vb :=
      fun R => rb [' '] (',' :: R) hsp (hcomma R)
    simp only [parseInt32, extractInt32, h2]
  have p3 : parseInt32 (substr (a ++ ',' :: (' ' :: b ++ ',' :: (' ' :: c ++ ',' :: (' ' :: d))))
      (a.length + 1 + (b.length + 1) + 1) (some (a.length + 1 + (b.length + 1) + 1 +
        (c.length + 1)))) theDefault.width = vc := by
    simp only [substr, d2]
    rw [take_append_cons (' ' :: c) ',' _ _ (by simp; omega)]
    have h2 : ∀ R, readInt32 (' ' :: c ++ ',' :: R) = some vc :=
      fun R => rc [' '] (',' :: R) hsp (hcomma R)
    simp only [parseInt32, extractInt32, h2]
  have p4 : parseInt32 (substr (a ++ ',' :: (' ' :: b ++ ',' :: (' ' :: c ++ ',' :: (' ' :: d))))
      (a.length + 1 + (b.length + 1) + 1 + (c.length + 1) + 1) none) theDefault.height = vd := by
    simp only [substr, d3, parseInt32, extractInt32]
    have h2 : readInt32 (' ' :: d) = some vd := by
      have := rd [' '] [] hsp hnil
      simpa using this
    rw [h2]
  unfold parseIntRect
  rw [hdata]
  simp only [f1, f2, f3, p1, p2, p3, p4]

end StringUtil

/-- C29 (what the code does): `convertIntRect` writes top, left, width, height
and `parseIntRect` reads left, top, width, height, so for every rectangle with
`Int32` members the rectangle read back from the string has left and top
exchanged: the rectangle (1, 2, 3, 4) is written as `"2, 1, 3, 4"` and read back
as (2, 1, 3, 4).  A string with fewer than three commas gives the default. -/
theorem c29_round_trip_exchanges_left_and_top :
    (∀ r d : IntRect,
      (-(2 : Int) ^ 31 ≤ r.left ∧ r.left ≤ (2 : Int) ^ 31 - 1) →
      (-(2 : Int) ^ 31 ≤ r.top ∧ r.top ≤ (2 : Int) ^ 31 - 1) →
      (-(2 : Int) ^ 31 ≤ r.width ∧ r.width ≤ (2 : Int) ^ 31 - 1) →
      (-(2 : Int) ^ 31 ≤ r.height ∧ r.height ≤ (2 : Int) ^ 31 - 1) →
      StringUtil.parseIntRect (StringUtil.convertIntRect r) d =
        ⟨r.top, r.left, r.width, r.height⟩) ∧
    (∀ (s : String) (d : IntRect), s.data.count ',' < 3 → StringUtil.parseIntRect s d = d) ∧
    StringUtil.convertIntRect ⟨1, 2, 3, 4⟩ = "2, 1, 3, 4" ∧
    StringUtil.parseIntRect (StringUtil.convertIntRect ⟨1, 2, 3, 4⟩) ⟨0, 0, 0, 0⟩ =
      ⟨2, 1, 3, 4⟩ ∧
    StringUtil.parseIntRect (StringUtil.convertIntRect ⟨1, 2, 3, 4⟩) ⟨0, 0, 0, 0⟩ ≠
      ⟨1, 2, 3, 4⟩ := by
  refine ⟨?_, ?_, by decide, by decide, by decide⟩
  · intro r d hl ht hw hh
    exact StringUtil.parseIntRect_joined _ _ _ _ r.top r.left r.width r.height
      (StringUtil.writeInt_no_comma _) (StringUtil.writeInt_no_comma _)
      (StringUtil.writeInt_no_comma _)
      (fun sp rest h1 h2 => StringUtil.readInt32_writeInt _ ht.1 ht.2 sp rest h1 h2)
      (fun sp rest h1 h2 => StringUtil.readInt32_writeInt _ hl.1 hl.2 sp rest h1 h2)
      (fun sp rest h1 h2 => StringUtil.readInt32_writeInt _ hw.1 hw.2 sp rest h1 h2)
      (fun sp rest h1 h2 => StringUtil.readInt32_writeInt _ hh.1 hh.2 sp rest h1 h2) d
  · intro s d h
    unfold StringUtil.parseIntRect
    cases h1 : StringUtil.find_first_of s.data ',' 0 with
    | none => rfl
    | some c1 =>
      cases h2 : StringUtil.find_first_of s.data ',' (c1 + 1) with
      | none => simp only [h2]
      | some c2 =>
        cases h3 : StringUtil.find_first_of s.data ',' (c2 + 1) with
        | none => simp only [h2, h3]
        | some c3 =>
          have k1 := StringUtil.find_first_of_count _ _ _ _ h1
          have k2 := StringUtil.find_first_of_count _ _ _ _ h2
          have k3 := StringUtil.find_first_of_count _ _ _ _ h3
          simp only [List.drop_zero] at k1
          omega

/-! ### C24: the moment of the cleanup hook -/

namespace ISystem

/-- The method `eraseEntity` is `stateAtCleanup`, the call of the hook, and the
removal on the side of the entity. -/
theorem eraseEntity_from_cleanup (fuel : Nat) (w : World) (s : SystemPtr) (k i : Nat) :
    eraseEntity (fuel + 1) w s k i =
      match stateAtCleanup w s k i with
      | .error f => .error f
      | .ok (w1, anEntity) =>
        if IEntity.hasSystem (w1.hook (.handleCleanup s anEntity)) anEntity
            ((w1.hook (.handleCleanup s anEntity)).systems s).mSystemID then
          IEntity.dropSystem fuel (w1.hook (.handleCleanup s anEntity)) anEntity
            ((w1.hook (.handleCleanup s anEntity)).systems s).mSystemID
        else .ok (w1.hook (.handleCleanup s anEntity)) := by
  simp only [eraseEntity, stateAtCleanup]
  cases StdMap.find (w.systems s).mEntities k with
  | none => rfl
  | some q =>
    simp only []
    cases q[i]? with
    | none => rfl
    | some anEntity =>
      simp only []
      split <;> rfl

end ISystem

/-- Outside the states of the protocol the hook can find the entity registered:
in `World.addedTwice` system 0 holds entity 5 (ID 6, order 0) in the deques of
order 0 and of order 1; `dropEntity(6)` erases the one of order 0, and in the
state in which `eraseEntity` calls `handleCleanup` the system still holds the
entity, in the deque of order 1. -/
theorem ISystem.hasEntityAtCleanup_of_a_second_copy :
    (World.addedTwice.systems 0).mEntities = [(0, [5]), (1, [5])] ∧
    ISystem.findEntity World.addedTwice 6 (World.addedTwice.systems 0).mEntities = some (0, 0) ∧
    ISystem.hasEntityAtCleanup World.addedTwice 0 0 0 = some true := by
  decide

namespace StdMap

end StdMap

namespace ISystem

end ISystem

namespace IEntity

end IEntity

